import Mathlib

/-!
# MACSio command-line argument processing (`macsio_clargs.c`)

A shallow embedding of `GetSizeFromModifierChar`, `add_param_to_json_retobj` and
`MACSIO_CLARGS_ProcessCmdline`, followed by theorems about them.

Conventions of the embedding

* A C string is the list of its characters before the terminating NUL (`Str`).
* `int` is 32 bits wide and `long` 64 bits (LP64); `int` arithmetic that leaves the
  range wraps modulo `2^32` (`wrapInt32`).
* The serial build is modelled (`HAVE_MPI` undefined), so `rank = 0`.
* Reads outside an array or a string end the run with `Outcome.undef`, and so does a
  write past the local array `argName[64]`. The size of the storage a string destination
  points to is recorded where the source computes it; a `strcpy` past it is not trapped.
* The variadic declaration list is given as a list of `ArgDecl` records: each holds a
  specifier, a help string and the destination pointers the caller passes after them. The
  source reads them through one `va_list`, so a declaration that passes other pointers
  than the declaration loop takes ends the run with `Outcome.undef`.
-/

namespace MACSio

/-! ## C library -/

/-- A C string: its characters before the terminating NUL. -/
abbrev Str := List Char

/-- The character that terminates every C string. -/
def NUL : Char := Char.ofNat 0

/-- The value of `s[i]` for `0 <= i`: the characters of `s`, the terminating NUL at index
`strlen(s)` (and NUL beyond it, which the source never reads). -/
def cstrAt (s : Str) (i : Nat) : Char := s.getD i NUL

/-- The test `strncmp(s, t, n) == 0`: the first `n` characters agree, the comparison
stopping early at a NUL common to both strings. -/
def strncmpEq : Str → Str → Nat → Bool
  | _, _, 0 => true
  | [], [], _ + 1 => true
  | [], _ :: _, _ + 1 => false
  | _ :: _, [], _ + 1 => false
  | a :: s, b :: t, n + 1 => a == b && strncmpEq s t n

/-- The characters `strncpy(dst, src, n)` leaves in a zeroed buffer `dst` of at least `n`
bytes: the first `n` characters of `src`. The call writes `n` bytes whatever the length
of `src` is; that they fit into `dst`, and that `dst` then holds a terminating NUL when
it is read as a string, is checked where the source calls it (`matchStep`,
`convertParam`, `assignArg`). -/
def strncpy (src : Str) (n : Nat) : Str := src.take n

/-- The test `strstr(haystack, needle) != NULL`. -/
def strstrFound : Str → Str → Bool
  | [], needle => needle.isEmpty
  | c :: rest, needle => needle.isPrefixOf (c :: rest) || strstrFound rest needle

/-- The test `isdigit(c)`. -/
def isdigit (c : Char) : Bool := decide (48 ≤ c.toNat ∧ c.toNat ≤ 57)

/-- The test `isspace(c)` in the C locale: space, `\t`, `\n`, `\v`, `\f`, `\r`. -/
def isspace (c : Char) : Bool := decide (c.toNat = 32 ∨ (9 ≤ c.toNat ∧ c.toNat ≤ 13))

/-- Largest value of `long`. -/
def LONG_MAX : Int := 9223372036854775807

/-- Smallest value of `long`. -/
def LONG_MIN : Int := -9223372036854775808

/-- The value of a character as a digit of `strtol`: `0-9`, then letters from 10. -/
def digitValue (c : Char) : Option Nat :=
  if 48 ≤ c.toNat ∧ c.toNat ≤ 57 then some (c.toNat - 48)
  else if 97 ≤ c.toNat ∧ c.toNat ≤ 122 then some (c.toNat - 97 + 10)
  else if 65 ≤ c.toNat ∧ c.toNat ≤ 90 then some (c.toNat - 65 + 10)
  else none

/-- The value of the longest run of leading characters that are digits in `base`,
continuing the accumulator `acc`. -/
def strtolDigits (base : Nat) : Str → Nat → Nat
  | [], acc => acc
  | c :: cs, acc =>
    match digitValue c with
    | some d => if d < base then strtolDigits base cs (acc * base + d) else acc
    | none => acc

/-- The part of `strtol`'s subject after leading white space. -/
def strtolSkipSpace (nptr : Str) : Str := nptr.dropWhile isspace

/-- Whether the subject of `strtol` carries a minus sign. -/
def strtolNegative (nptr : Str) : Bool := cstrAt (strtolSkipSpace nptr) 0 == Char.ofNat 45

/-- The part of `strtol`'s subject after white space and an optional sign. -/
def strtolUnsigned (nptr : Str) : Str :=
  let s := strtolSkipSpace nptr
  if cstrAt s 0 == Char.ofNat 45 || cstrAt s 0 == Char.ofNat 43 then s.tail else s

/-- Whether `s` starts with `0x` or `0X` followed by a hexadecimal digit. -/
def strtolHexMark (s : Str) : Bool :=
  cstrAt s 0 == Char.ofNat 48 && (cstrAt s 1 == Char.ofNat 120 || cstrAt s 1 == Char.ofNat 88) &&
    (match digitValue (cstrAt s 2) with
     | some d => decide (d < 16)
     | none => false)

/-- The magnitude `strtol(nptr, NULL, base)` reads, before the sign is applied and the
result is clamped to `long`. Base `0` selects 16 after `0x`, 8 after `0`, else 10. -/
def strtolMagnitude (nptr : Str) (base : Nat) : Nat :=
  let s := strtolUnsigned nptr
  if (base == 0 || base == 16) && strtolHexMark s then strtolDigits 16 (s.drop 2) 0
  else if base == 0 then
    (if cstrAt s 0 == Char.ofNat 48 then strtolDigits 8 s 0 else strtolDigits 10 s 0)
  else strtolDigits base s 0

/-- The C library `strtol(nptr, NULL, base)` with a 64-bit `long`: white space, an
optional sign, the longest digit run; a value outside `long` is clamped. -/
def strtol (nptr : Str) (base : Nat) : Int :=
  if strtolNegative nptr then max (-(strtolMagnitude nptr base : Int)) LONG_MIN
  else min (strtolMagnitude nptr base : Int) LONG_MAX

/-- Conversion of an integer value to `int`, and the result of `int` arithmetic: the
value reduced modulo `2^32` into `[-2^31, 2^31)`. -/
def wrapInt32 (x : Int) : Int := (x + 2147483648) % 4294967296 - 2147483648

/-- A `double` obtained by `atof`: represented by the text it was converted from, the
conversion itself is not modelled. -/
structure Dbl where
  text : Str
  deriving DecidableEq, Repr

/-- The C library `atof`. -/
def atof (s : Str) : Dbl := ⟨s⟩

/-! ## json-c: the structured document -/

/-- A value of the json-c library, as far as this code builds them. -/
inductive json_object where
  | int (v : Int)
  | double (d : Dbl)
  | string (s : Str)
  | boolean (b : Bool)
  | array (elems : List json_object)

/-- The members of a json-c object (`json_object_new_object()` is the empty list): an
ordered mapping with one entry per key. -/
abbrev JDoc := List (Str × json_object)

/-- The json-c `json_object_object_get_ex(obj, key, &value)`: the value stored under
`key`, when the key exists. -/
def json_object_object_get_ex : JDoc → Str → Option json_object
  | [], _ => none
  | (k, v) :: rest, key => if k = key then some v else json_object_object_get_ex rest key

/-- The json-c `json_object_object_add(obj, key, val)`: replaces the value of an existing
key, else appends a new entry. -/
def json_object_object_add : JDoc → Str → json_object → JDoc
  | [], key, val => [(key, val)]
  | (k, v) :: rest, key, val =>
    if k = key then (k, val) :: rest else (k, v) :: json_object_object_add rest key val

/-- The json-c `json_object_is_type(obj, json_type_array)`. -/
def json_object_is_array : json_object → Bool
  | .array _ => true
  | _ => false

/-! ## `macsio_clargs.h` -/

/-- Error mode `MACSIO_CLARGS_WARN`. -/
def MACSIO_CLARGS_WARN : Int := 0
/-- Error mode `MACSIO_CLARGS_ERROR`; also the return value on error. -/
def MACSIO_CLARGS_ERROR : Int := 1
/-- Route mode `MACSIO_CLARGS_TOMEM`. -/
def MACSIO_CLARGS_TOMEM : Int := 0
/-- Route mode `MACSIO_CLARGS_TOJSON`. -/
def MACSIO_CLARGS_TOJSON : Int := 1
/-- Return value `MACSIO_CLARGS_HELP`. -/
def MACSIO_CLARGS_HELP : Int := -1
/-- Return value `MACSIO_CLARGS_OK`. -/
def MACSIO_CLARGS_OK : Int := 0

/-- The bit fields of `MACSIO_CLARGS_ArgvFlags_t`: `error_mode` (1 bit: 0 warn, 1 abort),
`route_mode` (2 bits: 0 scalar variables, 1 json_object, 2 and 3 unused) and
`defaults_mode` (1 bit: 0 assign, 1 do not assign). -/
structure MACSIO_CLARGS_ArgvFlags_t where
  error_mode : Int
  route_mode : Int
  defaults_mode : Int
  deriving DecidableEq, Repr

/-! ## `macsio_log.h` -/

/-- The severities this file passes to the logging macros. -/
inductive MACSIO_LOG_MsgSeverity_t where
  | MACSIO_LOG_MsgWarn
  | MACSIO_LOG_MsgErr
  | MACSIO_LOG_MsgDie
  deriving DecidableEq, Repr

/-- The messages this file logs, with the values formatted into them. -/
inductive LogText where
  /-- The text "invalid argument type encountered at position %d". -/
  | invalidArgumentType (position : Int)
  /-- The text "%s: unknown argument %s. Type %s --help for help". -/
  | unknownArgument (prog : Str) (arg : Str)
  /-- The text "integer overflow (%.0f) for arg \"%s\"". -/
  | integerOverflow (value : Int) (arg : Str)
  /-- The text "too few arguments for command-line options". -/
  | tooFewArguments
  deriving DecidableEq, Repr

/-- One logged message. -/
structure LogEntry where
  severity : MACSIO_LOG_MsgSeverity_t
  text : LogText
  deriving DecidableEq, Repr

/-! ## `macsio_clargs.c` -/

/-- The source's `GetSizeFromModifierChar`. -/
def GetSizeFromModifierChar (c : Char) : Int :=
  if c = Char.ofNat 98 ∨ c = Char.ofNat 66 then 1            -- 'b', 'B': 1<<0
  else if c = Char.ofNat 107 ∨ c = Char.ofNat 75 then 1024   -- 'k', 'K': 1<<10
  else if c = Char.ofNat 109 ∨ c = Char.ofNat 77 then 1048576  -- 'm', 'M': 1<<20
  else if c = Char.ofNat 103 ∨ c = Char.ofNat 71 then 1073741824  -- 'g', 'G': 1<<30
  else 1

/-- The source's `add_param_to_json_retobj`: a new key is added; a key holding an array
gets the value appended to that array; a key holding anything else is replaced by the
two-element array of the old and the new value. -/
def add_param_to_json_retobj (retobj : JDoc) (key : Str) (addobj : json_object) : JDoc :=
  match json_object_object_get_ex retobj key with
  | some existing_member =>
    match existing_member with
    | .array elems => json_object_object_add retobj key (.array (elems ++ [addobj]))
    | _ => json_object_object_add retobj key (.array [existing_member, addobj])
  | none => json_object_object_add retobj key addobj

/-! ### Caller memory, state and results -/

/-- Storage a `char *` destination points to: the size it was allocated with and the
string it holds. -/
structure Buf where
  cap : Nat
  data : Str
  deriving DecidableEq, Repr

/-- The object a binding destination points to: an `int`, a `double`, or a `char *`
that is NULL (`none`) or points to storage. -/
inductive Cell where
  | int (v : Int)
  | double (d : Dbl)
  | charp (b : Option Buf)
  deriving DecidableEq, Repr

/-- Caller memory: the object behind every destination pointer. -/
abbrev Mem := Nat → Cell

/-- The assignment `*p = c`. -/
def Mem.store (m : Mem) (p : Nat) (c : Cell) : Mem := fun q => if q = p then c else m q

/-- What the help renderer prints: the specifier line `"   %-s\n"`, and one line per
chunk of the help text, ended by `"-\n"` when `hyphen` is set and by `"\n"` otherwise. -/
inductive OutItem where
  | fmtLine (fmtStr : Str)
  | helpChunk (text : Str) (hyphen : Bool)
  deriving DecidableEq, Repr

/-- How a call ends: it returns a code, it is aborted by a `Die` message, it reaches
behaviour the C language leaves undefined (a read outside a string or an array, a write
through NULL), or it never returns. -/
inductive Outcome where
  | ret (code : Int)
  | die
  | undef
  | hang
  deriving DecidableEq, Repr

/-- The observable state of a call: caller memory, the local `ret_json_obj`, the logged
messages and the printed help. -/
structure State where
  mem : Mem
  ret_json_obj : JDoc
  log : List LogEntry
  out : List OutItem

/-- The result of a call: how it ended, the state then, and the document assigned to
`*retobj` (`none` when `*retobj` was not assigned). -/
structure Result where
  outcome : Outcome
  st : State
  retobj : Option JDoc

/-- What one step of the matcher yields: the token index and state to go on with, or the
end of the call. -/
inductive Step where
  | next (i : Nat) (st : State)
  | stop (o : Outcome) (st : State)

/-- Modelled from the spec: `macsio_log.h` is not among the sources. `MACSIO_LOG_MSG` and
`MACSIO_LOG_MSGV` emit the message with its severity; severity `Die` is fatal and aborts
the process at once ("fatal, immediate abort"), while the severities `Warn` and `Err` only
frame the message and control returns to the caller. -/
def MACSIO_LOG_MSG (sev : MACSIO_LOG_MsgSeverity_t) (text : LogText) (i : Nat) (st : State) :
    Step :=
  if sev = .MACSIO_LOG_MsgDie then .stop .die { st with log := st.log ++ [⟨sev, text⟩] }
  else .next i { st with log := st.log ++ [⟨sev, text⟩] }

/-- One group of the variadic declaration list: the format specifier, the help string
and the destination pointers the caller passes between this help string and the next
specifier (or the end marker). -/
structure ArgDecl where
  fmtStr : Str
  helpStr : Str
  ptrs : List Nat
  deriving DecidableEq, Repr

/-- The source's `MACSIO_KnownArgInfo_t` (the `next` pointer is the list it is kept in).
An entry of `paramPtrs` is `none` for a NULL or unassigned pointer. -/
structure MACSIO_KnownArgInfo_t where
  helpStr : Str
  fmtStr : Str
  argNameLength : Int
  paramCount : Nat
  paramTypes : List Char
  paramPtrs : List (Option Nat)
  deriving DecidableEq, Repr

/-! ### The help renderer (source lines 190-223) -/

/-- The loop `while (i < n)` that prints a help string in chunks of `terminalWidth`
characters, run for at most `fuel` iterations: `none` when the fuel does not suffice, else
the lines printed (`Except.ok`) or the way the loop failed (`Except.error`).
`fprintf(helpFmtStr, p)` prints at most `terminalWidth` characters of `p`; a negative
`terminalWidth` makes `helpFmtStr` an invalid conversion and moves `p` before the string,
which is undefined. -/
def helpLoop (helpStr : Str) (terminalWidth : Int) :
    Nat → Nat → List OutItem → Option (Except Outcome (List OutItem))
  | 0, i, out => if i < helpStr.length then none else some (.ok out)
  | fuel + 1, i, out =>
    if i < helpStr.length then
      if terminalWidth < 0 then some (.error .undef)
      else
        let chunk := (helpStr.drop i).take terminalWidth.toNat
        let i1 := i + terminalWidth.toNat
        let hyphen := decide (i1 < helpStr.length) && cstrAt helpStr i1 != Char.ofNat 32
        helpLoop helpStr terminalWidth fuel i1 (out ++ [.helpChunk chunk hyphen])
    else some (.ok out)

/-- The help printed for one declaration: the specifier line, then the help string. The
loop gets `strlen(helpStr)` iterations, which it never exceeds when it advances; running
out of them is reported as `Outcome.hang`. (The banner printed once per process, guarded
by a static variable, is not modelled.) -/
def printHelp (fmtStr helpStr : Str) (terminalWidth : Int) (out : List OutItem) :
    Except Outcome (List OutItem) :=
  match helpLoop helpStr terminalWidth helpStr.length 0 (out ++ [.fmtLine fmtStr]) with
  | some r => r
  | none => .error .hang

/-! ### The specification registry (source lines 168-300) -/

/-- The test `fmtStr[i] == '%' && fmtStr[i+1] != '%'` of both passes over a specifier. -/
def isMarker (fmtStr : Str) (i : Nat) : Bool :=
  cstrAt fmtStr i == Char.ofNat 37 && cstrAt fmtStr (i + 1) != Char.ofNat 37

/-- One iteration of the first pass: `paramCount++` at a marker, and `argNameLength = i-1`
there while `argNameLength` is still 0. -/
def countStep (fmtStr : Str) (acc : Nat × Int) (i : Nat) : Nat × Int :=
  if isMarker fmtStr i then (acc.1 + 1, if acc.2 = 0 then (i : Int) - 1 else acc.2) else acc

/-- The first pass `for (i = 0; i < n; i++)` over a specifier: `(paramCount, argNameLength)`. -/
def countParams (fmtStr : Str) : Nat × Int :=
  (List.range fmtStr.length).foldl (countStep fmtStr) (0, 0)

/-- The variables of the second pass: the conversion characters and destination pointers
collected so far (`k` is their number), the variadic pointers not yet taken, and
`invalidArgTypeFound`. -/
structure BindState where
  paramTypes : List Char
  paramPtrs : List (Option Nat)
  ap : List Nat
  invalidArgTypeFound : Int
  deriving DecidableEq, Repr

/-- The test that a conversion character is one of the `case` labels `d`, `s`, `f`, `n`. -/
def knownType (c : Char) : Bool :=
  c == Char.ofNat 100 || c == Char.ofNat 115 || c == Char.ofNat 102 || c == Char.ofNat 110

/-- One iteration of the second pass. At a marker `paramTypes[k] = fmtStr[i+1]`; in route
mode TOMEM a known type takes the next variadic pointer and any other character sets
`invalidArgTypeFound = k+1`; in the other route modes `paramPtrs[k]` stays NULL. -/
def bindStep (flags : MACSIO_CLARGS_ArgvFlags_t) (fmtStr : Str) (b : BindState) (i : Nat) :
    BindState :=
  if isMarker fmtStr i then
    let c := cstrAt fmtStr (i + 1)
    let k := b.paramTypes.length
    if flags.route_mode = MACSIO_CLARGS_TOMEM then
      if knownType c then
        { b with paramTypes := b.paramTypes ++ [c], paramPtrs := b.paramPtrs ++ [b.ap.head?],
                 ap := b.ap.tail }
      else
        { b with paramTypes := b.paramTypes ++ [c], paramPtrs := b.paramPtrs ++ [none],
                 invalidArgTypeFound := (k : Int) + 1 }
    else
      { b with paramTypes := b.paramTypes ++ [c], paramPtrs := b.paramPtrs ++ [none] }
  else b

/-- The second pass `for (i = 0; i < n; i++)` over a specifier. -/
def bindParams (flags : MACSIO_CLARGS_ArgvFlags_t) (fmtStr : Str) (ap : List Nat)
    (invalidArgTypeFound : Int) : BindState :=
  (List.range fmtStr.length).foldl (bindStep flags fmtStr) ⟨[], [], ap, invalidArgTypeFound⟩

/-- The descriptor built for one declaration, with the new value of `invalidArgTypeFound`.
Without markers the argument is a boolean: `argNameLength = n`, no `paramTypes`, and one
destination pointer, taken from the variadic list in route mode TOMEM only. The pointers
are taken from the front of `d.ptrs`; that the declaration passes exactly the pointers
taken here (`ptrsTaken`) is checked by the declaration loop `declareArgs`. -/
def makeKnownArg (flags : MACSIO_CLARGS_ArgvFlags_t) (d : ArgDecl) (invalidArgTypeFound : Int) :
    MACSIO_KnownArgInfo_t × Int :=
  let cp := countParams d.fmtStr
  if cp.1 ≠ 0 then
    let b := bindParams flags d.fmtStr d.ptrs invalidArgTypeFound
    (⟨d.helpStr, d.fmtStr, cp.2, cp.1, b.paramTypes, b.paramPtrs⟩, b.invalidArgTypeFound)
  else
    (⟨d.helpStr, d.fmtStr, d.fmtStr.length, 0, [],
      [if flags.route_mode = MACSIO_CLARGS_TOMEM then d.ptrs.head? else none]⟩,
     invalidArgTypeFound)

/-- The variables of the declaration loop: the registry built so far, in declaration
order, `invalidArgTypeFound` and the help printed. -/
structure DeclState where
  knownArgs : List MACSIO_KnownArgInfo_t
  invalidArgTypeFound : Int
  out : List OutItem

/-- The number of `va_arg` calls that take a destination pointer for one specifier
(source lines 260-263 and 278): in route mode TOMEM one for every type marker followed by
`d`, `s`, `f` or `n` (none for a marker followed by another character), and one for a
specifier without markers; none in the other route modes. -/
def ptrsTaken (flags : MACSIO_CLARGS_ArgvFlags_t) (fmtStr : Str) : Nat :=
  if flags.route_mode = MACSIO_CLARGS_TOMEM then
    if (countParams fmtStr).1 ≠ 0 then
      ((List.range fmtStr.length).filter
        (fun i => isMarker fmtStr i && knownType (cstrAt fmtStr (i + 1)))).length
    else 1
  else 0

/-- The declaration loop `while (1)` over the variadic list: prints each declaration's
help when help was requested, then appends its descriptor to the registry. The list is
read through one `va_list`: when a declaration passes more pointers than the loop takes
for its specifier, the next `va_arg(ap, char *)` reads a destination pointer as the next
specifier, and when it passes fewer, a `va_arg` for a pointer reads the next specifier;
both are undefined. -/
def declareArgs (flags : MACSIO_CLARGS_ArgvFlags_t) (helpWasRequested : Bool)
    (terminalWidth : Int) : List ArgDecl → DeclState → Except Outcome DeclState
  | [], ds => .ok ds
  | d :: rest, ds =>
    match (if helpWasRequested then printHelp d.fmtStr d.helpStr terminalWidth ds.out
           else .ok ds.out) with
    | .error o => .error o
    | .ok out =>
      if d.ptrs.length = ptrsTaken flags d.fmtStr then
        let ka := makeKnownArg flags d ds.invalidArgTypeFound
        declareArgs flags helpWasRequested terminalWidth rest
          ⟨ds.knownArgs ++ [ka.1], ka.2, out⟩
      else .error Outcome.undef

/-! ### The token matcher and converter (source lines 372-502) -/

/-- The conversion `(unsigned int)` of an `int`. -/
def toUnsigned (x : Int) : Nat := (x % 4294967296).toNat

/-- The search `while (p && !foundArg)` through the registry: the first descriptor with
`strncmp(argv[i], p->fmtStr, (unsigned int)(p->argNameLength)) == 0`. -/
def findArg (arg : Str) : List MACSIO_KnownArgInfo_t → Option MACSIO_KnownArgInfo_t
  | [] => none
  | p :: rest =>
    if strncmpEq arg p.fmtStr (toUnsigned p.argNameLength) then some p else findArg arg rest

/-- The part of `argv[0]` after its last `/` (all of it without one), as the
unknown-argument message names the program. -/
def progName (argv0 : Str) : Str := (argv0.reverse.takeWhile (fun c => c != Char.ofNat 47)).reverse

/-- The severity `flags.error_mode ? MACSIO_LOG_MsgErr : MACSIO_LOG_MsgWarn`. -/
def errSeverity (flags : MACSIO_CLARGS_ArgvFlags_t) : MACSIO_LOG_MsgSeverity_t :=
  if flags.error_mode ≠ 0 then .MACSIO_LOG_MsgErr else .MACSIO_LOG_MsgWarn

/-- The assignment `*p = c` through a destination pointer of the registry; undefined
through NULL. -/
def storeThrough (ptr : Option Nat) (c : Cell) (i : Nat) (st : State) : Step :=
  match ptr with
  | some a => .next i { st with mem := st.mem.store a c }
  | none => .stop .undef st

/-- The call `add_param_to_json_retobj(ret_json_obj, key, val)`. -/
def addToDoc (key : Str) (val : json_object) (i : Nat) (st : State) : Step :=
  .next i { st with ret_json_obj := add_param_to_json_retobj st.ret_json_obj key val }

/-- The `case 'd'` of the conversion switch, entered with token index `i`: the value
token is `argv[++i]`, its last character `argv[i][strlen(argv[i])-1]` selects the
multiplier, `tmpInt = strtol(argv[i], NULL, 10)` is narrowed to `int`, `tmpInt * n` is an
`int` product, and `tmpDbl` holds that `int` exactly. -/
def convertInt (flags : MACSIO_CLARGS_ArgvFlags_t) (argv : List Str) (argName : Str)
    (ptr : Option Nat) (i : Nat) (st : State) : Step :=
  match argv.get? (i + 1) with
  | none => .stop .undef st
  | some tok =>
    if tok.length = 0 then .stop .undef st      -- reads argv[i][-1]
    else
      let n := GetSizeFromModifierChar (cstrAt tok (tok.length - 1))
      let tmpInt := wrapInt32 (strtol tok 10)
      let tmpDbl := wrapInt32 (tmpInt * n)
      if wrapInt32 tmpDbl ≠ tmpDbl then
        MACSIO_LOG_MSG (errSeverity flags) (.integerOverflow tmpDbl (argv.getD i [])) (i + 1) st
      else if flags.route_mode = MACSIO_CLARGS_TOMEM then
        storeThrough ptr (.int (wrapInt32 tmpDbl)) (i + 1) st
      else if flags.route_mode = MACSIO_CLARGS_TOJSON then
        addToDoc argName (.int (wrapInt32 tmpDbl)) (i + 1) st
      else .next (i + 1) st

/-- The `strcpy(*pChar, tok)` of the `case 's'` into storage that exists already. -/
def copyInto (ptr : Option Nat) (tok : Str) (i : Nat) (st : State) : Step :=
  match ptr with
  | none => .stop .undef st
  | some a =>
    match st.mem a with
    | .charp (some b) => .next i { st with mem := st.mem.store a (.charp (some ⟨b.cap, tok⟩)) }
    | _ => .stop .undef st

/-- The `case 's'` of the conversion switch. When the destination pointer is not NULL and
the `char *` behind it is NULL, route mode TOMEM allocates `strlen(argv[++i]+1)` bytes and
copies the token; otherwise TOMEM copies into the storage there; TOJSON adds the token as a
string in both branches. -/
def convertStr (flags : MACSIO_CLARGS_ArgvFlags_t) (argv : List Str) (argName : Str)
    (ptr : Option Nat) (i : Nat) (st : State) : Step :=
  let holdsNull : Bool :=
    match ptr with
    | some a => (match st.mem a with
                 | .charp none => true
                 | _ => false)
    | none => false
  if holdsNull then
    if flags.route_mode = MACSIO_CLARGS_TOMEM then
      match argv.get? (i + 1) with
      | none => .stop .undef st
      | some [] => .stop .undef st            -- strlen(argv[i]+1) starts past the NUL
      | some (c :: t) => storeThrough ptr (.charp (some ⟨t.length, c :: t⟩)) (i + 1) st
    else if flags.route_mode = MACSIO_CLARGS_TOJSON then
      match argv.get? (i + 1) with
      | none => .stop .undef st
      | some tok => addToDoc argName (.string tok) (i + 1) st
    else .next i st
  else
    if flags.route_mode = MACSIO_CLARGS_TOMEM then
      match argv.get? (i + 1) with
      | none => .stop .undef st
      | some tok => copyInto ptr tok (i + 1) st
    else if flags.route_mode = MACSIO_CLARGS_TOJSON then
      match argv.get? (i + 1) with
      | none => .stop .undef st
      | some tok => addToDoc argName (.string tok) (i + 1) st
    else .next i st

/-- The `case 'f'` of the conversion switch. -/
def convertDbl (flags : MACSIO_CLARGS_ArgvFlags_t) (argv : List Str) (argName : Str)
    (ptr : Option Nat) (i : Nat) (st : State) : Step :=
  if flags.route_mode = MACSIO_CLARGS_TOMEM then
    match argv.get? (i + 1) with
    | none => .stop .undef st
    | some tok => storeThrough ptr (.double (atof tok)) (i + 1) st
  else if flags.route_mode = MACSIO_CLARGS_TOJSON then
    match argv.get? (i + 1) with
    | none => .stop .undef st
    | some tok => addToDoc argName (.double (atof tok)) (i + 1) st
  else .next i st

/-- The `case 'n'` of the conversion switch: records `i++`, under the key "argi" in route
mode TOJSON. -/
def convertArgi (flags : MACSIO_CLARGS_ArgvFlags_t) (ptr : Option Nat) (i : Nat) (st : State) :
    Step :=
  if flags.route_mode = MACSIO_CLARGS_TOMEM then storeThrough ptr (.int i) (i + 1) st
  else if flags.route_mode = MACSIO_CLARGS_TOJSON then
    addToDoc [Char.ofNat 97, Char.ofNat 114, Char.ofNat 103, Char.ofNat 105] (.int i) (i + 1) st
  else .next i st

/-- The size of the local array `char argName[64]`. -/
def argNameSize : Nat := 64

/-- The `switch (p->paramTypes[j])`; a character without a `case` does nothing. In route
mode TOJSON the cases `d`, `s` and `f` read `argName` as the key of the value they add:
when `argName[64]` holds 64 characters of the token it has no terminating NUL and the
read runs past the array, which is undefined. The test stands before the switch because
each of these cases either reaches that read or is undefined before it, leaving the same
state: the one branch without the read, the overflow message of `case 'd'`, is never
taken, as `(int)tmpDbl != tmpDbl` compares an `int` value with itself. -/
def convertParam (flags : MACSIO_CLARGS_ArgvFlags_t) (argv : List Str) (argName : Str)
    (p : MACSIO_KnownArgInfo_t) (j : Nat) (i : Nat) (st : State) : Step :=
  let c := p.paramTypes.getD j NUL
  let ptr := (p.paramPtrs.getD j none)
  if flags.route_mode = MACSIO_CLARGS_TOJSON ∧ argNameSize ≤ argName.length ∧
      (c = Char.ofNat 100 ∨ c = Char.ofNat 115 ∨ c = Char.ofNat 102) then .stop .undef st
  else if c = Char.ofNat 100 then convertInt flags argv argName ptr i st
  else if c = Char.ofNat 115 then convertStr flags argv argName ptr i st
  else if c = Char.ofNat 102 then convertDbl flags argv argName ptr i st
  else if c = Char.ofNat 110 then convertArgi flags ptr i st
  else .next i st

/-- The loop `for (j = 0; j < p->paramCount; j++)` with `todo` iterations left: each starts
with the check `i == argc - 1`, which logs "too few arguments" with severity `Die`. -/
def paramLoop (flags : MACSIO_CLARGS_ArgvFlags_t) (argv : List Str) (argName : Str)
    (p : MACSIO_KnownArgInfo_t) : Nat → Nat → Nat → State → Step
  | 0, _, i, st => .next i st
  | todo + 1, j, i, st =>
    match (if i + 1 = argv.length then MACSIO_LOG_MSG .MACSIO_LOG_MsgDie .tooFewArguments i st
           else .next i st) with
    | .stop o st0 => .stop o st0
    | .next i0 st0 =>
      match convertParam flags argv argName p j i0 st0 with
      | .next i1 st1 => paramLoop flags argv argName p todo (j + 1) i1 st1
      | .stop o st1 => .stop o st1

/-- The body of `if (foundArg)`: the parameters of a descriptor that has some, else the
boolean assignment `*pInt = 1` (TOMEM) or the value `true` under `argName` (TOJSON);
reading an `argName[64]` without a terminating NUL as the key is undefined. -/
def assignArg (flags : MACSIO_CLARGS_ArgvFlags_t) (argv : List Str) (argName : Str)
    (p : MACSIO_KnownArgInfo_t) (i : Nat) (st : State) : Step :=
  if p.paramCount ≠ 0 then paramLoop flags argv argName p p.paramCount 0 i st
  else if flags.route_mode = MACSIO_CLARGS_TOMEM then
    storeThrough (p.paramPtrs.getD 0 none) (.int 1) i st
  else if flags.route_mode = MACSIO_CLARGS_TOJSON then
    (if argNameSize ≤ argName.length then .stop .undef st
     else addToDoc argName (.boolean true) i st)
  else .next i st

/-- One iteration of `while (i < argc)` at token index `i < argc`: the registry search,
then the copy of the matched name into `argName`, the assignment and `i++`, or the
unknown-argument message and `return MACSIO_CLARGS_ERROR`. The call
`strncpy(argName, argv[i], (unsigned int)(p->argNameLength))` writes that many bytes into
`argName[64]`: more than 64 run past the array, which is undefined. -/
def matchStep (flags : MACSIO_CLARGS_ArgvFlags_t) (argv : List Str)
    (knownArgs : List MACSIO_KnownArgInfo_t) (i : Nat) (st : State) : Step :=
  let arg := argv.getD i []
  match findArg arg knownArgs with
  | some p =>
    if argNameSize < toUnsigned p.argNameLength then .stop .undef st
    else
      match assignArg flags argv (strncpy arg (toUnsigned p.argNameLength)) p i st with
      | .next i1 st1 => .next (i1 + 1) st1
      | .stop o st1 => .stop o st1
  | none =>
    match MACSIO_LOG_MSG (errSeverity flags)
            (.unknownArgument (progName (argv.getD 0 [])) arg) i st with
    | .next _ st1 => .stop (.ret MACSIO_CLARGS_ERROR) st1
    | .stop o st1 => .stop o st1

/-- The loop `while (i < argc)` run for at most `fuel` iterations; `none` when the fuel
does not suffice. -/
def matchLoop (flags : MACSIO_CLARGS_ArgvFlags_t) (argv : List Str)
    (knownArgs : List MACSIO_KnownArgInfo_t) : Nat → Nat → State → Option (Outcome × State)
  | 0, i, st => if i < argv.length then none else some (.ret MACSIO_CLARGS_OK, st)
  | fuel + 1, i, st =>
    if i < argv.length then
      match matchStep flags argv knownArgs i st with
      | .next i1 st1 => matchLoop flags argv knownArgs fuel i1 st1
      | .stop o st1 => some (o, st1)
    else some (.ret MACSIO_CLARGS_OK, st)

/-! ### `MACSIO_CLARGS_ProcessCmdline` -/

/-- The quick check for a help request: some `argv[i]`, `0 <= i < argc`, contains "help". -/
def helpRequested (argv : List Str) : Bool :=
  argv.any (fun a => strstrFound a [Char.ofNat 104, Char.ofNat 101, Char.ofNat 108, Char.ofNat 112])

/-- The wrap width: `80 - 10`, replaced by `(int)strtol(s, NULL, 0) - 10` when help was
requested and the environment variable `COLUMNS` is set and starts with a digit. -/
def terminalWidthOf (COLUMNS : Option Str) (helpWasRequested : Bool) : Int :=
  match COLUMNS with
  | some s =>
    if helpWasRequested && isdigit (cstrAt s 0) then wrapInt32 (wrapInt32 (strtol s 0) - 10)
    else 70
  | none => 70

/-- The end of the call after the matching loop (source lines 504-528): a `return` or an
abort inside the loop ends the call as it is; when the loop runs to its end, `*retobj` is
assigned `ret_json_obj` in route mode TOJSON and `MACSIO_CLARGS_OK` is returned. The loop
is given `argc - argi` iterations, which it never exceeds as every iteration advances `i`;
running out of them is reported as `Outcome.hang`. -/
def leaveLoop (flags : MACSIO_CLARGS_ArgvFlags_t) (st : State) :
    Option (Outcome × State) → Result
  | none => ⟨.hang, st, none⟩
  | some (.ret code, st1) =>
    if code = MACSIO_CLARGS_OK ∧ flags.route_mode = MACSIO_CLARGS_TOJSON then
      ⟨.ret code, st1, some st1.ret_json_obj⟩
    else ⟨.ret code, st1, none⟩
  | some (o, st1) => ⟨o, st1, none⟩

/-- The source's `MACSIO_CLARGS_ProcessCmdline(retobj, flags, argi, argc, argv, ...)` in
the serial build, with `argc = argv.length`, the variadic list given as `decls`, the
environment variable `COLUMNS`, and caller memory `mem` at entry. -/
def MACSIO_CLARGS_ProcessCmdline (COLUMNS : Option Str) (flags : MACSIO_CLARGS_ArgvFlags_t)
    (argi : Nat) (argv : List Str) (decls : List ArgDecl) (mem : Mem) : Result :=
  let helpWasRequested := helpRequested argv
  let terminalWidth := terminalWidthOf COLUMNS helpWasRequested
  match declareArgs flags helpWasRequested terminalWidth decls ⟨[], 0, []⟩ with
  | .error o => ⟨o, ⟨mem, [], [], []⟩, none⟩
  | .ok ds =>
    let st : State := ⟨mem, [], [], ds.out⟩
    if ds.invalidArgTypeFound ≠ 0 then
      match MACSIO_LOG_MSG (errSeverity flags) (.invalidArgumentType ds.invalidArgTypeFound)
              argi st with
      | .next _ st1 => ⟨.ret MACSIO_CLARGS_ERROR, st1, none⟩
      | .stop o st1 => ⟨o, st1, none⟩
    else if helpWasRequested then ⟨.ret MACSIO_CLARGS_HELP, st, none⟩
    else leaveLoop flags st (matchLoop flags argv ds.knownArgs (argv.length - argi) argi st)

/-! ## Notions used to state the properties -/

/-- The registry the declaration loop builds from `decls`, in declaration order. -/
def registry (flags : MACSIO_CLARGS_ArgvFlags_t) (decls : List ArgDecl) :
    List MACSIO_KnownArgInfo_t :=
  match declareArgs flags false 70 decls ⟨[], 0, []⟩ with
  | .ok ds => ds.knownArgs
  | .error _ => []

/-- The value of `invalidArgTypeFound` when the declaration loop is left. -/
def invalidArgTypeFoundOf (flags : MACSIO_CLARGS_ArgvFlags_t) (decls : List ArgDecl) : Int :=
  match declareArgs flags false 70 decls ⟨[], 0, []⟩ with
  | .ok ds => ds.invalidArgTypeFound
  | .error _ => 0

/-- Every declaration passes exactly the destination pointers the declaration loop takes
for its specifier: the variadic list is read as the caller wrote it. -/
def declsAligned (flags : MACSIO_CLARGS_ArgvFlags_t) (decls : List ArgDecl) : Bool :=
  decls.all (fun d => decide (d.ptrs.length = ptrsTaken flags d.fmtStr))

/-- The match prefix of a descriptor: the first `argNameLength` characters of its
specifier, the text `strncmp` compares a token with. -/
def matchPrefixOf (p : MACSIO_KnownArgInfo_t) : Str := p.fmtStr.take (toUnsigned p.argNameLength)

/-- The state in which the matching loop is entered when no help was printed. -/
def initState (mem : Mem) : State := ⟨mem, [], [], []⟩

/-- The matching loop, entered with token index `i0` and state `st0`, is at its head
with token index `i` and state `st` after some number of completed iterations. -/
inductive Reaches (flags : MACSIO_CLARGS_ArgvFlags_t) (argv : List Str)
    (knownArgs : List MACSIO_KnownArgInfo_t) (i0 : Nat) (st0 : State) : Nat → State → Prop where
  | start : Reaches flags argv knownArgs i0 st0 i0 st0
  | step {i i1 : Nat} {st st1 : State} :
      Reaches flags argv knownArgs i0 st0 i st → i < argv.length →
      matchStep flags argv knownArgs i st = .next i1 st1 →
      Reaches flags argv knownArgs i0 st0 i1 st1

/-- The value of a string of decimal digits. -/
def decimalValue (digits : Str) : Nat :=
  digits.foldl (fun acc c => acc * 10 + (c.toNat - 48)) 0

/-- The leading decimal integer of a token, as the specification's suffix grammar
`<integer>[unit]` reads it: after optional white space, an optional sign and the longest
run of decimal digits (0 when there is none); unbounded. -/
def leadingInteger (tok : Str) : Int :=
  match tok.dropWhile isspace with
  | [] => 0
  | c :: rest =>
    if c = Char.ofNat 45 then -(decimalValue (rest.takeWhile isdigit) : Int)
    else if c = Char.ofNat 43 then (decimalValue (rest.takeWhile isdigit) : Int)
    else (decimalValue ((c :: rest).takeWhile isdigit) : Int)

/-- The index of the first type marker of a specifier (a `%` not followed by a second
`%`), when it has one. -/
def firstMarker (fmtStr : Str) : Option Nat :=
  (List.range fmtStr.length).find? (isMarker fmtStr)

/-- The value of a decimal integer token: a non-empty string of decimal digits, or a
minus sign followed by one; `none` for any other token. -/
def decimalTokenValue (tok : Str) : Option Int :=
  match tok with
  | [] => none
  | c :: rest =>
    if c = Char.ofNat 45 then
      (if rest ≠ [] ∧ rest.all isdigit = true then some (-(decimalValue rest : Int)) else none)
    else if (c :: rest).all isdigit = true then some (decimalValue (c :: rest) : Int)
    else none

/-- The assignments `*p = v` of a list of destination and value pairs, in order. -/
def applyWrites (mem : Mem) (ws : List (Nat × Int)) : Mem :=
  ws.foldl (fun m w => m.store w.1 (.int w.2)) mem

/-- The tokens of `argv` from index `i` on form groups: each group is a token that the
registry search assigns to a descriptor, followed by exactly as many decimal integer
tokens in the `int` range as the descriptor has parameters, every parameter (and the
flag of a descriptor without parameters) being bound to a destination. `ws` lists, in
stream order, the destination and the value of every group: 1 for a descriptor without
parameters, the values of the tokens otherwise. -/
inductive Groups (knownArgs : List MACSIO_KnownArgInfo_t) (argv : List Str) :
    Nat → List (Nat × Int) → Prop where
  | done {i : Nat} : argv.length ≤ i → Groups knownArgs argv i []
  | flag {i : Nat} {p : MACSIO_KnownArgInfo_t} {a : Nat} {ws : List (Nat × Int)} :
      i < argv.length → findArg (argv.getD i []) knownArgs = some p → p.paramCount = 0 →
      p.paramPtrs.getD 0 none = some a → Groups knownArgs argv (i + 1) ws →
      Groups knownArgs argv i ((a, 1) :: ws)
  | ints {i : Nat} {p : MACSIO_KnownArgInfo_t} {vs ws : List (Nat × Int)} :
      i < argv.length → findArg (argv.getD i []) knownArgs = some p → p.paramCount ≠ 0 →
      vs.length = p.paramCount → i + p.paramCount < argv.length →
      (∀ j, j < p.paramCount → ∃ a v, vs.get? j = some (a, v) ∧
        p.paramPtrs.getD j none = some a ∧
        decimalTokenValue (argv.getD (i + 1 + j) []) = some v ∧
        -2147483648 ≤ v ∧ v ≤ 2147483647) →
      Groups knownArgs argv (i + p.paramCount + 1) ws →
      Groups knownArgs argv i (vs ++ ws)

/-- The indices of the type markers of a specifier (each a `%` not followed by a second
`%`), from left to right. -/
def markerPositions (fmtStr : Str) : List Nat :=
  (List.range fmtStr.length).filter (isMarker fmtStr)

/-- The state a step ends in. -/
def Step.state : Step → State
  | .next _ st => st
  | .stop _ st => st

/-- The reserved key "argi" under which the positional index is added to the document. -/
def argiKey : Str := [Char.ofNat 97, Char.ofNat 114, Char.ofNat 103, Char.ofNat 105]

/-- The text of line `k` (from 0) of a help string wrapped at width `w`: its characters
at the positions from `k*w` up to `(k+1)*w`. -/
def lineText (helpStr : Str) (w k : Nat) : Str := (helpStr.drop (k * w)).take w

/-- Text remains after line `k` of a help string wrapped at width `w`, and the character
after the break, the first one of line `k+1`, is not a space. -/
def hyphenAfterLine (helpStr : Str) (w k : Nat) : Bool :=
  decide ((k + 1) * w < helpStr.length) && cstrAt helpStr ((k + 1) * w) != Char.ofNat 32

/-- A logged message with its severity replaced by `sev`, unless it is `Die`. -/
def LogEntry.reframe (sev : MACSIO_LOG_MsgSeverity_t) (e : LogEntry) : LogEntry :=
  if e.severity = .MACSIO_LOG_MsgDie then e else ⟨sev, e.text⟩

/-- A state with the messages logged so far reframed to the severity `sev`. -/
def State.reframe (sev : MACSIO_LOG_MsgSeverity_t) (st : State) : State :=
  { st with log := st.log.map (LogEntry.reframe sev) }

/-- A step with its messages reframed to the severity `sev`. -/
def Step.reframe (sev : MACSIO_LOG_MsgSeverity_t) : Step → Step
  | .next i st => .next i (st.reframe sev)
  | .stop o st => .stop o (st.reframe sev)

/-- A result with its messages reframed to the severity `sev`. -/
def Result.reframe (sev : MACSIO_LOG_MsgSeverity_t) (r : Result) : Result :=
  { r with st := r.st.reframe sev }

/-- The characters of the help text that a printed help line carries. -/
def chunkText : OutItem → Str
  | .helpChunk text _ => text
  | .fmtLine _ => []

/-- An integer clamped to the range of `long`, as `strtol` returns a value outside it. -/
def clampLong (x : Int) : Int := max LONG_MIN (min x LONG_MAX)

/-- The value a conversion of type `c` (`d`, `s` or `f`) adds to the document for the
value token `tok`: the scaled integer narrowed to `int`, the token itself, or its `atof`. -/
def convertedValue (c : Char) (tok : Str) : json_object :=
  if c = Char.ofNat 100 then
    .int (wrapInt32 (wrapInt32 (strtol tok 10) *
      GetSizeFromModifierChar (cstrAt tok (tok.length - 1))))
  else if c = Char.ofNat 115 then .string tok
  else .double (atof tok)

/-- The converted values of the `n` tokens that follow index `i`, for the parameters of
the descriptor `p` from parameter `j` on, in token order. -/
def convertedValues (argv : List Str) (p : MACSIO_KnownArgInfo_t) (j i n : Nat) :
    List json_object :=
  (List.range n).map
    (fun t => convertedValue (p.paramTypes.getD (j + t) NUL) (argv.getD (i + 1 + t) []))

/-- A conversion character of a value parameter: `d`, `s` or `f`. -/
def valueType (c : Char) : Bool :=
  c == Char.ofNat 100 || c == Char.ofNat 115 || c == Char.ofNat 102

/-- The parameter loop of the descriptor `p`, entered with token index `i0` and state
`st0`, is at the head of iteration `j` with token index `i` and state `st`: every
iteration before passed the check `i == argc - 1` and converted its parameter. -/
inductive ParamReaches (flags : MACSIO_CLARGS_ArgvFlags_t) (argv : List Str) (argName : Str)
    (p : MACSIO_KnownArgInfo_t) (i0 : Nat) (st0 : State) : Nat → Nat → State → Prop where
  | start : ParamReaches flags argv argName p i0 st0 0 i0 st0
  | step {j i i1 : Nat} {st st1 : State} :
      ParamReaches flags argv argName p i0 st0 j i st → j < p.paramCount →
      i + 1 ≠ argv.length → convertParam flags argv argName p j i st = .next i1 st1 →
      ParamReaches flags argv argName p i0 st0 (j + 1) i1 st1

/-! ## Theorems -/

/-! ### Token indices only move forward -/

theorem storeThrough_next {ptr : Option Nat} {c : Cell} {i i1 : Nat} {st st1 : State}
    (h : storeThrough ptr c i st = .next i1 st1) : i1 = i := by
  cases ptr <;> simp [storeThrough] at h
  exact h.1.symm

theorem addToDoc_next {key : Str} {v : json_object} {i i1 : Nat} {st st1 : State}
    (h : addToDoc key v i st = .next i1 st1) : i1 = i := by
  simp [addToDoc] at h
  exact h.1.symm

theorem logMsg_next {sev : MACSIO_LOG_MsgSeverity_t} {t : LogText} {i i1 : Nat} {st st1 : State}
    (h : MACSIO_LOG_MSG sev t i st = .next i1 st1) : i1 = i := by
  unfold MACSIO_LOG_MSG at h
  split at h <;> simp at h
  exact h.1.symm

theorem copyInto_next {ptr : Option Nat} {tok : Str} {i i1 : Nat} {st st1 : State}
    (h : copyInto ptr tok i st = .next i1 st1) : i1 = i := by
  unfold copyInto at h
  split at h
  · simp at h
  · split at h <;> simp at h
    exact h.1.symm

theorem convertInt_next {flags : MACSIO_CLARGS_ArgvFlags_t} {argv : List Str} {argName : Str}
    {ptr : Option Nat} {i i1 : Nat} {st st1 : State}
    (h : convertInt flags argv argName ptr i st = .next i1 st1) : i1 = i + 1 := by
  unfold convertInt at h
  split at h
  · simp at h
  · simp only [] at h
    split_ifs at h
    all_goals first
      | exact logMsg_next h
      | exact storeThrough_next h
      | exact addToDoc_next h
      | (simp at h; exact h.1.symm)

theorem convertStr_next {flags : MACSIO_CLARGS_ArgvFlags_t} {argv : List Str} {argName : Str}
    {ptr : Option Nat} {i i1 : Nat} {st st1 : State}
    (h : convertStr flags argv argName ptr i st = .next i1 st1) : i ≤ i1 ∧ i1 ≤ i + 1 := by
  unfold convertStr at h
  simp only [] at h
  split_ifs at h
  all_goals first
    | (simp at h; omega)
    | (split at h
       all_goals first
         | (simp at h)
         | (have hnext := storeThrough_next h; omega)
         | (have hnext := addToDoc_next h; omega)
         | (have hnext := copyInto_next h; omega))

theorem convertDbl_next {flags : MACSIO_CLARGS_ArgvFlags_t} {argv : List Str} {argName : Str}
    {ptr : Option Nat} {i i1 : Nat} {st st1 : State}
    (h : convertDbl flags argv argName ptr i st = .next i1 st1) : i ≤ i1 ∧ i1 ≤ i + 1 := by
  unfold convertDbl at h
  split_ifs at h
  all_goals first
    | (simp at h; omega)
    | (split at h
       all_goals first
         | (simp at h)
         | (have hnext := storeThrough_next h; omega)
         | (have hnext := addToDoc_next h; omega))

theorem convertArgi_next {flags : MACSIO_CLARGS_ArgvFlags_t} {ptr : Option Nat} {i i1 : Nat}
    {st st1 : State} (h : convertArgi flags ptr i st = .next i1 st1) : i ≤ i1 ∧ i1 ≤ i + 1 := by
  unfold convertArgi at h
  split_ifs at h
  · have := storeThrough_next h; omega
  · have := addToDoc_next h; omega
  · simp at h; omega

theorem convertParam_next {flags : MACSIO_CLARGS_ArgvFlags_t} {argv : List Str} {argName : Str}
    {p : MACSIO_KnownArgInfo_t} {j i i1 : Nat} {st st1 : State}
    (h : convertParam flags argv argName p j i st = .next i1 st1) : i ≤ i1 ∧ i1 ≤ i + 1 := by
  unfold convertParam at h
  simp only [] at h
  split_ifs at h
  · have := convertInt_next h; omega
  · exact convertStr_next h
  · exact convertDbl_next h
  · exact convertArgi_next h
  · simp at h; omega

theorem paramLoop_next {flags : MACSIO_CLARGS_ArgvFlags_t} {argv : List Str} {argName : Str}
    {p : MACSIO_KnownArgInfo_t} (todo : Nat) {j i i1 : Nat} {st st1 : State}
    (h : paramLoop flags argv argName p todo j i st = .next i1 st1) : i ≤ i1 ∧ i1 ≤ i + todo := by
  induction todo generalizing j i st with
  | zero => simp [paramLoop] at h; omega
  | succ n ih =>
    unfold paramLoop at h
    split at h
    · simp at h
    · rename_i i0 st0 h0
      have hi0 : i0 = i := by
        split_ifs at h0
        · exact logMsg_next h0
        · simp at h0; exact h0.1.symm
      subst hi0
      split at h
      · rename_i i2 st2 h2
        have := convertParam_next h2
        have := ih h
        omega
      · simp at h

theorem assignArg_next {flags : MACSIO_CLARGS_ArgvFlags_t} {argv : List Str} {argName : Str}
    {p : MACSIO_KnownArgInfo_t} {i i1 : Nat} {st st1 : State}
    (h : assignArg flags argv argName p i st = .next i1 st1) : i ≤ i1 ∧ i1 ≤ i + p.paramCount := by
  unfold assignArg at h
  split_ifs at h
  · exact paramLoop_next _ h
  · have := storeThrough_next h; omega
  · have := addToDoc_next h; omega
  · simp at h; omega

theorem matchStep_next {flags : MACSIO_CLARGS_ArgvFlags_t} {argv : List Str}
    {knownArgs : List MACSIO_KnownArgInfo_t} {i i1 : Nat} {st st1 : State}
    (h : matchStep flags argv knownArgs i st = .next i1 st1) : i < i1 := by
  unfold matchStep at h
  simp only [] at h
  split at h
  · split_ifs at h
    split at h
    · rename_i h2
      have := assignArg_next h2
      simp at h
      omega
    · simp at h
  · split at h <;> simp at h

/-! ### The matching loop: fuel and reachability -/

theorem matchLoop_done {flags : MACSIO_CLARGS_ArgvFlags_t} {argv : List Str}
    {knownArgs : List MACSIO_KnownArgInfo_t} (fuel : Nat) {i : Nat} (st : State)
    (h : argv.length ≤ i) :
    matchLoop flags argv knownArgs fuel i st = some (.ret MACSIO_CLARGS_OK, st) := by
  cases fuel <;> simp [matchLoop, Nat.not_lt.mpr h]

theorem matchLoop_fuel (flags : MACSIO_CLARGS_ArgvFlags_t) (argv : List Str)
    (knownArgs : List MACSIO_KnownArgInfo_t) (fuel : Nat) :
    ∀ (i : Nat) (st : State), argv.length - i ≤ fuel →
      matchLoop flags argv knownArgs fuel i st =
        matchLoop flags argv knownArgs (argv.length - i) i st := by
  induction fuel using Nat.strong_induction_on with
  | _ fuel ih =>
    intro i st hf
    by_cases hi : i < argv.length
    · obtain ⟨f, rfl⟩ : ∃ f, fuel = f + 1 := ⟨fuel - 1, by omega⟩
      obtain ⟨m, hm⟩ : ∃ m, argv.length - i = m + 1 := ⟨argv.length - i - 1, by omega⟩
      rw [hm]
      unfold matchLoop
      simp only [hi, if_true]
      cases hstep : matchStep flags argv knownArgs i st with
      | stop o st1 => rfl
      | next i1 st1 =>
        have hlt := matchStep_next hstep
        simp only []
        rw [ih f (by omega) i1 st1 (by omega)]
        by_cases hmf : m = f
        · subst hmf
          rw [ih m (by omega) i1 st1 (by omega)]
        · rw [ih m (by omega) i1 st1 (by omega)]
    · rw [matchLoop_done fuel st (by omega), matchLoop_done _ st (by omega)]

theorem matchLoop_isSome (flags : MACSIO_CLARGS_ArgvFlags_t) (argv : List Str)
    (knownArgs : List MACSIO_KnownArgInfo_t) (fuel : Nat) :
    ∀ (i : Nat) (st : State), argv.length - i ≤ fuel →
      ∃ r, matchLoop flags argv knownArgs fuel i st = some r := by
  induction fuel with
  | zero =>
    intro i st hf
    exact ⟨_, matchLoop_done 0 st (by omega)⟩
  | succ f ih =>
    intro i st hf
    by_cases hi : i < argv.length
    · unfold matchLoop
      simp only [hi, if_true]
      cases hstep : matchStep flags argv knownArgs i st with
      | stop o st1 => exact ⟨_, rfl⟩
      | next i1 st1 =>
        have hlt := matchStep_next hstep
        exact ih i1 st1 (by omega)
    · exact ⟨_, matchLoop_done _ st (by omega)⟩

theorem matchLoop_step {flags : MACSIO_CLARGS_ArgvFlags_t} {argv : List Str}
    {knownArgs : List MACSIO_KnownArgInfo_t} {i i1 : Nat} {st st1 : State}
    (hi : i < argv.length) (hstep : matchStep flags argv knownArgs i st = .next i1 st1) :
    matchLoop flags argv knownArgs (argv.length - i) i st =
      matchLoop flags argv knownArgs (argv.length - i1) i1 st1 := by
  obtain ⟨m, hm⟩ : ∃ m, argv.length - i = m + 1 := ⟨argv.length - i - 1, by omega⟩
  have hlt := matchStep_next hstep
  rw [hm]
  conv_lhs => unfold matchLoop
  simp only [hi, if_true, hstep]
  exact matchLoop_fuel flags argv knownArgs m i1 st1 (by omega)

theorem matchLoop_stop {flags : MACSIO_CLARGS_ArgvFlags_t} {argv : List Str}
    {knownArgs : List MACSIO_KnownArgInfo_t} {i : Nat} {st st1 : State} {o : Outcome}
    (hi : i < argv.length) (hstep : matchStep flags argv knownArgs i st = .stop o st1) :
    matchLoop flags argv knownArgs (argv.length - i) i st = some (o, st1) := by
  obtain ⟨m, hm⟩ : ∃ m, argv.length - i = m + 1 := ⟨argv.length - i - 1, by omega⟩
  rw [hm]
  unfold matchLoop
  simp only [hi, if_true, hstep]

theorem Reaches.le {flags : MACSIO_CLARGS_ArgvFlags_t} {argv : List Str}
    {knownArgs : List MACSIO_KnownArgInfo_t} {i0 i : Nat} {st0 st : State}
    (h : Reaches flags argv knownArgs i0 st0 i st) : i0 ≤ i := by
  induction h with
  | start => exact Nat.le_refl _
  | step _ _ hstep ih => have := matchStep_next hstep; omega

theorem Reaches.matchLoop_eq {flags : MACSIO_CLARGS_ArgvFlags_t} {argv : List Str}
    {knownArgs : List MACSIO_KnownArgInfo_t} {i0 i : Nat} {st0 st : State}
    (h : Reaches flags argv knownArgs i0 st0 i st) :
    matchLoop flags argv knownArgs (argv.length - i0) i0 st0 =
      matchLoop flags argv knownArgs (argv.length - i) i st := by
  induction h with
  | start => rfl
  | step _ hi hstep ih => rw [ih, matchLoop_step hi hstep]

/-! ### The registry -/

/-- The descriptor and variadic-pointer part of the second pass does not depend on
`invalidArgTypeFound`. -/
theorem bindStep_core (flags : MACSIO_CLARGS_ArgvFlags_t) (fmtStr : Str) (b b1 : BindState)
    (i : Nat) (h1 : b.paramTypes = b1.paramTypes) (h2 : b.paramPtrs = b1.paramPtrs)
    (h3 : b.ap = b1.ap) :
    (bindStep flags fmtStr b i).paramTypes = (bindStep flags fmtStr b1 i).paramTypes ∧
    (bindStep flags fmtStr b i).paramPtrs = (bindStep flags fmtStr b1 i).paramPtrs ∧
    (bindStep flags fmtStr b i).ap = (bindStep flags fmtStr b1 i).ap := by
  unfold bindStep
  simp only []
  split_ifs <;> simp [h1, h2, h3]

theorem foldl_bindStep_core (flags : MACSIO_CLARGS_ArgvFlags_t) (fmtStr : Str) (l : List Nat) :
    ∀ (b b1 : BindState), b.paramTypes = b1.paramTypes → b.paramPtrs = b1.paramPtrs →
      b.ap = b1.ap →
      (l.foldl (bindStep flags fmtStr) b).paramTypes =
        (l.foldl (bindStep flags fmtStr) b1).paramTypes ∧
      (l.foldl (bindStep flags fmtStr) b).paramPtrs =
        (l.foldl (bindStep flags fmtStr) b1).paramPtrs := by
  induction l with
  | nil => intro b b1 h1 h2 _; exact ⟨h1, h2⟩
  | cons i l ih =>
    intro b b1 h1 h2 h3
    obtain ⟨g1, g2, g3⟩ := bindStep_core flags fmtStr b b1 i h1 h2 h3
    exact ih _ _ g1 g2 g3

theorem makeKnownArg_fst (flags : MACSIO_CLARGS_ArgvFlags_t) (d : ArgDecl) (inv : Int) :
    (makeKnownArg flags d inv).1 = (makeKnownArg flags d 0).1 := by
  unfold makeKnownArg
  simp only []
  split_ifs
  · obtain ⟨g1, g2⟩ := foldl_bindStep_core flags d.fmtStr (List.range d.fmtStr.length)
      ⟨[], [], d.ptrs, inv⟩ ⟨[], [], d.ptrs, 0⟩ rfl rfl rfl
    simp only [bindParams, g1, g2]
  all_goals rfl

theorem foldl_bindStep_ap (flags : MACSIO_CLARGS_ArgvFlags_t) (fmtStr : Str) (l : List Nat) :
    ∀ b : BindState, (l.foldl (bindStep flags fmtStr) b).ap =
      b.ap.drop (if flags.route_mode = MACSIO_CLARGS_TOMEM then
        (l.filter (fun i => isMarker fmtStr i && knownType (cstrAt fmtStr (i + 1)))).length
        else 0) := by
  induction l with
  | nil => intro b; simp
  | cons i rest ih =>
    intro b
    rw [List.foldl_cons, ih]
    unfold bindStep
    by_cases hr : flags.route_mode = MACSIO_CLARGS_TOMEM
    · by_cases hm : isMarker fmtStr i = true
      · by_cases hk : knownType (cstrAt fmtStr (i + 1)) = true
        · simp only [hr, hm, hk, if_true, List.filter_cons, Bool.and_self, List.length_cons,
            List.drop_succ_cons]
          cases b.ap with
          | nil => simp
          | cons a as => simp [List.drop_succ_cons]
        · simp only [hr, hm, hk, if_true, if_false, List.filter_cons, Bool.and_false,
            Bool.false_eq_true]
      · simp only [hr, hm, if_true, if_false, List.filter_cons, Bool.false_and,
          Bool.false_eq_true]
    · by_cases hm : isMarker fmtStr i = true
      · simp only [hr, hm, if_true, if_false, List.drop_zero]
      · simp only [hr, hm, if_false, List.drop_zero, Bool.false_eq_true]

/-- The second pass over a specifier with markers takes `ptrsTaken` pointers from the
front of the variadic list and leaves the rest. -/
theorem bindParams_ap (flags : MACSIO_CLARGS_ArgvFlags_t) (fmtStr : Str) (ap : List Nat)
    (inv : Int) (h : (countParams fmtStr).1 ≠ 0) :
    (bindParams flags fmtStr ap inv).ap = ap.drop (ptrsTaken flags fmtStr) := by
  unfold bindParams ptrsTaken
  rw [foldl_bindStep_ap]
  simp only [h, ne_eq, not_false_eq_true, if_true]

theorem declsAligned_cons (flags : MACSIO_CLARGS_ArgvFlags_t) (d : ArgDecl)
    (rest : List ArgDecl) :
    declsAligned flags (d :: rest) = true ↔
      d.ptrs.length = ptrsTaken flags d.fmtStr ∧ declsAligned flags rest = true := by
  simp [declsAligned]

/-- The registry and the value of `invalidArgTypeFound` after the declarations `decls`,
entered with `ds`, when every declaration passes the pointers the loop takes. -/
theorem declareArgs_nohelp (flags : MACSIO_CLARGS_ArgvFlags_t) (w : Int) (decls : List ArgDecl) :
    ∀ ds : DeclState, declsAligned flags decls = true →
      declareArgs flags false w decls ds =
        .ok ⟨ds.knownArgs ++ decls.map (fun d => (makeKnownArg flags d 0).1),
             decls.foldl (fun inv d => (makeKnownArg flags d inv).2) ds.invalidArgTypeFound,
             ds.out⟩ := by
  induction decls with
  | nil => intro ds _; simp [declareArgs]
  | cons d rest ih =>
    intro ds hwf
    obtain ⟨h1, h2⟩ := (declsAligned_cons flags d rest).mp hwf
    unfold declareArgs
    simp only [Bool.false_eq_true, if_false, h1, if_true]
    rw [ih _ h2]
    simp [makeKnownArg_fst flags d ds.invalidArgTypeFound]

/-- A declaration that passes other pointers than the loop takes ends the declaration
loop as undefined. -/
theorem declareArgs_misaligned (flags : MACSIO_CLARGS_ArgvFlags_t) (w : Int)
    (decls : List ArgDecl) :
    ∀ ds : DeclState, declsAligned flags decls = false →
      declareArgs flags false w decls ds = .error .undef := by
  induction decls with
  | nil => intro ds h; simp [declsAligned] at h
  | cons d rest ih =>
    intro ds h
    unfold declareArgs
    simp only [Bool.false_eq_true, if_false]
    by_cases h1 : d.ptrs.length = ptrsTaken flags d.fmtStr
    · simp only [h1, if_true]
      apply ih
      cases h2 : declsAligned flags rest with
      | false => rfl
      | true =>
        rw [(declsAligned_cons flags d rest).mpr ⟨h1, h2⟩] at h
        exact absurd h (by simp)
    · simp only [h1, if_false]

theorem registry_eq (flags : MACSIO_CLARGS_ArgvFlags_t) (decls : List ArgDecl)
    (hwf : declsAligned flags decls = true) :
    registry flags decls = decls.map (fun d => (makeKnownArg flags d 0).1) := by
  simp [registry, declareArgs_nohelp flags 70 decls _ hwf]

theorem registry_misaligned (flags : MACSIO_CLARGS_ArgvFlags_t) (decls : List ArgDecl)
    (h : declsAligned flags decls = false) : registry flags decls = [] := by
  simp [registry, declareArgs_misaligned flags 70 decls _ h]

/-- A descriptor of the registry was built from a declaration, and the declarations pass
the pointers the loop takes. -/
theorem registry_mem (flags : MACSIO_CLARGS_ArgvFlags_t) (decls : List ArgDecl)
    (q : MACSIO_KnownArgInfo_t) (hq : q ∈ registry flags decls) :
    declsAligned flags decls = true ∧ ∃ d ∈ decls, q = (makeKnownArg flags d 0).1 := by
  cases hwf : declsAligned flags decls with
  | false =>
    rw [registry_misaligned flags decls hwf] at hq
    simp at hq
  | true =>
    rw [registry_eq flags decls hwf, List.mem_map] at hq
    obtain ⟨d, hd, rfl⟩ := hq
    exact ⟨rfl, d, hd, rfl⟩

theorem invalidArgTypeFoundOf_eq (flags : MACSIO_CLARGS_ArgvFlags_t) (decls : List ArgDecl)
    (hwf : declsAligned flags decls = true) :
    invalidArgTypeFoundOf flags decls =
      decls.foldl (fun inv d => (makeKnownArg flags d inv).2) 0 := by
  simp [invalidArgTypeFoundOf, declareArgs_nohelp flags 70 decls _ hwf]

theorem declareArgs_nohelp_eq (flags : MACSIO_CLARGS_ArgvFlags_t) (w : Int)
    (decls : List ArgDecl) (hwf : declsAligned flags decls = true) :
    declareArgs flags false w decls ⟨[], 0, []⟩ =
      .ok ⟨registry flags decls, invalidArgTypeFoundOf flags decls, []⟩ := by
  rw [declareArgs_nohelp flags w decls _ hwf, registry_eq flags decls hwf,
    invalidArgTypeFoundOf_eq flags decls hwf]
  simp

/-! ### The help renderer returns when the wrap width is positive -/

theorem helpLoop_ok (helpStr : Str) (w : Int) (hw : 1 ≤ w) (fuel : Nat) :
    ∀ (i : Nat) (out : List OutItem), helpStr.length ≤ i + fuel →
      ∃ out1, helpLoop helpStr w fuel i out = some (.ok out1) := by
  induction fuel with
  | zero =>
    intro i out h
    exact ⟨out, by simp [helpLoop]; omega⟩
  | succ f ih =>
    intro i out h
    unfold helpLoop
    split_ifs with h1 h2
    · omega
    · simp only []
      apply ih
      have : 1 ≤ w.toNat := by omega
      omega
    · exact ⟨out, rfl⟩

/-- With the wrap width 0 the loop does not advance: no number of iterations ends it. -/
theorem helpLoop_zero_width (helpStr : Str) (hne : helpStr ≠ []) (fuel : Nat) :
    ∀ out : List OutItem, helpLoop helpStr 0 fuel 0 out = none := by
  have hpos : 0 < helpStr.length := List.length_pos.mpr hne
  induction fuel with
  | zero => intro out; simp [helpLoop, hpos]
  | succ f ih =>
    intro out
    unfold helpLoop
    simp only [hpos, if_true, lt_self_iff_false, if_false, Int.toNat_zero, Nat.add_zero]
    exact ih _

theorem printHelp_ok (fmtStr helpStr : Str) (w : Int) (hw : 1 ≤ w) (out : List OutItem) :
    ∃ out1, printHelp fmtStr helpStr w out = .ok out1 := by
  obtain ⟨out1, h⟩ := helpLoop_ok helpStr w hw helpStr.length 0 (out ++ [.fmtLine fmtStr])
    (by omega)
  exact ⟨out1, by simp [printHelp, h]⟩

theorem declareArgs_help (flags : MACSIO_CLARGS_ArgvFlags_t) (w : Int) (hw : 1 ≤ w)
    (decls : List ArgDecl) :
    ∀ ds : DeclState, declsAligned flags decls = true →
      ∃ out1, declareArgs flags true w decls ds =
        .ok ⟨ds.knownArgs ++ decls.map (fun d => (makeKnownArg flags d 0).1),
             decls.foldl (fun inv d => (makeKnownArg flags d inv).2) ds.invalidArgTypeFound,
             out1⟩ := by
  induction decls with
  | nil => intro ds _; exact ⟨ds.out, by simp [declareArgs]⟩
  | cons d rest ih =>
    intro ds hwf
    obtain ⟨hd, hrest⟩ := (declsAligned_cons flags d rest).mp hwf
    obtain ⟨o1, h1⟩ := printHelp_ok d.fmtStr d.helpStr w hw ds.out
    obtain ⟨o2, h2⟩ := ih ⟨ds.knownArgs ++ [(makeKnownArg flags d ds.invalidArgTypeFound).1],
      (makeKnownArg flags d ds.invalidArgTypeFound).2, o1⟩ hrest
    refine ⟨o2, ?_⟩
    unfold declareArgs
    simp only [if_true, h1, hd, h2]
    simp [makeKnownArg_fst flags d ds.invalidArgTypeFound]

theorem declareArgs_help_eq (flags : MACSIO_CLARGS_ArgvFlags_t) (w : Int) (hw : 1 ≤ w)
    (decls : List ArgDecl) (hwf : declsAligned flags decls = true) :
    ∃ out1, declareArgs flags true w decls ⟨[], 0, []⟩ =
      .ok ⟨registry flags decls, invalidArgTypeFoundOf flags decls, out1⟩ := by
  obtain ⟨o, h⟩ := declareArgs_help flags w hw decls ⟨[], 0, []⟩ hwf
  exact ⟨o, by rw [h, registry_eq flags decls hwf, invalidArgTypeFoundOf_eq flags decls hwf]; simp⟩

/-! ### Unfolding `MACSIO_CLARGS_ProcessCmdline` -/

theorem terminalWidthOf_nohelp (COLUMNS : Option Str) : terminalWidthOf COLUMNS false = 70 := by
  cases COLUMNS <;> simp [terminalWidthOf]

theorem leaveLoop_outcome (flags : MACSIO_CLARGS_ArgvFlags_t) (st st1 : State) (o : Outcome) :
    (leaveLoop flags st (some (o, st1))).outcome = o ∧
    (leaveLoop flags st (some (o, st1))).st = st1 := by
  cases o <;> simp [leaveLoop]
  split_ifs <;> simp

theorem leaveLoop_retobj (flags : MACSIO_CLARGS_ArgvFlags_t) (st st1 : State) (o : Outcome) :
    (leaveLoop flags st (some (o, st1))).retobj =
      if o = .ret MACSIO_CLARGS_OK ∧ flags.route_mode = MACSIO_CLARGS_TOJSON
      then some st1.ret_json_obj else none := by
  cases o <;> simp [leaveLoop]
  split_ifs <;> simp_all

/-- Without a help request and without a declaration error the call is the matching loop
over the registry, entered at `argi`. -/
theorem processCmdline_match (COLUMNS : Option Str) (flags : MACSIO_CLARGS_ArgvFlags_t)
    (argi : Nat) (argv : List Str) (decls : List ArgDecl) (mem : Mem)
    (hhelp : helpRequested argv = false) (hvalid : invalidArgTypeFoundOf flags decls = 0)
    (hwf : declsAligned flags decls = true) :
    MACSIO_CLARGS_ProcessCmdline COLUMNS flags argi argv decls mem =
      leaveLoop flags (initState mem)
        (matchLoop flags argv (registry flags decls) (argv.length - argi) argi (initState mem)) := by
  unfold MACSIO_CLARGS_ProcessCmdline
  simp only [hhelp, terminalWidthOf_nohelp, declareArgs_nohelp_eq flags 70 decls hwf, hvalid]
  simp [initState]

/-- Without a help request, a call whose declarations pass other pointers than the
declaration loop takes is undefined. -/
theorem processCmdline_misaligned (COLUMNS : Option Str) (flags : MACSIO_CLARGS_ArgvFlags_t)
    (argi : Nat) (argv : List Str) (decls : List ArgDecl) (mem : Mem)
    (hhelp : helpRequested argv = false) (hwf : declsAligned flags decls = false) :
    MACSIO_CLARGS_ProcessCmdline COLUMNS flags argi argv decls mem =
      ⟨.undef, ⟨mem, [], [], []⟩, none⟩ := by
  unfold MACSIO_CLARGS_ProcessCmdline
  simp only [hhelp, terminalWidthOf_nohelp, declareArgs_misaligned flags 70 decls _ hwf]

/-- A call that reaches the head of the matching loop with `(i, st)` ends as the loop
entered there does. -/
theorem processCmdline_reaches (COLUMNS : Option Str) (flags : MACSIO_CLARGS_ArgvFlags_t)
    (argi : Nat) (argv : List Str) (decls : List ArgDecl) (mem : Mem)
    (hhelp : helpRequested argv = false) (hvalid : invalidArgTypeFoundOf flags decls = 0)
    (hwf : declsAligned flags decls = true)
    {i : Nat} {st : State}
    (hreach : Reaches flags argv (registry flags decls) argi (initState mem) i st) :
    MACSIO_CLARGS_ProcessCmdline COLUMNS flags argi argv decls mem =
      leaveLoop flags (initState mem)
        (matchLoop flags argv (registry flags decls) (argv.length - i) i st) := by
  rw [processCmdline_match COLUMNS flags argi argv decls mem hhelp hvalid hwf,
    hreach.matchLoop_eq]

/-! ### Prefix matching -/

theorem strncmpEq_imp_take_isPrefix (n : Nat) :
    ∀ (a b : Str), strncmpEq a b n = true → b.take n <+: a := by
  induction n with
  | zero => intro a b _; simp
  | succ n ih =>
    intro a b h
    cases a with
    | nil => cases b with
      | nil => simp
      | cons y t => simp [strncmpEq] at h
    | cons x s => cases b with
      | nil => simp [strncmpEq] at h
      | cons y t =>
        simp only [strncmpEq, Bool.and_eq_true, beq_iff_eq] at h
        rw [List.take_succ_cons, List.cons_prefix_cons]
        exact ⟨h.1.symm, ih s t h.2⟩

theorem take_isPrefix_imp_strncmpEq (n : Nat) :
    ∀ (a b : Str), n ≤ b.length → b.take n <+: a → strncmpEq a b n = true := by
  induction n with
  | zero => intro a b _ _; simp [strncmpEq]
  | succ n ih =>
    intro a b hn h
    cases b with
    | nil => simp at hn
    | cons y t =>
      cases a with
      | nil => simp at h
      | cons x s =>
        rw [List.take_succ_cons, List.cons_prefix_cons] at h
        simp only [strncmpEq, Bool.and_eq_true, beq_iff_eq]
        exact ⟨h.1.symm, ih s t (by simpa using hn) h.2⟩

/-- The comparison of the registry search, for a descriptor whose `argNameLength` lies
within its specifier: the match prefix is a prefix of the token. -/
theorem strncmpEq_iff_matchPrefix (arg : Str) (p : MACSIO_KnownArgInfo_t)
    (h : toUnsigned p.argNameLength ≤ p.fmtStr.length) :
    strncmpEq arg p.fmtStr (toUnsigned p.argNameLength) = true ↔ matchPrefixOf p <+: arg :=
  ⟨strncmpEq_imp_take_isPrefix _ _ _, take_isPrefix_imp_strncmpEq _ _ _ h⟩

theorem findArg_eq_none {arg : Str} {knownArgs : List MACSIO_KnownArgInfo_t}
    (h : ∀ p ∈ knownArgs, ¬ (matchPrefixOf p <+: arg)) : findArg arg knownArgs = none := by
  induction knownArgs with
  | nil => rfl
  | cons p rest ih =>
    have hp : strncmpEq arg p.fmtStr (toUnsigned p.argNameLength) = false := by
      cases hc : strncmpEq arg p.fmtStr (toUnsigned p.argNameLength) with
      | false => rfl
      | true => exact absurd (strncmpEq_imp_take_isPrefix _ _ _ hc) (h p (by simp))
    simp only [findArg, hp, Bool.false_eq_true, if_false]
    exact ih (fun q hq => h q (by simp [hq]))

theorem findArg_mem {arg : Str} {knownArgs : List MACSIO_KnownArgInfo_t}
    {p : MACSIO_KnownArgInfo_t} (h : findArg arg knownArgs = some p) : p ∈ knownArgs := by
  induction knownArgs with
  | nil => simp [findArg] at h
  | cons q rest ih =>
    unfold findArg at h
    split_ifs at h
    · simp only [Option.some.injEq] at h
      simp [h]
    · exact List.mem_cons_of_mem _ (ih h)

theorem errSeverity_ne_die (flags : MACSIO_CLARGS_ArgvFlags_t) :
    errSeverity flags ≠ .MACSIO_LOG_MsgDie := by
  unfold errSeverity
  split_ifs <;> simp

theorem matchStep_unknown (flags : MACSIO_CLARGS_ArgvFlags_t) (argv : List Str)
    (knownArgs : List MACSIO_KnownArgInfo_t) (i : Nat) (st : State)
    (h : findArg (argv.getD i []) knownArgs = none) :
    matchStep flags argv knownArgs i st =
      .stop (.ret MACSIO_CLARGS_ERROR)
        { st with log := st.log ++ [⟨errSeverity flags,
                    .unknownArgument (progName (argv.getD 0 [])) (argv.getD i [])⟩] } := by
  unfold matchStep
  simp only [h, MACSIO_LOG_MSG, errSeverity_ne_die, if_false]

/-! ### C2 -/

/-- C2. For every declaration set without a declaration error, passed as a variadic list
in which every declaration has the destination pointers the declaration loop takes, and
every token stream without a help request: when the matching loop reaches, at index `i`,
a token of which no descriptor's match prefix is a prefix, the call returns
`MACSIO_CLARGS_ERROR`, whatever `error_mode` is (it selects only the severity of the
message logged: `Warn` for 0, `Err` otherwise). The token is not skipped: nothing is
routed after it, `*retobj` is not assigned, and the outcome is not `MACSIO_CLARGS_OK`. -/
theorem unknown_argument_returns_error (COLUMNS : Option Str)
    (flags : MACSIO_CLARGS_ArgvFlags_t) (argi : Nat) (argv : List Str) (decls : List ArgDecl)
    (mem : Mem) (i : Nat) (st : State)
    (hhelp : helpRequested argv = false)
    (hvalid : invalidArgTypeFoundOf flags decls = 0)
    (hwf : declsAligned flags decls = true)
    (hreach : Reaches flags argv (registry flags decls) argi (initState mem) i st)
    (hi : i < argv.length)
    (hunknown : ∀ p ∈ registry flags decls, ¬ (matchPrefixOf p <+: argv.getD i [])) :
    (MACSIO_CLARGS_ProcessCmdline COLUMNS flags argi argv decls mem).outcome
        = .ret MACSIO_CLARGS_ERROR ∧
    (MACSIO_CLARGS_ProcessCmdline COLUMNS flags argi argv decls mem).outcome
        ≠ .ret MACSIO_CLARGS_OK ∧
    (MACSIO_CLARGS_ProcessCmdline COLUMNS flags argi argv decls mem).retobj = none ∧
    (MACSIO_CLARGS_ProcessCmdline COLUMNS flags argi argv decls mem).st.mem = st.mem ∧
    (MACSIO_CLARGS_ProcessCmdline COLUMNS flags argi argv decls mem).st.ret_json_obj
        = st.ret_json_obj ∧
    (MACSIO_CLARGS_ProcessCmdline COLUMNS flags argi argv decls mem).st.log
        = st.log ++ [⟨if flags.error_mode ≠ 0 then .MACSIO_LOG_MsgErr else .MACSIO_LOG_MsgWarn,
                      .unknownArgument (progName (argv.getD 0 [])) (argv.getD i [])⟩] := by
  have hstep := matchStep_unknown flags argv (registry flags decls) i st
    (findArg_eq_none hunknown)
  rw [processCmdline_reaches COLUMNS flags argi argv decls mem hhelp hvalid hwf hreach,
    matchLoop_stop hi hstep]
  refine ⟨(leaveLoop_outcome _ _ _ _).1, ?_, ?_, ?_, ?_, ?_⟩
  · rw [(leaveLoop_outcome _ _ _ _).1]; decide
  · rw [leaveLoop_retobj]; simp [MACSIO_CLARGS_ERROR, MACSIO_CLARGS_OK]
  · rw [(leaveLoop_outcome _ _ _ _).2]
  · rw [(leaveLoop_outcome _ _ _ _).2]
  · rw [(leaveLoop_outcome _ _ _ _).2]; rfl

/-- Witness for C2: with `-multifile` and `-dims %d %d` declared, the loop started at
index 1 of `prog -multifile -bogus` reaches index 2 after one iteration, where `-bogus`
is unknown. -/
theorem unknown_argument_returns_error_witness :
    (MACSIO_CLARGS_ProcessCmdline none ⟨0, 0, 0⟩ 1
        ["prog".toList, "-multifile".toList, "-bogus".toList]
        [⟨"-multifile".toList, [], [0]⟩, ⟨"-dims %d %d".toList, [], [1, 2]⟩]
        (fun _ => .int 0)).outcome = .ret MACSIO_CLARGS_ERROR :=
  (unknown_argument_returns_error none ⟨0, 0, 0⟩ 1
    ["prog".toList, "-multifile".toList, "-bogus".toList]
    [⟨"-multifile".toList, [], [0]⟩, ⟨"-dims %d %d".toList, [], [1, 2]⟩]
    (fun _ => .int 0) 2
    { initState (fun _ => .int 0) with mem := Mem.store (fun _ => .int 0) 0 (.int 1) }
    (by decide) (by decide) (by decide)
    (Reaches.step Reaches.start (by decide) (by rfl))
    (by decide)
    (by decide)).1

/-! ### Every known conversion consumes one token index -/

theorem wrapInt32_idem (x : Int) : wrapInt32 (wrapInt32 x) = wrapInt32 x := by
  unfold wrapInt32
  omega

/-- A specifier that begins with a type marker has `argNameLength = -1`, as unsigned
4294967295. A token equal to the specifier is matched, and the copy of that many bytes
into `argName[64]` makes the call undefined: nothing is stored. -/
theorem marker_first_specifier_overruns :
    (registry ⟨1, 0, 0⟩ [⟨"%d".toList, [], [0]⟩]).map (fun p => toUnsigned p.argNameLength)
      = [4294967295] ∧
    (MACSIO_CLARGS_ProcessCmdline none ⟨1, 0, 0⟩ 1 ["prog".toList, "%d".toList, "5".toList]
        [⟨"%d".toList, [], [0]⟩] (fun _ => .int 0)).outcome = .undef ∧
    (MACSIO_CLARGS_ProcessCmdline none ⟨1, 0, 0⟩ 1 ["prog".toList, "%n".toList, "x".toList]
        [⟨"%n".toList, [], [0]⟩] (fun _ => .int 0)).outcome = .undef ∧
    (MACSIO_CLARGS_ProcessCmdline none ⟨1, 0, 0⟩ 1 ["prog".toList, "%d %d".toList, "4".toList]
        [⟨"%d %d".toList, [], [0, 1]⟩] (fun _ => .int 0)).outcome = .undef := by
  decide

/-- A destination pointer passed for a parameter with an unknown type tag is not taken by
the declaration loop, which reads it as the next specifier; a presence-only specifier
passed without a pointer in route mode TOMEM makes the loop take the next specifier as
the destination. Both calls are undefined, whatever the token stream is. -/
theorem unread_pointer_is_undefined :
    (MACSIO_CLARGS_ProcessCmdline none ⟨1, 0, 0⟩ 1 ["prog".toList, "--help".toList]
        [⟨"-x %q".toList, "an argument".toList, [0]⟩] (fun _ => .int 0)).outcome = .undef ∧
    (MACSIO_CLARGS_ProcessCmdline none ⟨1, 0, 0⟩ 1 ["prog".toList, "-x".toList, "5".toList]
        [⟨"-x %q".toList, [], [0]⟩, ⟨"-v".toList, [], [1]⟩] (fun _ => .int 0)).outcome
      = .undef ∧
    (MACSIO_CLARGS_ProcessCmdline none ⟨1, 0, 0⟩ 1 ["prog".toList, "-v".toList]
        [⟨"-v".toList, [], []⟩] (fun _ => .int 0)).outcome = .undef := by
  decide

theorem matchStep_found (flags : MACSIO_CLARGS_ArgvFlags_t) (argv : List Str)
    (knownArgs : List MACSIO_KnownArgInfo_t) (i : Nat) (st : State) (p : MACSIO_KnownArgInfo_t)
    (hfind : findArg (argv.getD i []) knownArgs = some p) (hN : p.paramCount ≠ 0)
    (hcap : toUnsigned p.argNameLength ≤ argNameSize) :
    matchStep flags argv knownArgs i st =
      match paramLoop flags argv (strncpy (argv.getD i []) (toUnsigned p.argNameLength)) p
              p.paramCount 0 i st with
      | .next i1 st1 => .next (i1 + 1) st1
      | .stop o st1 => .stop o st1 := by
  have hnot : ¬ (argNameSize < toUnsigned p.argNameLength) := by omega
  unfold matchStep
  simp only [hfind, hnot, if_false, assignArg, hN, ne_eq, not_false_eq_true, if_true]

theorem processCmdline_help (COLUMNS : Option Str) (flags : MACSIO_CLARGS_ArgvFlags_t)
    (argi : Nat) (argv : List Str) (decls : List ArgDecl) (mem : Mem)
    (hhelp : helpRequested argv = true) :
    ∃ (o : Outcome) (log : List LogEntry) (out : List OutItem),
      MACSIO_CLARGS_ProcessCmdline COLUMNS flags argi argv decls mem =
        ⟨o, ⟨mem, [], log, out⟩, none⟩ := by
  unfold MACSIO_CLARGS_ProcessCmdline
  simp only [hhelp]
  cases declareArgs flags true (terminalWidthOf COLUMNS true) decls ⟨[], 0, []⟩ with
  | error o => exact ⟨o, [], [], rfl⟩
  | ok ds =>
    simp only []
    split_ifs with h
    · simp only [MACSIO_LOG_MSG, errSeverity_ne_die, if_false]
      exact ⟨_, _, _, rfl⟩
    · exact ⟨_, _, _, rfl⟩

/-- C4 (amended). Whenever some token of the input stream, at any index from 0 to
`argc-1`, contains the substring "help", the call performs no bind write and no document
write: caller memory is as at entry, `ret_json_obj` is never created and `*retobj` is not
assigned. When moreover the declarations contain no error (`invalidArgTypeFound` stays
0), every declaration passes the destination pointers the declaration loop takes, and
the wrap width is positive, the call returns `MACSIO_CLARGS_HELP` and logs nothing,
however many valid arguments the stream holds. -/
theorem help_short_circuit (COLUMNS : Option Str) (flags : MACSIO_CLARGS_ArgvFlags_t)
    (argi : Nat) (argv : List Str) (decls : List ArgDecl) (mem : Mem)
    (hhelp : helpRequested argv = true) :
    ((MACSIO_CLARGS_ProcessCmdline COLUMNS flags argi argv decls mem).st.mem = mem ∧
     (MACSIO_CLARGS_ProcessCmdline COLUMNS flags argi argv decls mem).st.ret_json_obj = [] ∧
     (MACSIO_CLARGS_ProcessCmdline COLUMNS flags argi argv decls mem).retobj = none) ∧
    (invalidArgTypeFoundOf flags decls = 0 → declsAligned flags decls = true →
      1 ≤ terminalWidthOf COLUMNS true →
      (MACSIO_CLARGS_ProcessCmdline COLUMNS flags argi argv decls mem).outcome
        = .ret MACSIO_CLARGS_HELP ∧
      (MACSIO_CLARGS_ProcessCmdline COLUMNS flags argi argv decls mem).st.log = []) := by
  constructor
  · obtain ⟨o, log, out, h⟩ := processCmdline_help COLUMNS flags argi argv decls mem hhelp
    rw [h]
    exact ⟨rfl, rfl, rfl⟩
  · intro hvalid hwf hw
    obtain ⟨out, h⟩ := declareArgs_help_eq flags (terminalWidthOf COLUMNS true) hw decls hwf
    unfold MACSIO_CLARGS_ProcessCmdline
    simp only [hhelp, h, hvalid]
    simp

/-- Witness for C4: `prog -multifile --help -dims 4 8` with `COLUMNS` unset. -/
theorem help_short_circuit_witness :
    (MACSIO_CLARGS_ProcessCmdline none ⟨1, 0, 0⟩ 1
        ["prog".toList, "-multifile".toList, "--help".toList, "-dims".toList, "4".toList,
          "8".toList]
        [⟨"-multifile".toList, "one file per step".toList, [0]⟩,
          ⟨"-dims %d %d".toList, "size of the mesh".toList, [1, 2]⟩]
        (fun _ => .int 0)).outcome = .ret MACSIO_CLARGS_HELP :=
  ((help_short_circuit none ⟨1, 0, 0⟩ 1
    ["prog".toList, "-multifile".toList, "--help".toList, "-dims".toList, "4".toList,
      "8".toList]
    [⟨"-multifile".toList, "one file per step".toList, [0]⟩,
      ⟨"-dims %d %d".toList, "size of the mesh".toList, [1, 2]⟩]
    (fun _ => .int 0) (by decide)).2 (by decide) (by decide) (by decide)).1

/-- Counterexample to C4 as stated: in route mode TOMEM with the declaration `-x %q`,
passed without a destination pointer as the declaration loop takes none for the tag `q`,
the stream `prog --help` contains "help", yet the call returns `MACSIO_CLARGS_ERROR`,
because `invalidArgTypeFound` is tested before `helpWasRequested`. -/
theorem help_short_circuit_counterexample :
    helpRequested ["prog".toList, "--help".toList] = true ∧
    declsAligned ⟨1, 0, 0⟩ [⟨"-x %q".toList, "an argument".toList, []⟩] = true ∧
    (MACSIO_CLARGS_ProcessCmdline none ⟨1, 0, 0⟩ 1 ["prog".toList, "--help".toList]
        [⟨"-x %q".toList, "an argument".toList, []⟩] (fun _ => .int 0)).outcome
      = .ret MACSIO_CLARGS_ERROR ∧
    (MACSIO_CLARGS_ProcessCmdline none ⟨1, 0, 0⟩ 1 ["prog".toList, "--help".toList]
        [⟨"-x %q".toList, "an argument".toList, []⟩] (fun _ => .int 0)).outcome
      ≠ .ret MACSIO_CLARGS_HELP := by
  decide

/-! ### C5: the declaration error -/

theorem bindStep_invalid_pos (flags : MACSIO_CLARGS_ArgvFlags_t) (fmtStr : Str) (b : BindState)
    (i : Nat) (h : 0 < b.invalidArgTypeFound) :
    0 < (bindStep flags fmtStr b i).invalidArgTypeFound := by
  unfold bindStep
  simp only []
  split_ifs
  all_goals first
    | exact h
    | (show (0 : Int) < (b.paramTypes.length : Int) + 1; omega)

theorem foldl_bindStep_invalid_pos (flags : MACSIO_CLARGS_ArgvFlags_t) (fmtStr : Str)
    (l : List Nat) :
    ∀ b : BindState, 0 < b.invalidArgTypeFound →
      0 < (l.foldl (bindStep flags fmtStr) b).invalidArgTypeFound := by
  induction l with
  | nil => intro b h; exact h
  | cons x l ih => intro b h; exact ih _ (bindStep_invalid_pos flags fmtStr b x h)

theorem foldl_bindStep_invalid_found (flags : MACSIO_CLARGS_ArgvFlags_t) (fmtStr : Str)
    (hroute : flags.route_mode = MACSIO_CLARGS_TOMEM) (i : Nat)
    (hm : isMarker fmtStr i = true) (hk : knownType (cstrAt fmtStr (i + 1)) = false)
    (l : List Nat) :
    ∀ b : BindState, i ∈ l → 0 < (l.foldl (bindStep flags fmtStr) b).invalidArgTypeFound := by
  induction l with
  | nil => intro b h; simp at h
  | cons x l ih =>
    intro b h
    rcases List.mem_cons.mp h with rfl | h
    · rw [List.foldl_cons]
      apply foldl_bindStep_invalid_pos
      unfold bindStep
      simp only [hm, hroute, hk, if_true, Bool.false_eq_true, if_false]
      omega
    · exact ih _ h

theorem foldl_countStep_mono (fmtStr : Str) (l : List Nat) :
    ∀ acc : Nat × Int, acc.1 ≤ (l.foldl (countStep fmtStr) acc).1 := by
  induction l with
  | nil => intro acc; exact Nat.le_refl _
  | cons x l ih =>
    intro acc
    refine Nat.le_trans ?_ (ih _)
    unfold countStep
    split_ifs <;> simp

theorem foldl_countStep_pos (fmtStr : Str) (i : Nat) (hm : isMarker fmtStr i = true)
    (l : List Nat) :
    ∀ acc : Nat × Int, i ∈ l → acc.1 < (l.foldl (countStep fmtStr) acc).1 := by
  induction l with
  | nil => intro acc h; simp at h
  | cons x l ih =>
    intro acc h
    rcases List.mem_cons.mp h with rfl | h
    · refine Nat.lt_of_lt_of_le ?_ (foldl_countStep_mono fmtStr l _)
      simp [countStep, hm]
    · refine Nat.lt_of_le_of_lt ?_ (ih _ h)
      unfold countStep
      split_ifs <;> simp

theorem makeKnownArg_invalid_pos (flags : MACSIO_CLARGS_ArgvFlags_t) (d : ArgDecl) (inv : Int)
    (h : 0 < inv) : 0 < (makeKnownArg flags d inv).2 := by
  unfold makeKnownArg
  simp only []
  split_ifs
  · exact foldl_bindStep_invalid_pos flags d.fmtStr _ _ h
  all_goals exact h

theorem makeKnownArg_invalid_found (flags : MACSIO_CLARGS_ArgvFlags_t) (d : ArgDecl)
    (inv : Int) (hroute : flags.route_mode = MACSIO_CLARGS_TOMEM) (i : Nat)
    (hi : i < d.fmtStr.length) (hm : isMarker d.fmtStr i = true)
    (hk : knownType (cstrAt d.fmtStr (i + 1)) = false) :
    0 < (makeKnownArg flags d inv).2 := by
  have hc : (countParams d.fmtStr).1 ≠ 0 := by
    have := foldl_countStep_pos d.fmtStr i hm (List.range d.fmtStr.length) (0, 0)
      (List.mem_range.mpr hi)
    unfold countParams
    omega
  unfold makeKnownArg
  simp only [hc, ne_eq, not_false_eq_true, if_true]
  exact foldl_bindStep_invalid_found flags d.fmtStr hroute i hm hk _ _ (List.mem_range.mpr hi)

theorem foldl_makeKnownArg_invalid_pos (flags : MACSIO_CLARGS_ArgvFlags_t)
    (decls : List ArgDecl) :
    ∀ inv : Int, 0 < inv → 0 < decls.foldl (fun inv d => (makeKnownArg flags d inv).2) inv := by
  induction decls with
  | nil => intro inv h; exact h
  | cons d rest ih => intro inv h; exact ih _ (makeKnownArg_invalid_pos flags d inv h)

/-- In route mode TOMEM a marker followed by a character other than `d`, `s`, `f`, `n`
leaves `invalidArgTypeFound` positive. -/
theorem invalidArgTypeFoundOf_pos (flags : MACSIO_CLARGS_ArgvFlags_t) (decls : List ArgDecl)
    (hroute : flags.route_mode = MACSIO_CLARGS_TOMEM) (d : ArgDecl) (hd : d ∈ decls) (i : Nat)
    (hi : i < d.fmtStr.length) (hm : isMarker d.fmtStr i = true)
    (hk : knownType (cstrAt d.fmtStr (i + 1)) = false)
    (hwf : declsAligned flags decls = true) :
    0 < invalidArgTypeFoundOf flags decls := by
  rw [invalidArgTypeFoundOf_eq flags decls hwf]
  clear hwf
  have aux : ∀ inv : Int,
      0 < decls.foldl (fun inv d => (makeKnownArg flags d inv).2) inv := by
    induction decls with
    | nil => simp at hd
    | cons x rest ih =>
      intro inv
      rw [List.foldl_cons]
      rcases List.mem_cons.mp hd with rfl | h
      · exact foldl_makeKnownArg_invalid_pos flags rest _
          (makeKnownArg_invalid_found flags d inv hroute i hi hm hk)
      · exact ih h _
  exact aux 0

/-- C5 (amended). In route mode TOMEM, for every declaration list in which some specifier
has a type marker whose following character is not one of `d`, `s`, `f`, `n`, and in
which every declaration passes exactly the destination pointers the declaration loop
takes (none for a marker with such a character), the call returns `MACSIO_CLARGS_ERROR`
before any token is matched or routed: caller memory is as at entry, no document exists,
`*retobj` is not assigned, and the one message logged is "invalid argument type
encountered" (with the severity `error_mode` selects). This holds whenever the
declaration loop is left, that is, when no help is requested or the wrap width is
positive. -/
theorem invalid_type_is_error_tomem (COLUMNS : Option Str) (flags : MACSIO_CLARGS_ArgvFlags_t)
    (argi : Nat) (argv : List Str) (decls : List ArgDecl) (mem : Mem)
    (d : ArgDecl) (i : Nat)
    (hroute : flags.route_mode = MACSIO_CLARGS_TOMEM)
    (hd : d ∈ decls) (hi : i < d.fmtStr.length) (hm : isMarker d.fmtStr i = true)
    (hk : knownType (cstrAt d.fmtStr (i + 1)) = false)
    (hwf : declsAligned flags decls = true)
    (hleft : helpRequested argv = false ∨ 1 ≤ terminalWidthOf COLUMNS true) :
    (MACSIO_CLARGS_ProcessCmdline COLUMNS flags argi argv decls mem).outcome
        = .ret MACSIO_CLARGS_ERROR ∧
    (MACSIO_CLARGS_ProcessCmdline COLUMNS flags argi argv decls mem).st.mem = mem ∧
    (MACSIO_CLARGS_ProcessCmdline COLUMNS flags argi argv decls mem).st.ret_json_obj = [] ∧
    (MACSIO_CLARGS_ProcessCmdline COLUMNS flags argi argv decls mem).retobj = none ∧
    (MACSIO_CLARGS_ProcessCmdline COLUMNS flags argi argv decls mem).st.log
        = [⟨errSeverity flags, .invalidArgumentType (invalidArgTypeFoundOf flags decls)⟩] := by
  have hpos := invalidArgTypeFoundOf_pos flags decls hroute d hd i hi hm hk hwf
  have hne : invalidArgTypeFoundOf flags decls ≠ 0 := by omega
  cases hh : helpRequested argv with
  | false =>
    unfold MACSIO_CLARGS_ProcessCmdline
    simp only [hh, terminalWidthOf_nohelp, declareArgs_nohelp_eq flags 70 decls hwf, hne, ne_eq,
      not_false_eq_true, if_true, MACSIO_LOG_MSG, errSeverity_ne_die, if_false]
    simp
  | true =>
    have hw : 1 ≤ terminalWidthOf COLUMNS true := by
      rcases hleft with h | h
      · rw [hh] at h; simp at h
      · exact h
    obtain ⟨out, h⟩ := declareArgs_help_eq flags (terminalWidthOf COLUMNS true) hw decls hwf
    unfold MACSIO_CLARGS_ProcessCmdline
    simp only [hh, h, hne, ne_eq, not_false_eq_true, if_true, MACSIO_LOG_MSG,
      errSeverity_ne_die, if_false]
    simp

/-- Witness for C5: the declaration `-x %q`, passed without a destination pointer, in
route mode TOMEM, stream `prog -x 5`. -/
theorem invalid_type_is_error_tomem_witness :
    (MACSIO_CLARGS_ProcessCmdline none ⟨1, 0, 0⟩ 1
        ["prog".toList, "-x".toList, "5".toList]
        [⟨"-x %q".toList, [], []⟩] (fun _ => .int 0)).outcome = .ret MACSIO_CLARGS_ERROR :=
  (invalid_type_is_error_tomem none ⟨1, 0, 0⟩ 1 ["prog".toList, "-x".toList, "5".toList]
    [⟨"-x %q".toList, [], []⟩] (fun _ => .int 0) ⟨"-x %q".toList, [], []⟩ 3
    (by decide) (by decide) (by decide) (by decide) (by decide) (by decide)
    (Or.inl (by decide))).1

/-- Counterexample to C5 as stated: in route mode TOJSON the declaration `-x %q` is not
detected; with `-multifile` also declared, the stream `prog -multifile` is matched and
routed, and the call returns `MACSIO_CLARGS_OK` with the document assigned to `*retobj`.
In route mode TOMEM, when the caller passes a destination pointer for the parameter `%q`,
the declaration loop does not take it and reads it as the next specifier: the call is
undefined and returns no `MACSIO_CLARGS_ERROR`. -/
theorem invalid_type_counterexample :
    isMarker "-x %q".toList 3 = true ∧ knownType (cstrAt "-x %q".toList 4) = false ∧
    (MACSIO_CLARGS_ProcessCmdline none ⟨1, 1, 0⟩ 1 ["prog".toList, "-multifile".toList]
        [⟨"-multifile".toList, [], []⟩, ⟨"-x %q".toList, [], []⟩]
        (fun _ => .int 0)).outcome = .ret MACSIO_CLARGS_OK ∧
    (MACSIO_CLARGS_ProcessCmdline none ⟨1, 1, 0⟩ 1 ["prog".toList, "-multifile".toList]
        [⟨"-multifile".toList, [], []⟩, ⟨"-x %q".toList, [], []⟩]
        (fun _ => .int 0)).retobj = some [("-multifile".toList, .boolean true)] ∧
    (MACSIO_CLARGS_ProcessCmdline none ⟨1, 0, 0⟩ 1 ["prog".toList, "-x".toList, "5".toList]
        [⟨"-x %q".toList, [], [0]⟩] (fun _ => .int 0)).outcome = .undef :=
  ⟨by decide, by decide, by decide, by rfl, by decide⟩

/-! ### C6: suffix scaling -/

theorem digitValue_of_isdigit (c : Char) (h : isdigit c = true) :
    digitValue c = some (c.toNat - 48) ∧ c.toNat - 48 < 10 := by
  simp only [isdigit, decide_eq_true_eq] at h
  unfold digitValue
  simp only [h, and_self, if_true, true_and]
  omega

theorem digitValue_of_not_isdigit (c : Char) (h : isdigit c = false) :
    ∀ d, digitValue c = some d → ¬ d < 10 := by
  simp only [isdigit, decide_eq_false_iff_not] at h
  intro d hd
  unfold digitValue at hd
  simp only [h, if_false] at hd
  split_ifs at hd <;> simp at hd <;> omega

theorem strtolDigits_ten (s : Str) :
    ∀ acc : Nat, strtolDigits 10 s acc =
      (s.takeWhile isdigit).foldl (fun acc c => acc * 10 + (c.toNat - 48)) acc := by
  induction s with
  | nil => intro acc; rfl
  | cons c cs ih =>
    intro acc
    cases hc : isdigit c with
    | true =>
      obtain ⟨h1, h2⟩ := digitValue_of_isdigit c hc
      simp only [strtolDigits, h1, h2, if_true, List.takeWhile_cons, hc, List.foldl_cons]
      exact ih _
    | false =>
      have h1 := digitValue_of_not_isdigit c hc
      simp only [strtolDigits, List.takeWhile_cons, hc, Bool.false_eq_true, if_false,
        List.foldl_nil]
      cases hd : digitValue c with
      | none => rfl
      | some d => simp [h1 d hd]

theorem strtolMagnitude_ten (tok : Str) :
    strtolMagnitude tok 10 = decimalValue ((strtolUnsigned tok).takeWhile isdigit) := by
  unfold strtolMagnitude
  have h1 : ((10 : Nat) == 0 || (10 : Nat) == 16) = false := by decide
  have h2 : ((10 : Nat) == 0) = false := by decide
  simp only [h1, h2, Bool.false_and, Bool.false_eq_true, if_false]
  exact strtolDigits_ten _ 0

/-- The subject `strtol` reads in base 10 is the leading integer of the token: `strtol`
returns it clamped to `long`. -/
theorem strtol_ten (tok : Str) :
    strtol tok 10 = if leadingInteger tok < 0 then max (leadingInteger tok) LONG_MIN
                    else min (leadingInteger tok) LONG_MAX := by
  unfold strtol
  rw [strtolMagnitude_ten]
  unfold strtolNegative strtolUnsigned strtolSkipSpace leadingInteger
  cases hs : tok.dropWhile isspace with
  | nil => decide
  | cons c rest =>
    simp only [cstrAt, List.getD_cons_zero, beq_iff_eq, Bool.or_eq_true]
    by_cases hm : c = Char.ofNat 45
    · subst hm
      simp only [true_or, if_true, List.tail_cons]
      split_ifs with h
      · rfl
      · have h0 : (decimalValue (List.takeWhile isdigit rest) : Int) = 0 := by omega
        rw [h0]
        decide
    · by_cases hp : c = Char.ofNat 43
      · subst hp
        simp only [hm, if_false, or_true, if_true, List.tail_cons]
        split_ifs with h
        · omega
        · rfl
      · simp only [hm, hp, if_false, or_self]
        split_ifs with h
        · omega
        · rfl

theorem GetSizeFromModifierChar_cases (c : Char) :
    GetSizeFromModifierChar c = 1 ∨ GetSizeFromModifierChar c = 1024 ∨
    GetSizeFromModifierChar c = 1048576 ∨ GetSizeFromModifierChar c = 1073741824 := by
  unfold GetSizeFromModifierChar
  split_ifs <;> simp

theorem wrapInt32_of_fits (x : Int) (h1 : -2147483648 ≤ x) (h2 : x ≤ 2147483647) :
    wrapInt32 x = x := by
  unfold wrapInt32
  omega

theorem cstrAt_last (tok : Str) (hne : tok ≠ []) :
    cstrAt tok (tok.length - 1) = tok.getLast hne := by
  unfold cstrAt
  rw [List.getLast_eq_getElem]
  have : tok.length - 1 < tok.length := by
    have := List.length_pos.mpr hne
    omega
  simp [List.getD_eq_getElem?_getD, List.getElem?_eq_getElem this]

/-- The value the `case 'd'` computes, when the scaled leading integer fits in `int`. -/
theorem scaled_value_of_fits (tok : Str) (hne : tok ≠ [])
    (hlo : -2147483648 ≤ leadingInteger tok * GetSizeFromModifierChar (tok.getLast hne))
    (hhi : leadingInteger tok * GetSizeFromModifierChar (tok.getLast hne) ≤ 2147483647) :
    wrapInt32 (wrapInt32 (strtol tok 10) * GetSizeFromModifierChar (cstrAt tok (tok.length - 1)))
      = leadingInteger tok * GetSizeFromModifierChar (tok.getLast hne) := by
  rw [cstrAt_last tok hne]
  have hL : -2147483648 ≤ leadingInteger tok ∧ leadingInteger tok ≤ 2147483647 := by
    rcases GetSizeFromModifierChar_cases (tok.getLast hne) with h | h | h | h <;>
      rw [h] at hlo hhi <;> omega
  have hs : strtol tok 10 = leadingInteger tok := by
    rw [strtol_ten]
    unfold LONG_MIN LONG_MAX
    split_ifs <;> omega
  rw [hs, wrapInt32_of_fits _ hL.1 hL.2, wrapInt32_of_fits _ hlo hhi]

/-- C6. For an integer-typed parameter whose value token `tok = argv[i+1]` is not empty,
let `v` be the token's leading decimal integer multiplied by the multiplier
`GetSizeFromModifierChar` gives for the token's final character (`b`/`B` 1, `k`/`K` 2^10,
`m`/`M` 2^20, `g`/`G` 2^30, any other character 1). Whenever `v` fits in a signed 32-bit
integer, the conversion writes `v`: into the bound destination in route mode TOMEM, under
the argument's key in the document in route mode TOJSON. -/
theorem suffix_scaling (flags : MACSIO_CLARGS_ArgvFlags_t) (argv : List Str) (argName : Str)
    (a : Nat) (i : Nat) (st : State) (tok : Str)
    (htok : argv.get? (i + 1) = some tok) (hne : tok ≠ [])
    (hlo : -2147483648 ≤ leadingInteger tok * GetSizeFromModifierChar (tok.getLast hne))
    (hhi : leadingInteger tok * GetSizeFromModifierChar (tok.getLast hne) ≤ 2147483647) :
    (flags.route_mode = MACSIO_CLARGS_TOMEM →
      convertInt flags argv argName (some a) i st =
        .next (i + 1) { st with
          mem := st.mem.store a
            (.int (leadingInteger tok * GetSizeFromModifierChar (tok.getLast hne))) }) ∧
    (flags.route_mode = MACSIO_CLARGS_TOJSON →
      convertInt flags argv argName (some a) i st =
        .next (i + 1) { st with
          ret_json_obj := add_param_to_json_retobj st.ret_json_obj argName
            (.int (leadingInteger tok * GetSizeFromModifierChar (tok.getLast hne))) }) := by
  have hv := scaled_value_of_fits tok hne hlo hhi
  have hw := wrapInt32_of_fits _ hlo hhi
  have hlen : ¬ (tok.length = 0) := by
    have := List.length_pos.mpr hne
    omega
  constructor
  · intro hroute
    unfold convertInt
    simp only [htok, hlen, if_false, wrapInt32_idem, ne_eq, not_true_eq_false, hroute, if_true,
      storeThrough, hv, hw]
  · intro hroute
    have hnot : ¬ (flags.route_mode = MACSIO_CLARGS_TOMEM) := by rw [hroute]; decide
    unfold convertInt
    simp only [htok, hlen, if_false, wrapInt32_idem, ne_eq, not_true_eq_false, hroute, if_true,
      addToDoc, hv, hw]
    simp [MACSIO_CLARGS_TOJSON, MACSIO_CLARGS_TOMEM]

/-- Witness for C6: the tokens `4k`, `2M`, `1g` and `10` bound to destination 0 in route
mode TOMEM write 4096, 2097152, 1073741824 and 10. -/
theorem suffix_scaling_witness :
    convertInt ⟨1, 0, 0⟩ ["prog".toList, "-n".toList, "4k".toList] "-n".toList (some 0) 1
        (initState (fun _ => .int 0))
      = .next 2 { initState (fun _ => .int 0) with
                  mem := Mem.store (fun _ => .int 0) 0 (.int 4096) } ∧
    convertInt ⟨1, 0, 0⟩ ["prog".toList, "-n".toList, "2M".toList] "-n".toList (some 0) 1
        (initState (fun _ => .int 0))
      = .next 2 { initState (fun _ => .int 0) with
                  mem := Mem.store (fun _ => .int 0) 0 (.int 2097152) } ∧
    convertInt ⟨1, 0, 0⟩ ["prog".toList, "-n".toList, "1g".toList] "-n".toList (some 0) 1
        (initState (fun _ => .int 0))
      = .next 2 { initState (fun _ => .int 0) with
                  mem := Mem.store (fun _ => .int 0) 0 (.int 1073741824) } ∧
    convertInt ⟨1, 0, 0⟩ ["prog".toList, "-n".toList, "10".toList] "-n".toList (some 0) 1
        (initState (fun _ => .int 0))
      = .next 2 { initState (fun _ => .int 0) with
                  mem := Mem.store (fun _ => .int 0) 0 (.int 10) } :=
  ⟨(suffix_scaling ⟨1, 0, 0⟩ ["prog".toList, "-n".toList, "4k".toList] "-n".toList 0 1
      (initState (fun _ => .int 0)) "4k".toList (by rfl) (by decide) (by decide)
      (by decide)).1 (by decide),
   (suffix_scaling ⟨1, 0, 0⟩ ["prog".toList, "-n".toList, "2M".toList] "-n".toList 0 1
      (initState (fun _ => .int 0)) "2M".toList (by rfl) (by decide) (by decide)
      (by decide)).1 (by decide),
   (suffix_scaling ⟨1, 0, 0⟩ ["prog".toList, "-n".toList, "1g".toList] "-n".toList 0 1
      (initState (fun _ => .int 0)) "1g".toList (by rfl) (by decide) (by decide)
      (by decide)).1 (by decide),
   (suffix_scaling ⟨1, 0, 0⟩ ["prog".toList, "-n".toList, "10".toList] "-n".toList 0 1
      (initState (fun _ => .int 0)) "10".toList (by rfl) (by decide) (by decide)
      (by decide)).1 (by decide)⟩

/-! ### C7: the overflow check -/

/-- C7, the code at the failing input. With `-n %d` bound to destination 0 (holding 7) in
route mode TOMEM, the stream `prog -n 4g` has the leading integer 4 and the multiplier
2^30, whose product 4294967296 exceeds the `int` range. The product is formed in `int`
arithmetic, the check `(int)tmpDbl != tmpDbl` compares the wrapped value with itself, and
the call returns `MACSIO_CLARGS_OK` having written 0 and logged nothing. -/
theorem overflow_is_written_wrapped :
    leadingInteger "4g".toList * GetSizeFromModifierChar (Char.ofNat 103) = 4294967296 ∧
    (MACSIO_CLARGS_ProcessCmdline none ⟨1, 0, 0⟩ 1
        ["prog".toList, "-n".toList, "4g".toList] [⟨"-n %d".toList, [], [0]⟩]
        (fun _ => .int 7)).outcome = .ret MACSIO_CLARGS_OK ∧
    (MACSIO_CLARGS_ProcessCmdline none ⟨1, 0, 0⟩ 1
        ["prog".toList, "-n".toList, "4g".toList] [⟨"-n %d".toList, [], [0]⟩]
        (fun _ => .int 7)).st.mem 0 = .int 0 ∧
    (MACSIO_CLARGS_ProcessCmdline none ⟨1, 0, 0⟩ 1
        ["prog".toList, "-n".toList, "4g".toList] [⟨"-n %d".toList, [], [0]⟩]
        (fun _ => .int 7)).st.log = [] := by
  decide

/-! ### C8: scalar-to-list promotion -/

theorem get_object_add_same (doc : JDoc) (key : Str) (val : json_object) :
    json_object_object_get_ex (json_object_object_add doc key val) key = some val := by
  induction doc with
  | nil => simp [json_object_object_add, json_object_object_get_ex]
  | cons kv rest ih =>
    obtain ⟨k, v⟩ := kv
    by_cases h : k = key
    · simp [json_object_object_add, json_object_object_get_ex, h]
    · simp [json_object_object_add, json_object_object_get_ex, h, ih]

theorem get_object_add_other (doc : JDoc) (key key1 : Str) (val : json_object)
    (hne : key1 ≠ key) :
    json_object_object_get_ex (json_object_object_add doc key1 val) key =
      json_object_object_get_ex doc key := by
  induction doc with
  | nil =>
    simp [json_object_object_add, json_object_object_get_ex, hne]
  | cons kv rest ih =>
    obtain ⟨k, v⟩ := kv
    by_cases h : k = key1
    · subst h
      simp [json_object_object_add, json_object_object_get_ex, hne]
    · simp only [json_object_object_add, h, if_false, json_object_object_get_ex, ih]

theorem get_add_param_fresh (doc : JDoc) (key : Str) (val : json_object)
    (h : json_object_object_get_ex doc key = none) :
    json_object_object_get_ex (add_param_to_json_retobj doc key val) key = some val := by
  simp only [add_param_to_json_retobj, h, get_object_add_same]

theorem get_add_param_array (doc : JDoc) (key : Str) (val : json_object)
    (elems : List json_object) (h : json_object_object_get_ex doc key = some (.array elems)) :
    json_object_object_get_ex (add_param_to_json_retobj doc key val) key
      = some (.array (elems ++ [val])) := by
  simp only [add_param_to_json_retobj, h, get_object_add_same]

theorem get_add_param_scalar (doc : JDoc) (key : Str) (val old : json_object)
    (h : json_object_object_get_ex doc key = some old) (hold : json_object_is_array old = false) :
    json_object_object_get_ex (add_param_to_json_retobj doc key val) key
      = some (.array [old, val]) := by
  cases old <;> simp_all [add_param_to_json_retobj, get_object_add_same, json_object_is_array]

theorem get_add_param_other (doc : JDoc) (key key1 : Str) (val : json_object)
    (hne : key1 ≠ key) :
    json_object_object_get_ex (add_param_to_json_retobj doc key1 val) key =
      json_object_object_get_ex doc key := by
  unfold add_param_to_json_retobj
  split
  · split <;> exact get_object_add_other _ _ _ _ hne
  · exact get_object_add_other _ _ _ _ hne

theorem get_foldl_add_param_array (key : Str) (vals : List json_object) :
    ∀ (doc : JDoc) (elems : List json_object),
      json_object_object_get_ex doc key = some (.array elems) →
      json_object_object_get_ex
          (vals.foldl (fun d v => add_param_to_json_retobj d key v) doc) key
        = some (.array (elems ++ vals)) := by
  induction vals with
  | nil => intro doc elems h; simpa using h
  | cons v rest ih =>
    intro doc elems h
    rw [List.foldl_cons, ih _ _ (get_add_param_array doc key v elems h)]
    simp

/-- C8. Starting from a document with no entry for `key`, writing the values
`v1, ..., vn` (`n >= 1`, `v1` a scalar) under `key` through `add_param_to_json_retobj`
leaves `key` mapped to the scalar `v1` when `n = 1` and to the ordered list
`[v1, ..., vn]` when `n >= 2`: two writes give the two-element list in write order, a
third write gives three elements, and so on. A key that holds a list holds a list after
every later write, under this key or another: it never reverts to a scalar. -/
theorem scalar_to_list_promotion (doc : JDoc) (key : Str) (v1 : json_object)
    (hfresh : json_object_object_get_ex doc key = none)
    (hscalar : json_object_is_array v1 = false) :
    json_object_object_get_ex (add_param_to_json_retobj doc key v1) key = some v1 ∧
    (∀ (v2 : json_object) (more : List json_object),
      json_object_object_get_ex
          ((v1 :: v2 :: more).foldl (fun d v => add_param_to_json_retobj d key v) doc) key
        = some (.array (v1 :: v2 :: more))) ∧
    (∀ (d : JDoc) (elems : List json_object) (key1 : Str) (v : json_object),
      json_object_object_get_ex d key = some (.array elems) →
      ∃ elems1, json_object_object_get_ex (add_param_to_json_retobj d key1 v) key
        = some (.array elems1)) := by
  refine ⟨get_add_param_fresh doc key v1 hfresh, ?_, ?_⟩
  · intro v2 more
    rw [List.foldl_cons, List.foldl_cons]
    have h1 := get_add_param_fresh doc key v1 hfresh
    have h2 := get_add_param_scalar _ key v2 v1 h1 hscalar
    rw [get_foldl_add_param_array key more _ _ h2]
    simp
  · intro d elems key1 v h
    by_cases hk : key1 = key
    · subst hk
      exact ⟨_, get_add_param_array d key1 v elems h⟩
    · exact ⟨elems, by rw [get_add_param_other d key key1 v hk, h]⟩

/-- Witness for C8: the key `-dims` written with 1, then 2, then 3, starting from the
empty document. -/
theorem scalar_to_list_promotion_witness :
    json_object_object_get_ex (add_param_to_json_retobj [] "-dims".toList (.int 1))
        "-dims".toList = some (.int 1) ∧
    json_object_object_get_ex
        ([json_object.int 1, .int 2].foldl
          (fun d v => add_param_to_json_retobj d "-dims".toList v) []) "-dims".toList
      = some (.array [.int 1, .int 2]) ∧
    json_object_object_get_ex
        ([json_object.int 1, .int 2, .int 3].foldl
          (fun d v => add_param_to_json_retobj d "-dims".toList v) []) "-dims".toList
      = some (.array [.int 1, .int 2, .int 3]) :=
  ⟨(scalar_to_list_promotion [] "-dims".toList (.int 1) rfl rfl).1,
   (scalar_to_list_promotion [] "-dims".toList (.int 1) rfl rfl).2.1 (.int 2) [],
   (scalar_to_list_promotion [] "-dims".toList (.int 1) rfl rfl).2.1 (.int 2) [.int 3]⟩

/-! ### C10: the match prefix of a specifier -/

theorem foldl_countStep_no_marker (fmtStr : Str) (l : List Nat)
    (h : ∀ a ∈ l, isMarker fmtStr a = false) :
    ∀ acc : Nat × Int, l.foldl (countStep fmtStr) acc = acc := by
  induction l with
  | nil => intro acc; rfl
  | cons x l ih =>
    intro acc
    rw [List.foldl_cons]
    have hx : countStep fmtStr acc x = acc := by simp [countStep, h x (by simp)]
    rw [hx]
    exact ih (fun a ha => h a (by simp [ha])) acc

theorem foldl_countStep_keeps (fmtStr : Str) (l : List Nat) :
    ∀ acc : Nat × Int, acc.2 ≠ 0 → (l.foldl (countStep fmtStr) acc).2 = acc.2 := by
  induction l with
  | nil => intro acc _; rfl
  | cons x l ih =>
    intro acc h
    rw [List.foldl_cons]
    have hx : (countStep fmtStr acc x).2 = acc.2 := by
      unfold countStep
      split_ifs <;> simp [h]
    rw [ih _ (by rw [hx]; exact h), hx]

theorem countParams_of_firstMarker_none (fmtStr : Str) (h : firstMarker fmtStr = none) :
    countParams fmtStr = (0, 0) := by
  unfold firstMarker at h
  rw [List.find?_eq_none] at h
  exact foldl_countStep_no_marker fmtStr _ (fun a ha => by simpa using h a ha) (0, 0)

theorem countParams_of_firstMarker_some (fmtStr : Str) (i : Nat)
    (h : firstMarker fmtStr = some i) :
    (countParams fmtStr).1 ≠ 0 ∧ (2 ≤ i → (countParams fmtStr).2 = (i : Int) - 1) := by
  unfold firstMarker at h
  rw [List.find?_eq_some] at h
  obtain ⟨hm, as, bs, hl, hno⟩ := h
  have hmem : i ∈ List.range fmtStr.length := by rw [hl]; simp
  constructor
  · have := foldl_countStep_pos fmtStr i hm (List.range fmtStr.length) (0, 0) hmem
    unfold countParams
    omega
  · intro h2
    unfold countParams
    rw [hl, List.foldl_append, List.foldl_cons,
      foldl_countStep_no_marker fmtStr as (fun a ha => by simpa using hno a ha) (0, 0)]
    have hstep : countStep fmtStr (0, 0) i = (1, (i : Int) - 1) := by
      simp [countStep, hm]
    rw [hstep, foldl_countStep_keeps fmtStr bs _ (by simp; omega)]

theorem toUnsigned_of_nat (n : Nat) (h : n < 4294967296) : toUnsigned (n : Int) = n := by
  unfold toUnsigned
  omega

/-- C10 (amended). For every format specifier (of a length that fits `int`) whose first
type marker (a `%` not followed by a second `%`), if it has one, stands at an index
`i >= 2`, the descriptor's `argNameLength` is `i - 1` and its match prefix is the
specifier's first `i - 1` characters: the substring before the first marker without that
substring's last character, the separator in front of the marker. For a specifier with
zero markers `argNameLength` is its length and the match prefix is the entire specifier. -/
theorem match_prefix_of_specifier (flags : MACSIO_CLARGS_ArgvFlags_t) (d : ArgDecl) (inv : Int)
    (hlen : d.fmtStr.length < 2147483648)
    (hname : ∀ i, firstMarker d.fmtStr = some i → 2 ≤ i) :
    (makeKnownArg flags d inv).1.argNameLength =
      (match firstMarker d.fmtStr with
       | some i => (i : Int) - 1
       | none => (d.fmtStr.length : Int)) ∧
    matchPrefixOf (makeKnownArg flags d inv).1 =
      (match firstMarker d.fmtStr with
       | some i => d.fmtStr.take (i - 1)
       | none => d.fmtStr) := by
  cases hf : firstMarker d.fmtStr with
  | none =>
    have hc := countParams_of_firstMarker_none d.fmtStr hf
    have hu := toUnsigned_of_nat d.fmtStr.length (by omega)
    simp only [makeKnownArg, hc, ne_eq, not_true_eq_false, if_false, matchPrefixOf, hu,
      List.take_length, and_self]
  | some i =>
    obtain ⟨hc1, hc2⟩ := countParams_of_firstMarker_some d.fmtStr i hf
    have h2 := hname i hf
    have hi : i < d.fmtStr.length := by
      unfold firstMarker at hf
      have := List.mem_of_find?_eq_some hf
      exact List.mem_range.mp this
    have hcast : ((i : Int) - 1) = ((i - 1 : Nat) : Int) := by omega
    have hu := toUnsigned_of_nat (i - 1) (by omega)
    simp only [makeKnownArg, hc1, ne_eq, not_false_eq_true, if_true, matchPrefixOf, hc2 h2]
    rw [hcast, hu]
    simp

/-- Witness for C10: the specifier `-dims %d %d`, whose first marker is at index 6, has
`argNameLength` 5 and the match prefix `-dims`. -/
theorem match_prefix_of_specifier_witness :
    (makeKnownArg ⟨1, 0, 0⟩ ⟨"-dims %d %d".toList, [], [1, 2]⟩ 0).1.argNameLength = 5 ∧
    matchPrefixOf (makeKnownArg ⟨1, 0, 0⟩ ⟨"-dims %d %d".toList, [], [1, 2]⟩ 0).1
      = "-dims".toList :=
  match_prefix_of_specifier ⟨1, 0, 0⟩ ⟨"-dims %d %d".toList, [], [1, 2]⟩ 0 (by decide)
    (by decide)

/-- Counterexample to C10 as stated: the first type marker of `-dims %d %d` is at index
6, so the specifier substring before it is `-dims ` with the trailing blank, of length 6,
while the registry's match prefix is `-dims`, of length 5 (`argNameLength = i - 1`). -/
theorem match_prefix_counterexample :
    firstMarker "-dims %d %d".toList = some 6 ∧
    "-dims %d %d".toList.take 6 = "-dims ".toList ∧
    matchPrefixOf (makeKnownArg ⟨1, 0, 0⟩ ⟨"-dims %d %d".toList, [], [1, 2]⟩ 0).1
      = "-dims".toList ∧
    matchPrefixOf (makeKnownArg ⟨1, 0, 0⟩ ⟨"-dims %d %d".toList, [], [1, 2]⟩ 0).1
      ≠ "-dims %d %d".toList.take 6 := by
  decide

/-! ### C9: first-declared-wins prefix matching -/

theorem foldl_countStep_bounds (fmtStr : Str) (h0 : isMarker fmtStr 0 = false) (l : List Nat)
    (hl : ∀ a ∈ l, a < fmtStr.length) :
    ∀ acc : Nat × Int, 0 ≤ acc.2 → acc.2 ≤ fmtStr.length →
      0 ≤ (l.foldl (countStep fmtStr) acc).2 ∧
      (l.foldl (countStep fmtStr) acc).2 ≤ fmtStr.length := by
  induction l with
  | nil => intro acc h1 h2; exact ⟨h1, h2⟩
  | cons x l ih =>
    intro acc h1 h2
    rw [List.foldl_cons]
    have hx := hl x (by simp)
    apply ih (fun a ha => hl a (by simp [ha]))
    · unfold countStep
      split_ifs with hm hz
      · have : x ≠ 0 := by
          rintro rfl
          rw [h0] at hm
          exact absurd hm (by simp)
        show (0 : Int) ≤ (x : Int) - 1
        omega
      · exact h1
      · exact h1
    · unfold countStep
      split_ifs with hm hz
      · show (x : Int) - 1 ≤ (fmtStr.length : Int)
        omega
      · exact h2
      · exact h2

/-- A descriptor built from a specifier that does not begin with a type marker has its
`argNameLength` within the specifier. -/
theorem makeKnownArg_argNameLength_bounds (flags : MACSIO_CLARGS_ArgvFlags_t) (d : ArgDecl)
    (inv : Int) (h0 : isMarker d.fmtStr 0 = false) :
    toUnsigned (makeKnownArg flags d inv).1.argNameLength
      ≤ (makeKnownArg flags d inv).1.fmtStr.length := by
  obtain ⟨h1, h2⟩ := foldl_countStep_bounds d.fmtStr h0 (List.range d.fmtStr.length)
    (fun a ha => List.mem_range.mp ha) (0, 0) (by simp) (by simp)
  unfold makeKnownArg
  simp only []
  split_ifs
  · show toUnsigned (countParams d.fmtStr).2 ≤ d.fmtStr.length
    unfold toUnsigned countParams
    omega
  all_goals
    show toUnsigned (d.fmtStr.length : Int) ≤ d.fmtStr.length
    unfold toUnsigned
    omega

theorem findArg_eq_some_iff (arg : Str) (knownArgs : List MACSIO_KnownArgInfo_t)
    (hb : ∀ q ∈ knownArgs, toUnsigned q.argNameLength ≤ q.fmtStr.length)
    (p : MACSIO_KnownArgInfo_t) :
    findArg arg knownArgs = some p ↔
      ∃ pre post, knownArgs = pre ++ p :: post ∧ matchPrefixOf p <+: arg ∧
        ∀ q ∈ pre, ¬ (matchPrefixOf q <+: arg) := by
  induction knownArgs with
  | nil => simp [findArg]
  | cons q rest ih =>
    have hq := strncmpEq_iff_matchPrefix arg q (hb q (by simp))
    have ih1 := ih (fun r hr => hb r (by simp [hr]))
    by_cases hm : strncmpEq arg q.fmtStr (toUnsigned q.argNameLength) = true
    · simp only [findArg, hm, if_true, Option.some.injEq]
      constructor
      · rintro rfl
        exact ⟨[], rest, rfl, hq.mp hm, by simp⟩
      · rintro ⟨pre, post, heq, _, hpre⟩
        cases pre with
        | nil =>
          simp only [List.nil_append, List.cons.injEq] at heq
          exact heq.1
        | cons r pre1 =>
          simp only [List.cons_append, List.cons.injEq] at heq
          exact absurd (hq.mp hm) (by rw [heq.1]; exact hpre r (by simp))
    · simp only [findArg, hm, Bool.false_eq_true, if_false]
      rw [ih1]
      constructor
      · rintro ⟨pre, post, heq, hp, hpre⟩
        refine ⟨q :: pre, post, by simp [heq], hp, ?_⟩
        intro r hr
        rcases List.mem_cons.mp hr with rfl | hr
        · exact fun h => hm (hq.mpr h)
        · exact hpre r hr
      · rintro ⟨pre, post, heq, hp, hpre⟩
        cases pre with
        | nil =>
          simp only [List.nil_append, List.cons.injEq] at heq
          exact absurd (hq.mpr (heq.1 ▸ hp)) hm
        | cons r pre1 =>
          simp only [List.cons_append, List.cons.injEq] at heq
          exact ⟨pre1, post, heq.2, hp, fun s hs => hpre s (by simp [hs])⟩

theorem findArg_none_imp (arg : Str) (knownArgs : List MACSIO_KnownArgInfo_t)
    (hb : ∀ q ∈ knownArgs, toUnsigned q.argNameLength ≤ q.fmtStr.length)
    (h : findArg arg knownArgs = none) :
    ∀ q ∈ knownArgs, ¬ (matchPrefixOf q <+: arg) := by
  induction knownArgs with
  | nil => intro q hq; simp at hq
  | cons r rest ih =>
    have hr := strncmpEq_iff_matchPrefix arg r (hb r (by simp))
    by_cases hm : strncmpEq arg r.fmtStr (toUnsigned r.argNameLength) = true
    · simp [findArg, hm] at h
    · simp only [findArg, hm, Bool.false_eq_true, if_false] at h
      intro q hq
      rcases List.mem_cons.mp hq with rfl | hq
      · exact fun hp => hm (hr.mpr hp)
      · exact ih (fun s hs => hb s (by simp [hs])) h q hq

theorem matchStep_congr (flags : MACSIO_CLARGS_ArgvFlags_t) (argv : List Str)
    (ka ka1 : List MACSIO_KnownArgInfo_t) (i : Nat) (st : State)
    (h : findArg (argv.getD i []) ka = findArg (argv.getD i []) ka1) :
    matchStep flags argv ka i st = matchStep flags argv ka1 i st := by
  unfold matchStep
  simp only [h]

/-- C9 (amended). For every declaration list in which no specifier begins with a type
marker, the registry search assigns a token to a descriptor `p` exactly when `p` is the first
descriptor, in declaration order, whose match prefix is a literal prefix of the token:
the match is a prefix match, a descriptor declared after `p` is never selected even if
its prefix matches too, and a token that some descriptor matches is never unknown. The
iteration at such a token is the one a registry ending at `p` yields: descriptors
declared later have no influence, so no ambiguity error is raised. -/
theorem first_declared_wins (flags : MACSIO_CLARGS_ArgvFlags_t) (decls : List ArgDecl)
    (hnamed : ∀ d ∈ decls, isMarker d.fmtStr 0 = false) :
    (∀ (tok : Str) (p : MACSIO_KnownArgInfo_t),
      findArg tok (registry flags decls) = some p ↔
        ∃ pre post, registry flags decls = pre ++ p :: post ∧ matchPrefixOf p <+: tok ∧
          ∀ q ∈ pre, ¬ (matchPrefixOf q <+: tok)) ∧
    (∀ (tok : Str), findArg tok (registry flags decls) = none ↔
        ∀ q ∈ registry flags decls, ¬ (matchPrefixOf q <+: tok)) ∧
    (∀ (argv : List Str) (i : Nat) (st : State) (pre post : List MACSIO_KnownArgInfo_t)
        (p : MACSIO_KnownArgInfo_t),
      registry flags decls = pre ++ p :: post → matchPrefixOf p <+: argv.getD i [] →
      (∀ q ∈ pre, ¬ (matchPrefixOf q <+: argv.getD i [])) →
      matchStep flags argv (registry flags decls) i st
        = matchStep flags argv (pre ++ [p]) i st) := by
  have hb : ∀ q ∈ registry flags decls, toUnsigned q.argNameLength ≤ q.fmtStr.length := by
    intro q hq
    obtain ⟨_, d, hd, rfl⟩ := registry_mem flags decls q hq
    exact makeKnownArg_argNameLength_bounds flags d 0 (hnamed d hd)
  refine ⟨fun tok p => findArg_eq_some_iff tok _ hb p, ?_, ?_⟩
  · intro tok
    constructor
    · exact findArg_none_imp tok _ hb
    · exact findArg_eq_none
  · intro argv i st pre post p heq hp hpre
    apply matchStep_congr
    have hb1 : ∀ q ∈ pre ++ [p], toUnsigned q.argNameLength ≤ q.fmtStr.length := by
      intro q hq
      apply hb q
      rw [heq]
      rcases List.mem_append.mp hq with h | h
      · exact List.mem_append_left _ h
      · simp only [List.mem_singleton] at h
        simp [h]
    rw [(findArg_eq_some_iff _ _ hb p).mpr ⟨pre, post, heq, hp, hpre⟩,
      (findArg_eq_some_iff _ _ hb1 p).mpr ⟨pre, [], rfl, hp, hpre⟩]

/-- Witness for C9: with `-d` declared before `-dims %d %d`, the token `-dims`, of which
both match prefixes are prefixes, is assigned to `-d`. -/
theorem first_declared_wins_witness :
    findArg "-dims".toList
        (registry ⟨1, 0, 0⟩ [⟨"-d".toList, [], [0]⟩, ⟨"-dims %d %d".toList, [], [1, 2]⟩])
      = some ⟨[], "-d".toList, 2, 0, [], [some 0]⟩ :=
  ((first_declared_wins ⟨1, 0, 0⟩ [⟨"-d".toList, [], [0]⟩, ⟨"-dims %d %d".toList, [], [1, 2]⟩]
      (by decide)).1 "-dims".toList ⟨[], "-d".toList, 2, 0, [], [some 0]⟩).mpr
    ⟨[], [⟨[], "-dims %d %d".toList, 5, 2, [Char.ofNat 100, Char.ofNat 100], [some 1, some 2]⟩],
      by decide, by decide, by decide⟩

/-- Counterexample to C9 as stated: the specifier `%d` begins with a type marker, so its
`argNameLength` is -1 and the comparison length `(unsigned int)(-1)` covers the whole
strings. The match prefix of its descriptor, `%d`, is a literal prefix of the token `%dX`,
yet the registry search assigns the token to no descriptor, and the call on `prog %dX`
returns `MACSIO_CLARGS_ERROR`: the match is whole-token equality there. -/
theorem first_declared_wins_counterexample :
    invalidArgTypeFoundOf ⟨1, 0, 0⟩ [⟨"%d".toList, [], [0]⟩] = 0 ∧
    declsAligned ⟨1, 0, 0⟩ [⟨"%d".toList, [], [0]⟩] = true ∧
    registry ⟨1, 0, 0⟩ [⟨"%d".toList, [], [0]⟩]
      = [⟨[], "%d".toList, -1, 1, [Char.ofNat 100], [some 0]⟩] ∧
    matchPrefixOf ⟨[], "%d".toList, -1, 1, [Char.ofNat 100], [some 0]⟩ = "%d".toList ∧
    "%d".toList <+: "%dX".toList ∧
    findArg "%dX".toList (registry ⟨1, 0, 0⟩ [⟨"%d".toList, [], [0]⟩]) = none ∧
    (MACSIO_CLARGS_ProcessCmdline none ⟨1, 0, 0⟩ 1 ["prog".toList, "%dX".toList]
        [⟨"%d".toList, [], [0]⟩] (fun _ => .int 0)).outcome = .ret MACSIO_CLARGS_ERROR := by
  refine ⟨by decide, by decide, by decide, by decide, by decide, by decide, by decide⟩

/-! ### The parameter types of a descriptor -/

theorem foldl_countStep_fst (fmtStr : Str) (l : List Nat) :
    ∀ acc : Nat × Int,
      (l.foldl (countStep fmtStr) acc).1 = acc.1 + (l.filter (isMarker fmtStr)).length := by
  induction l with
  | nil => intro acc; simp
  | cons x l ih =>
    intro acc
    rw [List.foldl_cons, ih]
    cases hm : isMarker fmtStr x <;> simp [countStep, hm, List.filter_cons]
    omega

theorem foldl_bindStep_types (flags : MACSIO_CLARGS_ArgvFlags_t) (fmtStr : Str) (l : List Nat) :
    ∀ b : BindState,
      (l.foldl (bindStep flags fmtStr) b).paramTypes =
        b.paramTypes ++ (l.filter (isMarker fmtStr)).map (fun i => cstrAt fmtStr (i + 1)) := by
  induction l with
  | nil => intro b; simp
  | cons x l ih =>
    intro b
    rw [List.foldl_cons, ih]
    cases hm : isMarker fmtStr x
    · simp [bindStep, hm, List.filter_cons]
    · have : (bindStep flags fmtStr b x).paramTypes = b.paramTypes ++ [cstrAt fmtStr (x + 1)] := by
        unfold bindStep
        simp only [hm, if_true]
        split_ifs <;> rfl
      rw [this]
      simp [List.filter_cons, hm]

/-- The descriptor's `paramCount` is the number of type markers of the specifier and its
`paramTypes` are the characters that follow them, in order. -/
theorem makeKnownArg_types (flags : MACSIO_CLARGS_ArgvFlags_t) (d : ArgDecl) (inv : Int) :
    (makeKnownArg flags d inv).1.paramCount
      = ((List.range d.fmtStr.length).filter (isMarker d.fmtStr)).length ∧
    (makeKnownArg flags d inv).1.paramTypes
      = ((List.range d.fmtStr.length).filter (isMarker d.fmtStr)).map
          (fun i => cstrAt d.fmtStr (i + 1)) := by
  have hc : (countParams d.fmtStr).1
      = ((List.range d.fmtStr.length).filter (isMarker d.fmtStr)).length := by
    unfold countParams
    rw [foldl_countStep_fst]
    simp
  unfold makeKnownArg
  simp only []
  split_ifs with h
  · refine ⟨hc, ?_⟩
    show (bindParams flags d.fmtStr d.ptrs inv).paramTypes = _
    unfold bindParams
    rw [foldl_bindStep_types]
    simp
  all_goals
    have h0 : ((List.range d.fmtStr.length).filter (isMarker d.fmtStr)).length = 0 := by
      rw [← hc]
      simpa using h
    rw [h0]
    rw [List.length_eq_zero] at h0
    rw [h0]
    exact ⟨rfl, rfl⟩

theorem bindStep_invalid_zero (flags : MACSIO_CLARGS_ArgvFlags_t) (fmtStr : Str) (b : BindState)
    (i : Nat) (hk : isMarker fmtStr i = true → knownType (cstrAt fmtStr (i + 1)) = true)
    (h : b.invalidArgTypeFound = 0) :
    (bindStep flags fmtStr b i).invalidArgTypeFound = 0 := by
  unfold bindStep
  simp only []
  split_ifs with hm hr hkn
  all_goals first
    | exact h
    | exact absurd (hk hm) hkn

theorem foldl_bindStep_invalid_zero (flags : MACSIO_CLARGS_ArgvFlags_t) (fmtStr : Str)
    (l : List Nat)
    (hk : ∀ i ∈ l, isMarker fmtStr i = true → knownType (cstrAt fmtStr (i + 1)) = true) :
    ∀ b : BindState, b.invalidArgTypeFound = 0 →
      (l.foldl (bindStep flags fmtStr) b).invalidArgTypeFound = 0 := by
  induction l with
  | nil => intro b h; exact h
  | cons x l ih =>
    intro b h
    exact ih (fun i hi => hk i (by simp [hi])) _
      (bindStep_invalid_zero flags fmtStr b x (hk x (by simp)) h)

/-- Declarations whose type markers are all followed by `d`, `s`, `f` or `n` leave
`invalidArgTypeFound` at 0. -/
theorem invalidArgTypeFoundOf_zero (flags : MACSIO_CLARGS_ArgvFlags_t) (decls : List ArgDecl)
    (hk : ∀ d ∈ decls, ∀ i, i < d.fmtStr.length → isMarker d.fmtStr i = true →
      knownType (cstrAt d.fmtStr (i + 1)) = true) :
    invalidArgTypeFoundOf flags decls = 0 := by
  cases hwf : declsAligned flags decls with
  | false => simp [invalidArgTypeFoundOf, declareArgs_misaligned flags 70 decls _ hwf]
  | true =>
  rw [invalidArgTypeFoundOf_eq flags decls hwf]
  clear hwf
  have aux : ∀ inv : Int, inv = 0 →
      decls.foldl (fun inv d => (makeKnownArg flags d inv).2) inv = 0 := by
    induction decls with
    | nil => intro inv h; exact h
    | cons d rest ih =>
      intro inv h
      rw [List.foldl_cons]
      apply ih (fun e he => hk e (by simp [he]))
      unfold makeKnownArg
      simp only []
      split_ifs
      · exact foldl_bindStep_invalid_zero flags d.fmtStr _
          (fun i hi => hk d (by simp) i (List.mem_range.mp hi)) _ h
      all_goals exact h
  exact aux 0 rfl

/-! ### Decimal tokens -/

theorem GetSizeFromModifierChar_digit (c : Char) (h : isdigit c = true) :
    GetSizeFromModifierChar c = 1 := by
  unfold GetSizeFromModifierChar
  split_ifs with h1 h2 h3 h4
  · rfl
  · rcases h2 with rfl | rfl <;> exact absurd h (by decide)
  · rcases h3 with rfl | rfl <;> exact absurd h (by decide)
  · rcases h4 with rfl | rfl <;> exact absurd h (by decide)
  · rfl

theorem isspace_of_isdigit (c : Char) (h : isdigit c = true) : isspace c = false := by
  simp only [isdigit, decide_eq_true_eq] at h
  simp only [isspace, decide_eq_false_iff_not]
  omega

theorem takeWhile_of_all (l : Str) (h : l.all isdigit = true) : l.takeWhile isdigit = l := by
  induction l with
  | nil => rfl
  | cons c cs ih =>
    simp only [List.all_cons, Bool.and_eq_true] at h
    simp [List.takeWhile_cons, h.1, ih h.2]

theorem getLast_isdigit (l : Str) (hne : l ≠ []) (h : l.all isdigit = true) :
    isdigit (l.getLast hne) = true := by
  rw [List.all_eq_true] at h
  exact h _ (List.getLast_mem hne)

/-- A decimal integer token is not empty, its leading integer is its value, and its last
character is a digit, which scales by 1. -/
theorem decimalTokenValue_some (tok : Str) (v : Int) (h : decimalTokenValue tok = some v) :
    ∃ hne : tok ≠ [], leadingInteger tok = v ∧ GetSizeFromModifierChar (tok.getLast hne) = 1 := by
  cases tok with
  | nil => simp [decimalTokenValue] at h
  | cons c rest =>
    refine ⟨by simp, ?_⟩
    unfold decimalTokenValue at h
    simp only [] at h
    by_cases hm : c = Char.ofNat 45
    · subst hm
      simp only [if_true] at h
      split_ifs at h with hr
      simp only [Option.some.injEq] at h
      have hsp : isspace (Char.ofNat 45) = false := by decide
      constructor
      · unfold leadingInteger
        rw [List.dropWhile_cons_of_neg (by simp [hsp])]
        simp only [if_true, takeWhile_of_all rest hr.2]
        exact h
      · rw [List.getLast_cons hr.1]
        exact GetSizeFromModifierChar_digit _ (getLast_isdigit rest hr.1 hr.2)
    · simp only [hm, if_false] at h
      split_ifs at h with hr
      simp only [Option.some.injEq] at h
      have hc : isdigit c = true := by
        simp only [List.all_cons, Bool.and_eq_true] at hr
        exact hr.1
      have hsp := isspace_of_isdigit c hc
      have hp : c ≠ Char.ofNat 43 := by
        rintro rfl
        exact absurd hc (by decide)
      constructor
      · unfold leadingInteger
        rw [List.dropWhile_cons_of_neg (by simp [hsp])]
        simp only [hm, hp, if_false, takeWhile_of_all _ hr]
        exact h
      · exact GetSizeFromModifierChar_digit _ (getLast_isdigit _ (by simp) hr)

/-- The `case 'd'` in route mode TOMEM, for a value token that is not empty and whose
scaled leading integer fits in `int`. -/
theorem convertInt_tomem_of_fits (flags : MACSIO_CLARGS_ArgvFlags_t) (argv : List Str)
    (argName : Str) (a : Nat) (i : Nat) (st : State) (tok : Str)
    (hroute : flags.route_mode = MACSIO_CLARGS_TOMEM)
    (htok : argv.get? (i + 1) = some tok) (hne : tok ≠ [])
    (hlo : -2147483648 ≤ leadingInteger tok * GetSizeFromModifierChar (tok.getLast hne))
    (hhi : leadingInteger tok * GetSizeFromModifierChar (tok.getLast hne) ≤ 2147483647) :
    convertInt flags argv argName (some a) i st =
      .next (i + 1) { st with
        mem := st.mem.store a
          (.int (leadingInteger tok * GetSizeFromModifierChar (tok.getLast hne))) } := by
  have hv := scaled_value_of_fits tok hne hlo hhi
  have hw := wrapInt32_of_fits _ hlo hhi
  have hlen : ¬ (tok.length = 0) := by
    have := List.length_pos.mpr hne
    omega
  unfold convertInt
  simp only [htok, hlen, if_false, wrapInt32_idem, ne_eq, not_true_eq_false, hroute, if_true,
    storeThrough, hv, hw]

theorem convertInt_decimal (flags : MACSIO_CLARGS_ArgvFlags_t) (argv : List Str)
    (argName : Str) (a : Nat) (i : Nat) (st : State) (v : Int)
    (hroute : flags.route_mode = MACSIO_CLARGS_TOMEM)
    (hi : i + 1 < argv.length)
    (hv : decimalTokenValue (argv.getD (i + 1) []) = some v)
    (hlo : -2147483648 ≤ v) (hhi : v ≤ 2147483647) :
    convertInt flags argv argName (some a) i st =
      .next (i + 1) { st with mem := st.mem.store a (.int v) } := by
  obtain ⟨hne, hL, hm⟩ := decimalTokenValue_some _ v hv
  have htok : argv.get? (i + 1) = some (argv.getD (i + 1) []) := by
    simp [List.getD_eq_getElem?_getD, List.getElem?_eq_getElem hi]
  have := convertInt_tomem_of_fits flags argv argName a i st _ hroute htok hne
    (by rw [hL, hm]; omega) (by rw [hL, hm]; omega)
  rw [this, hL, hm, mul_one]

/-! ### C1: well-formed streams in route mode TOMEM -/

theorem applyWrites_cons (mem : Mem) (w : Nat × Int) (ws : List (Nat × Int)) :
    applyWrites mem (w :: ws) = applyWrites (mem.store w.1 (.int w.2)) ws := rfl

theorem applyWrites_append (mem : Mem) (vs ws : List (Nat × Int)) :
    applyWrites mem (vs ++ ws) = applyWrites (applyWrites mem vs) ws := by
  simp [applyWrites, List.foldl_append]

theorem applyWrites_not_mem (ws : List (Nat × Int)) (a : Nat) (h : ∀ w ∈ ws, w.1 ≠ a) :
    ∀ mem : Mem, applyWrites mem ws a = mem a := by
  induction ws with
  | nil => intro mem; rfl
  | cons w ws ih =>
    intro mem
    rw [applyWrites_cons, ih (fun x hx => h x (by simp [hx]))]
    have : a ≠ w.1 := fun e => h w (by simp) e.symm
    simp [Mem.store, this]

/-- A destination holds the value of the last assignment made to it. -/
theorem applyWrites_last (mem : Mem) (pre post : List (Nat × Int)) (a : Nat) (v : Int)
    (h : ∀ w ∈ post, w.1 ≠ a) :
    applyWrites mem (pre ++ (a, v) :: post) a = .int v := by
  rw [applyWrites_append, applyWrites_cons, applyWrites_not_mem post a h]
  simp [Mem.store]

/-- The parameter loop over the `d` parameters `j, j+1, ...` of a descriptor whose value
tokens are decimal: every value is assigned to its destination. -/
theorem paramLoop_ints (flags : MACSIO_CLARGS_ArgvFlags_t) (argv : List Str) (argName : Str)
    (p : MACSIO_KnownArgInfo_t) (i0 : Nat) (vs : List (Nat × Int))
    (hroute : flags.route_mode = MACSIO_CLARGS_TOMEM)
    (hlen : vs.length = p.paramCount) (hroom : i0 + p.paramCount < argv.length)
    (htypes : ∀ j, j < p.paramCount → p.paramTypes.getD j NUL = Char.ofNat 100)
    (hvals : ∀ j, j < p.paramCount → ∃ a v, vs.get? j = some (a, v) ∧
        p.paramPtrs.getD j none = some a ∧
        decimalTokenValue (argv.getD (i0 + 1 + j) []) = some v ∧
        -2147483648 ≤ v ∧ v ≤ 2147483647)
    (todo : Nat) :
    ∀ (j : Nat) (st : State), j + todo = p.paramCount →
      paramLoop flags argv argName p todo j (i0 + j) st =
        .next (i0 + p.paramCount) { st with mem := applyWrites st.mem (vs.drop j) } := by
  induction todo with
  | zero =>
    intro j st hj
    have : vs.drop j = [] := List.drop_eq_nil_of_le (by omega)
    simp only [Nat.add_zero] at hj
    rw [this, hj]
    rfl
  | succ n ih =>
    intro j st hj
    obtain ⟨a, v, hget, hptr, hval, hlo, hhi⟩ := hvals j (by omega)
    have hnot : ¬ (i0 + j + 1 = argv.length) := by omega
    have hconv : convertParam flags argv argName p j (i0 + j) st =
        .next (i0 + j + 1) { st with mem := st.mem.store a (.int v) } := by
      have hnj : ¬ (flags.route_mode = MACSIO_CLARGS_TOJSON) := by rw [hroute]; decide
      unfold convertParam
      simp only [hnj, false_and, if_false, htypes j (by omega), hptr, if_true]
      exact convertInt_decimal flags argv argName a (i0 + j) st v hroute (by omega)
        (by rw [show i0 + j + 1 = i0 + 1 + j by omega]; exact hval) hlo hhi
    unfold paramLoop
    simp only [hnot, if_false, hconv]
    rw [show i0 + j + 1 = i0 + (j + 1) by omega, ih (j + 1) _ (by omega)]
    have hdrop : vs.drop j = (a, v) :: vs.drop (j + 1) := by
      have hj2 : j < vs.length := by omega
      rw [List.get?_eq_getElem?, List.getElem?_eq_getElem hj2] at hget
      simp only [Option.some.injEq] at hget
      rw [← hget]
      exact List.drop_eq_getElem_cons hj2
    rw [hdrop, applyWrites_cons]

/-- The matching loop over a stream of groups returns `MACSIO_CLARGS_OK` after making
the assignments of the groups, in order, and nothing else. -/
theorem matchLoop_groups (flags : MACSIO_CLARGS_ArgvFlags_t) (argv : List Str)
    (knownArgs : List MACSIO_KnownArgInfo_t)
    (hroute : flags.route_mode = MACSIO_CLARGS_TOMEM)
    (htypes : ∀ p ∈ knownArgs, ∀ j, j < p.paramCount →
      p.paramTypes.getD j NUL = Char.ofNat 100)
    (hcap : ∀ p ∈ knownArgs, toUnsigned p.argNameLength ≤ argNameSize)
    {i : Nat} {ws : List (Nat × Int)} (h : Groups knownArgs argv i ws) :
    ∀ st : State, matchLoop flags argv knownArgs (argv.length - i) i st =
      some (.ret MACSIO_CLARGS_OK, { st with mem := applyWrites st.mem ws }) := by
  induction h with
  | done hi => intro st; exact matchLoop_done _ st hi
  | @flag i p a ws hi hfind hcount hptr _ ih =>
    intro st
    have hnot : ¬ (argNameSize < toUnsigned p.argNameLength) := by
      have := hcap p (findArg_mem hfind)
      omega
    have hstep : matchStep flags argv knownArgs i st =
        .next (i + 1) { st with mem := st.mem.store a (.int 1) } := by
      unfold matchStep
      simp only [hfind, hnot, if_false, assignArg, hcount, ne_eq, not_true_eq_false, hroute,
        if_true, hptr, storeThrough]
    rw [matchLoop_step hi hstep, ih, applyWrites_cons]
  | @ints i p vs ws hi hfind hcount hlen hroom hvals _ ih =>
    intro st
    have hpl := paramLoop_ints flags argv (strncpy (argv.getD i []) (toUnsigned p.argNameLength))
      p i vs hroute hlen hroom (htypes p (findArg_mem hfind)) hvals p.paramCount 0 st (by omega)
    have hstep : matchStep flags argv knownArgs i st =
        .next (i + p.paramCount + 1) { st with mem := applyWrites st.mem vs } := by
      rw [matchStep_found flags argv knownArgs i st p hfind hcount (hcap p (findArg_mem hfind))]
      simp only [Nat.add_zero] at hpl
      rw [hpl]
      simp
    rw [matchLoop_step hi hstep, ih, applyWrites_append]

theorem registry_types_d (flags : MACSIO_CLARGS_ArgvFlags_t) (decls : List ArgDecl)
    (hdecls : ∀ d ∈ decls, ∀ i, i < d.fmtStr.length → isMarker d.fmtStr i = true →
      cstrAt d.fmtStr (i + 1) = Char.ofNat 100) :
    ∀ p ∈ registry flags decls, ∀ j, j < p.paramCount →
      p.paramTypes.getD j NUL = Char.ofNat 100 := by
  intro p hp j hj
  obtain ⟨_, d, hd, rfl⟩ := registry_mem flags decls p hp
  obtain ⟨h1, h2⟩ := makeKnownArg_types flags d 0
  rw [h1] at hj
  rw [h2]
  have hj2 : j < (((List.range d.fmtStr.length).filter (isMarker d.fmtStr)).map
      (fun i => cstrAt d.fmtStr (i + 1))).length := by simpa using hj
  rw [List.getD_eq_getElem?_getD, List.getElem?_eq_getElem hj2]
  simp only [Option.getD_some, List.getElem_map]
  have hmem := List.getElem_mem hj
  rw [List.mem_filter, List.mem_range] at hmem
  exact hdecls d hd _ hmem.1 hmem.2

/-- C1 (amended). In route mode TOMEM, for declarations whose type markers are all `%d`
(presence-only and `%d`-parameter specifiers), each passed with the destination pointers
the declaration loop takes and each with an `argNameLength` of at most 64, so that the
matched name fits into `argName[64]` (this excludes a specifier that begins with a type
marker), and a token stream without a help request that from the start index on is a
sequence of groups (`Groups`): a token that the registry search assigns to a descriptor
(the first declared descriptor whose match prefix is a prefix of the token), followed by
exactly as many decimal integer tokens in the `int` range as that descriptor has markers,
each bound to a destination. Then the call returns `MACSIO_CLARGS_OK`, logs nothing, does
not assign `*retobj`, and caller memory is the memory at entry after the assignments of
the groups in stream order: a destination holds the value last assigned to it — 1 for a
presence-only descriptor, the value of its token for an integer parameter — and every
other location is unchanged. -/
theorem wellformed_stream_is_bound (COLUMNS : Option Str) (flags : MACSIO_CLARGS_ArgvFlags_t)
    (argi : Nat) (argv : List Str) (decls : List ArgDecl) (mem : Mem) (ws : List (Nat × Int))
    (hroute : flags.route_mode = MACSIO_CLARGS_TOMEM)
    (hdecls : ∀ d ∈ decls, ∀ i, i < d.fmtStr.length → isMarker d.fmtStr i = true →
      cstrAt d.fmtStr (i + 1) = Char.ofNat 100)
    (hwf : declsAligned flags decls = true)
    (hcap : ∀ p ∈ registry flags decls, toUnsigned p.argNameLength ≤ argNameSize)
    (hhelp : helpRequested argv = false)
    (hgroups : Groups (registry flags decls) argv argi ws) :
    (MACSIO_CLARGS_ProcessCmdline COLUMNS flags argi argv decls mem).outcome
        = .ret MACSIO_CLARGS_OK ∧
    (MACSIO_CLARGS_ProcessCmdline COLUMNS flags argi argv decls mem).retobj = none ∧
    (MACSIO_CLARGS_ProcessCmdline COLUMNS flags argi argv decls mem).st.log = [] ∧
    (MACSIO_CLARGS_ProcessCmdline COLUMNS flags argi argv decls mem).st.mem
        = applyWrites mem ws ∧
    (∀ (pre post : List (Nat × Int)) (a : Nat) (v : Int),
      ws = pre ++ (a, v) :: post → (∀ w ∈ post, w.1 ≠ a) →
      (MACSIO_CLARGS_ProcessCmdline COLUMNS flags argi argv decls mem).st.mem a = .int v) ∧
    (∀ a : Nat, (∀ w ∈ ws, w.1 ≠ a) →
      (MACSIO_CLARGS_ProcessCmdline COLUMNS flags argi argv decls mem).st.mem a = mem a) := by
  have hvalid : invalidArgTypeFoundOf flags decls = 0 :=
    invalidArgTypeFoundOf_zero flags decls (fun d hd i hi hm => by
      rw [hdecls d hd i hi hm]; decide)
  have hloop := matchLoop_groups flags argv (registry flags decls) hroute
    (registry_types_d flags decls hdecls) hcap hgroups (initState mem)
  have hmem : (MACSIO_CLARGS_ProcessCmdline COLUMNS flags argi argv decls mem).st.mem
      = applyWrites mem ws := by
    rw [processCmdline_match COLUMNS flags argi argv decls mem hhelp hvalid hwf, hloop,
      (leaveLoop_outcome _ _ _ _).2]
    rfl
  refine ⟨?_, ?_, ?_, hmem, ?_, ?_⟩
  · rw [processCmdline_match COLUMNS flags argi argv decls mem hhelp hvalid hwf, hloop]
    exact (leaveLoop_outcome _ _ _ _).1
  · rw [processCmdline_match COLUMNS flags argi argv decls mem hhelp hvalid hwf, hloop,
      leaveLoop_retobj]
    have : ¬ (flags.route_mode = MACSIO_CLARGS_TOJSON) := by rw [hroute]; decide
    simp [this]
  · rw [processCmdline_match COLUMNS flags argi argv decls mem hhelp hvalid hwf, hloop,
      (leaveLoop_outcome _ _ _ _).2]
    rfl
  · intro pre post a v hws hpost
    rw [hmem, hws]
    exact applyWrites_last mem pre post a v hpost
  · intro a ha
    rw [hmem]
    exact applyWrites_not_mem ws a ha mem

/-- Witness for C1: declaring `-multifile` (destination 0) and `-dims %d %d`
(destinations 1 and 2), the tokens `prog -multifile -dims 4 8` from index 1 yield
`MACSIO_CLARGS_OK` and the destinations 1, 4 and 8. -/
theorem wellformed_stream_is_bound_witness :
    (MACSIO_CLARGS_ProcessCmdline none ⟨1, 0, 0⟩ 1
        ["prog".toList, "-multifile".toList, "-dims".toList, "4".toList, "8".toList]
        [⟨"-multifile".toList, [], [0]⟩, ⟨"-dims %d %d".toList, [], [1, 2]⟩]
        (fun _ => .int 0)).outcome = .ret MACSIO_CLARGS_OK ∧
    (MACSIO_CLARGS_ProcessCmdline none ⟨1, 0, 0⟩ 1
        ["prog".toList, "-multifile".toList, "-dims".toList, "4".toList, "8".toList]
        [⟨"-multifile".toList, [], [0]⟩, ⟨"-dims %d %d".toList, [], [1, 2]⟩]
        (fun _ => .int 0)).st.mem 0 = .int 1 ∧
    (MACSIO_CLARGS_ProcessCmdline none ⟨1, 0, 0⟩ 1
        ["prog".toList, "-multifile".toList, "-dims".toList, "4".toList, "8".toList]
        [⟨"-multifile".toList, [], [0]⟩, ⟨"-dims %d %d".toList, [], [1, 2]⟩]
        (fun _ => .int 0)).st.mem 1 = .int 4 ∧
    (MACSIO_CLARGS_ProcessCmdline none ⟨1, 0, 0⟩ 1
        ["prog".toList, "-multifile".toList, "-dims".toList, "4".toList, "8".toList]
        [⟨"-multifile".toList, [], [0]⟩, ⟨"-dims %d %d".toList, [], [1, 2]⟩]
        (fun _ => .int 0)).st.mem 2 = .int 8 :=
  have h := wellformed_stream_is_bound none ⟨1, 0, 0⟩ 1
    ["prog".toList, "-multifile".toList, "-dims".toList, "4".toList, "8".toList]
    [⟨"-multifile".toList, [], [0]⟩, ⟨"-dims %d %d".toList, [], [1, 2]⟩]
    (fun _ => .int 0) [(0, 1), (1, 4), (2, 8)] (by decide) (by decide) (by decide)
    (by decide) (by decide)
    (@Groups.flag _ _ 1 ⟨[], "-multifile".toList, 10, 0, [], [some 0]⟩ 0 [(1, 4), (2, 8)]
      (by decide) (by decide) (by decide) (by decide)
      (@Groups.ints _ _ 2
        ⟨[], "-dims %d %d".toList, 5, 2, [Char.ofNat 100, Char.ofNat 100], [some 1, some 2]⟩
        [(1, 4), (2, 8)] []
        (by decide) (by decide) (by decide) (by decide) (by decide)
        (fun j hj =>
          match j, hj with
          | 0, _ => ⟨1, 4, by decide, by decide, by decide, by decide, by decide⟩
          | 1, _ => ⟨2, 8, by decide, by decide, by decide, by decide, by decide⟩)
        (Groups.done (by decide))))
  ⟨h.1, h.2.2.2.2.1 [] [(1, 4), (2, 8)] 0 1 rfl (by decide),
    h.2.2.2.2.1 [(0, 1)] [(2, 8)] 1 4 rfl (by decide),
    h.2.2.2.2.1 [(0, 1), (1, 4)] [] 2 8 rfl (by decide)⟩

/-- Counterexample to C1 as stated: with the presence-only `-d` declared before
`-multifile` and `-dims %d %d`, the stream `prog -dims 4 8` is the declared argument name
`-dims` followed by two decimal integer tokens in range, yet `-dims` is assigned to `-d`,
the token `4` is then unknown, the call returns `MACSIO_CLARGS_ERROR` and the integer
destinations 1 and 2 keep their values. -/
theorem wellformed_stream_counterexample :
    matchPrefixOf (makeKnownArg ⟨1, 0, 0⟩ ⟨"-dims %d %d".toList, [], [1, 2]⟩ 0).1
      = "-dims".toList ∧
    decimalTokenValue "4".toList = some 4 ∧ decimalTokenValue "8".toList = some 8 ∧
    helpRequested ["prog".toList, "-dims".toList, "4".toList, "8".toList] = false ∧
    (MACSIO_CLARGS_ProcessCmdline none ⟨1, 0, 0⟩ 1
        ["prog".toList, "-dims".toList, "4".toList, "8".toList]
        [⟨"-d".toList, [], [3]⟩, ⟨"-multifile".toList, [], [0]⟩,
          ⟨"-dims %d %d".toList, [], [1, 2]⟩]
        (fun _ => .int 0)).outcome = .ret MACSIO_CLARGS_ERROR ∧
    (MACSIO_CLARGS_ProcessCmdline none ⟨1, 0, 0⟩ 1
        ["prog".toList, "-dims".toList, "4".toList, "8".toList]
        [⟨"-d".toList, [], [3]⟩, ⟨"-multifile".toList, [], [0]⟩,
          ⟨"-dims %d %d".toList, [], [1, 2]⟩]
        (fun _ => .int 0)).st.mem 1 = .int 0 ∧
    (MACSIO_CLARGS_ProcessCmdline none ⟨1, 0, 0⟩ 1
        ["prog".toList, "-dims".toList, "4".toList, "8".toList]
        [⟨"-d".toList, [], [3]⟩, ⟨"-multifile".toList, [], [0]⟩,
          ⟨"-dims %d %d".toList, [], [1, 2]⟩]
        (fun _ => .int 0)).st.mem 2 = .int 0 := by
  decide

/-! ### C11: parameter count and parameter types -/

/-- C11. For every declared specifier, with `N` type markers, the descriptor built for it
(in any route mode) has `paramCount = N`, its `paramTypes` sequence has length `N`, and the
sequence is, in left-to-right order, the characters that immediately follow each marker:
its `k`-th entry is the character after the `k`-th marker. -/
theorem param_types_follow_markers (flags : MACSIO_CLARGS_ArgvFlags_t) (d : ArgDecl)
    (inv : Int) :
    (makeKnownArg flags d inv).1.paramCount = (markerPositions d.fmtStr).length ∧
    (makeKnownArg flags d inv).1.paramTypes.length = (markerPositions d.fmtStr).length ∧
    (makeKnownArg flags d inv).1.paramTypes
      = (markerPositions d.fmtStr).map (fun i => cstrAt d.fmtStr (i + 1)) ∧
    (∀ k (hk : k < (markerPositions d.fmtStr).length),
      (makeKnownArg flags d inv).1.paramTypes.get? k
        = some (cstrAt d.fmtStr ((markerPositions d.fmtStr).get ⟨k, hk⟩ + 1))) ∧
    (∀ p ∈ registry flags [d],
      p.paramCount = (markerPositions d.fmtStr).length ∧
      p.paramTypes = (markerPositions d.fmtStr).map (fun i => cstrAt d.fmtStr (i + 1))) := by
  obtain ⟨h1, h2⟩ := makeKnownArg_types flags d inv
  have h3 : (makeKnownArg flags d inv).1.paramTypes
      = (markerPositions d.fmtStr).map (fun i => cstrAt d.fmtStr (i + 1)) := h2
  refine ⟨h1, ?_, h3, ?_, ?_⟩
  · rw [h3, List.length_map]
  · intro k hk
    rw [h3, List.get?_eq_getElem?, List.getElem?_map, List.getElem?_eq_getElem hk]
    rfl
  · intro p hp
    obtain ⟨_, e, he, rfl⟩ := registry_mem flags [d] p hp
    simp only [List.mem_singleton] at he
    subst he
    exact makeKnownArg_types flags e 0

/-! ### C12: the length of the match prefix -/

theorem makeKnownArg_fmtStr (flags : MACSIO_CLARGS_ArgvFlags_t) (d : ArgDecl) (inv : Int) :
    (makeKnownArg flags d inv).1.fmtStr = d.fmtStr := by
  unfold makeKnownArg
  simp only []
  split_ifs <;> rfl

theorem makeKnownArg_argNameLength (flags : MACSIO_CLARGS_ArgvFlags_t) (d : ArgDecl)
    (inv : Int) :
    (makeKnownArg flags d inv).1.argNameLength =
      if (countParams d.fmtStr).1 ≠ 0 then (countParams d.fmtStr).2
      else (d.fmtStr.length : Int) := by
  unfold makeKnownArg
  simp only []
  split_ifs <;> rfl

/-- C12 (amended). Every descriptor built from a non-empty format specifier (of a length
that fits `int`) that has no type marker, or whose first type marker stands at an index
`i >= 2`, has an `argNameLength` strictly greater than 0 and a non-empty match prefix
(`i - 1` characters, or the whole specifier), so it does not prefix-match every token: it
does not match the empty token. -/
theorem match_prefix_nonempty (flags : MACSIO_CLARGS_ArgvFlags_t) (d : ArgDecl) (inv : Int)
    (hne : d.fmtStr ≠ [])
    (hlen : d.fmtStr.length < 2147483648)
    (hname : ∀ i, firstMarker d.fmtStr = some i → 2 ≤ i) :
    0 < (makeKnownArg flags d inv).1.argNameLength ∧
    0 < (matchPrefixOf (makeKnownArg flags d inv).1).length ∧
    strncmpEq [] (makeKnownArg flags d inv).1.fmtStr
      (toUnsigned (makeKnownArg flags d inv).1.argNameLength) = false ∧
    findArg [] [(makeKnownArg flags d inv).1] = none := by
  have hpos : 0 < d.fmtStr.length := List.length_pos.mpr hne
  have key : ∃ n : Nat, 0 < n ∧ n ≤ d.fmtStr.length ∧
      (makeKnownArg flags d inv).1.argNameLength = (n : Int) := by
    rw [makeKnownArg_argNameLength]
    cases hf : firstMarker d.fmtStr with
    | none =>
      rw [countParams_of_firstMarker_none d.fmtStr hf]
      exact ⟨d.fmtStr.length, hpos, Nat.le_refl _, by simp⟩
    | some i =>
      obtain ⟨hc1, hc2⟩ := countParams_of_firstMarker_some d.fmtStr i hf
      have h2 := hname i hf
      have hi : i < d.fmtStr.length := by
        unfold firstMarker at hf
        exact List.mem_range.mp (List.mem_of_find?_eq_some hf)
      refine ⟨i - 1, by omega, by omega, ?_⟩
      simp only [hc1, ne_eq, not_false_eq_true, if_true, hc2 h2]
      omega
  obtain ⟨n, hn0, hn1, hn⟩ := key
  have hu : toUnsigned (makeKnownArg flags d inv).1.argNameLength = n := by
    rw [hn]
    exact toUnsigned_of_nat n (by omega)
  have hcmp : strncmpEq [] (makeKnownArg flags d inv).1.fmtStr
      (toUnsigned (makeKnownArg flags d inv).1.argNameLength) = false := by
    rw [hu, makeKnownArg_fmtStr]
    obtain ⟨m, rfl⟩ : ∃ m, n = m + 1 := ⟨n - 1, by omega⟩
    cases hd : d.fmtStr with
    | nil => exact absurd hd hne
    | cons c cs => rfl
  refine ⟨by rw [hn]; omega, ?_, hcmp, ?_⟩
  · unfold matchPrefixOf
    rw [hu, makeKnownArg_fmtStr, List.length_take]
    omega
  · simp [findArg, hcmp]

/-- Witness for C12: the specifier `-dims %d %d`. -/
theorem match_prefix_nonempty_witness :
    0 < (makeKnownArg ⟨1, 0, 0⟩ ⟨"-dims %d %d".toList, [], [1, 2]⟩ 0).1.argNameLength ∧
    0 < (matchPrefixOf (makeKnownArg ⟨1, 0, 0⟩ ⟨"-dims %d %d".toList, [], [1, 2]⟩ 0).1).length :=
  ⟨(match_prefix_nonempty ⟨1, 0, 0⟩ ⟨"-dims %d %d".toList, [], [1, 2]⟩ 0 (by decide) (by decide)
      (by decide)).1,
   (match_prefix_nonempty ⟨1, 0, 0⟩ ⟨"-dims %d %d".toList, [], [1, 2]⟩ 0 (by decide) (by decide)
      (by decide)).2.1⟩

/-- Counterexample to C12 as stated: the non-empty specifier `x%d` has its only marker at
index 1, so `argNameLength = i - 1 = 0`; the match prefix is empty and the descriptor is
found for every token, here for `-bogus` and for the empty token. -/
theorem match_prefix_nonempty_counterexample :
    (makeKnownArg ⟨1, 0, 0⟩ ⟨"x%d".toList, [], [0]⟩ 0).1.argNameLength = 0 ∧
    (matchPrefixOf (makeKnownArg ⟨1, 0, 0⟩ ⟨"x%d".toList, [], [0]⟩ 0).1).length = 0 ∧
    findArg "-bogus".toList (registry ⟨1, 0, 0⟩ [⟨"x%d".toList, [], [0]⟩])
      = some (makeKnownArg ⟨1, 0, 0⟩ ⟨"x%d".toList, [], [0]⟩ 0).1 ∧
    findArg [] (registry ⟨1, 0, 0⟩ [⟨"x%d".toList, [], [0]⟩])
      = some (makeKnownArg ⟨1, 0, 0⟩ ⟨"x%d".toList, [], [0]⟩ 0).1 := by
  decide

/-! ### C13: presence-only arguments that are absent -/

/-- C13, the code at the failing input. With the presence-only `-multifile` bound to
destination 0 in route mode TOMEM and the stream `prog` processed from index 1, the
argument does not exist among the tokens and the call returns `MACSIO_CLARGS_OK`, yet
caller memory is exactly as at entry: a destination that held 7 still holds 7, not 0. The
only assignment to a presence-only destination is `*pInt = 1` at a matched token. -/
theorem absent_flag_is_not_cleared :
    (MACSIO_CLARGS_ProcessCmdline none ⟨1, 0, 0⟩ 1 ["prog".toList]
        [⟨"-multifile".toList, [], [0]⟩] (fun _ => .int 7)).outcome
      = .ret MACSIO_CLARGS_OK ∧
    (MACSIO_CLARGS_ProcessCmdline none ⟨1, 0, 0⟩ 1 ["prog".toList]
        [⟨"-multifile".toList, [], [0]⟩] (fun _ => .int 7)).st.mem 0 = .int 7 ∧
    (MACSIO_CLARGS_ProcessCmdline none ⟨1, 0, 0⟩ 1 ["prog".toList]
        [⟨"-multifile".toList, [], [0]⟩] (fun _ => .int 7)).st.mem 0 ≠ .int 0 ∧
    (∀ mem : Mem,
      (MACSIO_CLARGS_ProcessCmdline none ⟨1, 0, 0⟩ 1 ["prog".toList]
        [⟨"-multifile".toList, [], [0]⟩] mem).st.mem = mem) :=
  ⟨by decide, by decide, by decide, fun _ => rfl⟩

/-! ### C14: the two sinks -/

theorem storeThrough_doc (ptr : Option Nat) (c : Cell) (i : Nat) (st : State) :
    (storeThrough ptr c i st).state.ret_json_obj = st.ret_json_obj := by
  cases ptr <;> rfl

theorem copyInto_doc (ptr : Option Nat) (tok : Str) (i : Nat) (st : State) :
    (copyInto ptr tok i st).state.ret_json_obj = st.ret_json_obj := by
  unfold copyInto
  split
  · rfl
  · split <;> rfl

theorem logMsg_state (sev : MACSIO_LOG_MsgSeverity_t) (t : LogText) (i : Nat) (st : State) :
    (MACSIO_LOG_MSG sev t i st).state.mem = st.mem ∧
    (MACSIO_LOG_MSG sev t i st).state.ret_json_obj = st.ret_json_obj := by
  unfold MACSIO_LOG_MSG
  split_ifs <;> exact ⟨rfl, rfl⟩

/-- A conversion writes caller memory in route mode TOMEM only and the document in route
mode TOJSON only. -/
theorem convertParam_sinks (flags : MACSIO_CLARGS_ArgvFlags_t) (argv : List Str)
    (argName : Str) (p : MACSIO_KnownArgInfo_t) (j i : Nat) (st : State) :
    (flags.route_mode ≠ MACSIO_CLARGS_TOMEM →
      (convertParam flags argv argName p j i st).state.mem = st.mem) ∧
    (flags.route_mode ≠ MACSIO_CLARGS_TOJSON →
      (convertParam flags argv argName p j i st).state.ret_json_obj = st.ret_json_obj) := by
  unfold convertParam
  simp only []
  split_ifs
  · exact ⟨fun _ => rfl, fun _ => rfl⟩
  · unfold convertInt
    split
    · exact ⟨fun _ => rfl, fun _ => rfl⟩
    · simp only []
      split_ifs
      all_goals first
        | exact ⟨fun _ => rfl, fun _ => rfl⟩
        | exact ⟨fun _ => (logMsg_state _ _ _ _).1, fun _ => (logMsg_state _ _ _ _).2⟩
        | exact ⟨fun h => absurd ‹_› h, fun _ => storeThrough_doc _ _ _ _⟩
        | exact ⟨fun _ => rfl, fun h => absurd ‹_› h⟩
  · unfold convertStr
    simp only []
    split_ifs
    all_goals first
      | exact ⟨fun _ => rfl, fun _ => rfl⟩
      | (split
         all_goals first
           | exact ⟨fun _ => rfl, fun _ => rfl⟩
           | exact ⟨fun h => absurd ‹_› h, fun _ => storeThrough_doc _ _ _ _⟩
           | exact ⟨fun h => absurd ‹_› h, fun _ => copyInto_doc _ _ _ _⟩
           | exact ⟨fun _ => rfl, fun h => absurd ‹_› h⟩)
  · unfold convertDbl
    split_ifs
    all_goals first
      | exact ⟨fun _ => rfl, fun _ => rfl⟩
      | (split
         all_goals first
           | exact ⟨fun _ => rfl, fun _ => rfl⟩
           | exact ⟨fun h => absurd ‹_› h, fun _ => storeThrough_doc _ _ _ _⟩
           | exact ⟨fun _ => rfl, fun h => absurd ‹_› h⟩)
  · unfold convertArgi
    split_ifs
    all_goals first
      | exact ⟨fun _ => rfl, fun _ => rfl⟩
      | exact ⟨fun h => absurd ‹_› h, fun _ => storeThrough_doc _ _ _ _⟩
      | exact ⟨fun _ => rfl, fun h => absurd ‹_› h⟩
  · exact ⟨fun _ => rfl, fun _ => rfl⟩

theorem paramLoop_sinks (flags : MACSIO_CLARGS_ArgvFlags_t) (argv : List Str) (argName : Str)
    (p : MACSIO_KnownArgInfo_t) (todo : Nat) :
    ∀ (j i : Nat) (st : State),
      (flags.route_mode ≠ MACSIO_CLARGS_TOMEM →
        (paramLoop flags argv argName p todo j i st).state.mem = st.mem) ∧
      (flags.route_mode ≠ MACSIO_CLARGS_TOJSON →
        (paramLoop flags argv argName p todo j i st).state.ret_json_obj = st.ret_json_obj) := by
  induction todo with
  | zero => intro j i st; exact ⟨fun _ => rfl, fun _ => rfl⟩
  | succ n ih =>
    intro j i st
    unfold paramLoop
    have hlog := logMsg_state .MACSIO_LOG_MsgDie .tooFewArguments i st
    have hpre : ∀ r : Step,
        r = (if i + 1 = argv.length then
              MACSIO_LOG_MSG .MACSIO_LOG_MsgDie .tooFewArguments i st
             else .next i st) →
        r.state.mem = st.mem ∧ r.state.ret_json_obj = st.ret_json_obj := by
      intro r hr
      split_ifs at hr
      · rw [hr]; exact hlog
      · rw [hr]; exact ⟨rfl, rfl⟩
    generalize hr : (if i + 1 = argv.length then
              MACSIO_LOG_MSG .MACSIO_LOG_MsgDie .tooFewArguments i st
             else Step.next i st) = r
    obtain ⟨hm, hd⟩ := hpre r hr.symm
    cases r with
    | stop o st0 => exact ⟨fun _ => hm, fun _ => hd⟩
    | next i0 st0 =>
      simp only []
      have hc := convertParam_sinks flags argv argName p j i0 st0
      cases hcp : convertParam flags argv argName p j i0 st0 with
      | stop o st1 =>
        rw [hcp] at hc
        exact ⟨fun h => (hc.1 h).trans hm, fun h => (hc.2 h).trans hd⟩
      | next i1 st1 =>
        rw [hcp] at hc
        simp only []
        have hi := ih (j + 1) i1 st1
        exact ⟨fun h => ((hi.1 h).trans (hc.1 h)).trans hm,
               fun h => ((hi.2 h).trans (hc.2 h)).trans hd⟩

theorem matchStep_sinks (flags : MACSIO_CLARGS_ArgvFlags_t) (argv : List Str)
    (knownArgs : List MACSIO_KnownArgInfo_t) (i : Nat) (st : State) :
    (flags.route_mode ≠ MACSIO_CLARGS_TOMEM →
      (matchStep flags argv knownArgs i st).state.mem = st.mem) ∧
    (flags.route_mode ≠ MACSIO_CLARGS_TOJSON →
      (matchStep flags argv knownArgs i st).state.ret_json_obj = st.ret_json_obj) := by
  unfold matchStep
  simp only []
  split
  · rename_i p _
    have ha : (flags.route_mode ≠ MACSIO_CLARGS_TOMEM →
          (assignArg flags argv (strncpy (argv.getD i []) (toUnsigned p.argNameLength)) p i
            st).state.mem = st.mem) ∧
        (flags.route_mode ≠ MACSIO_CLARGS_TOJSON →
          (assignArg flags argv (strncpy (argv.getD i []) (toUnsigned p.argNameLength)) p i
            st).state.ret_json_obj = st.ret_json_obj) := by
      unfold assignArg
      split_ifs
      all_goals first
        | exact paramLoop_sinks flags argv _ p _ 0 i st
        | exact ⟨fun _ => rfl, fun _ => rfl⟩
        | exact ⟨fun h => absurd ‹_› h, fun _ => storeThrough_doc _ _ _ _⟩
        | exact ⟨fun _ => rfl, fun h => absurd ‹_› h⟩
    split_ifs
    · exact ⟨fun _ => rfl, fun _ => rfl⟩
    split
    · rename_i h2
      rw [h2] at ha
      exact ha
    · rename_i h2
      rw [h2] at ha
      exact ha
  · have hl := logMsg_state (errSeverity flags)
      (.unknownArgument (progName (argv.getD 0 [])) (argv.getD i [])) i st
    split
    · rename_i h2
      rw [h2] at hl
      exact ⟨fun _ => hl.1, fun _ => hl.2⟩
    · rename_i h2
      rw [h2] at hl
      exact ⟨fun _ => hl.1, fun _ => hl.2⟩

theorem matchLoop_sinks (flags : MACSIO_CLARGS_ArgvFlags_t) (argv : List Str)
    (knownArgs : List MACSIO_KnownArgInfo_t) (fuel : Nat) :
    ∀ (i : Nat) (st st1 : State) (o : Outcome),
      matchLoop flags argv knownArgs fuel i st = some (o, st1) →
      (flags.route_mode ≠ MACSIO_CLARGS_TOMEM → st1.mem = st.mem) ∧
      (flags.route_mode ≠ MACSIO_CLARGS_TOJSON → st1.ret_json_obj = st.ret_json_obj) := by
  induction fuel with
  | zero =>
    intro i st st1 o h
    unfold matchLoop at h
    split_ifs at h
    simp only [Option.some.injEq, Prod.mk.injEq] at h
    rw [← h.2]
    exact ⟨fun _ => rfl, fun _ => rfl⟩
  | succ f ih =>
    intro i st st1 o h
    unfold matchLoop at h
    split_ifs at h
    · have hs := matchStep_sinks flags argv knownArgs i st
      cases hstep : matchStep flags argv knownArgs i st with
      | stop o2 st2 =>
        rw [hstep] at h hs
        simp only [Option.some.injEq, Prod.mk.injEq] at h
        rw [← h.2]
        exact hs
      | next i2 st2 =>
        rw [hstep] at h hs
        have hi := ih i2 st2 st1 o h
        exact ⟨fun hr => (hi.1 hr).trans (hs.1 hr), fun hr => (hi.2 hr).trans (hs.2 hr)⟩
    · simp only [Option.some.injEq, Prod.mk.injEq] at h
      rw [← h.2]
      exact ⟨fun _ => rfl, fun _ => rfl⟩

theorem helpLoop_error (helpStr : Str) (w : Int) (fuel : Nat) :
    ∀ (i : Nat) (out : List OutItem) (o : Outcome),
      helpLoop helpStr w fuel i out = some (.error o) → o = .undef := by
  induction fuel with
  | zero =>
    intro i out o h
    unfold helpLoop at h
    split_ifs at h
    simp at h
  | succ f ih =>
    intro i out o h
    unfold helpLoop at h
    split_ifs at h
    · simp only [Option.some.injEq, Except.error.injEq] at h
      exact h.symm
    · exact ih _ _ o h
    · simp at h

theorem printHelp_error (fmtStr helpStr : Str) (w : Int) (out : List OutItem) (o : Outcome)
    (h : printHelp fmtStr helpStr w out = .error o) : o = .undef ∨ o = .hang := by
  unfold printHelp at h
  split at h
  · rename_i r hr
    rw [h] at hr
    exact Or.inl (helpLoop_error _ _ _ _ _ o hr)
  · simp only [Except.error.injEq] at h
    exact Or.inr h.symm

theorem declareArgs_error (flags : MACSIO_CLARGS_ArgvFlags_t) (help : Bool) (w : Int)
    (decls : List ArgDecl) :
    ∀ (ds : DeclState) (o : Outcome), declareArgs flags help w decls ds = .error o →
      o = .undef ∨ o = .hang := by
  induction decls with
  | nil => intro ds o h; simp [declareArgs] at h
  | cons d rest ih =>
    intro ds o h
    unfold declareArgs at h
    split at h
    · rename_i o1 h1
      simp only [Except.error.injEq] at h
      subst h
      split_ifs at h1
      exact printHelp_error _ _ _ _ _ h1
    · split_ifs at h
      · exact ih _ o h
      · simp only [Except.error.injEq] at h
        exact Or.inl h.symm

/-- A call either ends before the matching loop, without a write and with an outcome
other than `MACSIO_CLARGS_OK`, or it is the matching loop over some registry. -/
theorem processCmdline_cases (COLUMNS : Option Str) (flags : MACSIO_CLARGS_ArgvFlags_t)
    (argi : Nat) (argv : List Str) (decls : List ArgDecl) (mem : Mem) :
    (∃ (o : Outcome) (log : List LogEntry) (out : List OutItem),
      MACSIO_CLARGS_ProcessCmdline COLUMNS flags argi argv decls mem
        = ⟨o, ⟨mem, [], log, out⟩, none⟩ ∧ o ≠ .ret MACSIO_CLARGS_OK) ∨
    (∃ (ka : List MACSIO_KnownArgInfo_t) (out : List OutItem),
      MACSIO_CLARGS_ProcessCmdline COLUMNS flags argi argv decls mem
        = leaveLoop flags ⟨mem, [], [], out⟩
            (matchLoop flags argv ka (argv.length - argi) argi ⟨mem, [], [], out⟩)) := by
  unfold MACSIO_CLARGS_ProcessCmdline
  simp only []
  cases hd : declareArgs flags (helpRequested argv)
      (terminalWidthOf COLUMNS (helpRequested argv)) decls ⟨[], 0, []⟩ with
  | error o =>
    left
    refine ⟨o, [], [], rfl, ?_⟩
    rcases declareArgs_error _ _ _ _ _ o hd with h | h <;> rw [h] <;> simp
  | ok ds =>
    simp only []
    split_ifs with h1 h2
    · left
      simp only [MACSIO_LOG_MSG, errSeverity_ne_die, if_false]
      exact ⟨_, _, _, rfl, by decide⟩
    · left
      exact ⟨_, _, _, rfl, by decide⟩
    · right
      exact ⟨_, _, rfl⟩

/-- C14. The two sinks are exclusive. `*retobj` is assigned exactly when `route_mode` is
TOJSON and the call returns `MACSIO_CLARGS_OK`, and then it holds the completed document
(the final `ret_json_obj`). In route mode TOMEM `*retobj` is never assigned and no value
is written to a document. In route mode TOJSON no binding destination is written: caller
memory is as at entry. -/
theorem sinks_are_exclusive (COLUMNS : Option Str) (flags : MACSIO_CLARGS_ArgvFlags_t)
    (argi : Nat) (argv : List Str) (decls : List ArgDecl) (mem : Mem) :
    ((MACSIO_CLARGS_ProcessCmdline COLUMNS flags argi argv decls mem).retobj ≠ none ↔
      (flags.route_mode = MACSIO_CLARGS_TOJSON ∧
       (MACSIO_CLARGS_ProcessCmdline COLUMNS flags argi argv decls mem).outcome
         = .ret MACSIO_CLARGS_OK)) ∧
    (∀ doc : JDoc,
      (MACSIO_CLARGS_ProcessCmdline COLUMNS flags argi argv decls mem).retobj = some doc →
      doc = (MACSIO_CLARGS_ProcessCmdline COLUMNS flags argi argv decls mem).st.ret_json_obj) ∧
    (flags.route_mode = MACSIO_CLARGS_TOMEM →
      (MACSIO_CLARGS_ProcessCmdline COLUMNS flags argi argv decls mem).retobj = none ∧
      (MACSIO_CLARGS_ProcessCmdline COLUMNS flags argi argv decls mem).st.ret_json_obj = []) ∧
    (flags.route_mode = MACSIO_CLARGS_TOJSON →
      (MACSIO_CLARGS_ProcessCmdline COLUMNS flags argi argv decls mem).st.mem = mem) := by
  have hneq : MACSIO_CLARGS_TOMEM ≠ MACSIO_CLARGS_TOJSON := by decide
  rcases processCmdline_cases COLUMNS flags argi argv decls mem with
    ⟨o, log, out, h, ho⟩ | ⟨ka, out, h⟩
  · rw [h]
    refine ⟨?_, ?_, ?_, ?_⟩
    · simp only [ne_eq, not_true_eq_false, false_iff, not_and]
      exact fun _ => ho
    · intro doc hdoc; simp at hdoc
    · exact fun _ => ⟨rfl, rfl⟩
    · exact fun _ => rfl
  · obtain ⟨⟨o, st1⟩, hl⟩ := matchLoop_isSome flags argv ka (argv.length - argi) argi
      ⟨mem, [], [], out⟩ (Nat.le_refl _)
    obtain ⟨hmem, hdoc⟩ := matchLoop_sinks flags argv ka _ _ _ _ _ hl
    rw [h, hl]
    have hout := leaveLoop_outcome flags ⟨mem, [], [], out⟩ st1 o
    have hret := leaveLoop_retobj flags ⟨mem, [], [], out⟩ st1 o
    rw [hout.1, hout.2, hret]
    refine ⟨?_, ?_, ?_, ?_⟩
    · split_ifs with hc
      · simp [hc.1, hc.2]
      · simp only [ne_eq, not_true_eq_false, false_iff]
        exact fun hh => hc ⟨hh.2, hh.1⟩
    · intro doc hd
      split_ifs at hd
      · simp only [Option.some.injEq] at hd
        exact hd.symm
    · intro hr
      have hnj : flags.route_mode ≠ MACSIO_CLARGS_TOJSON := by rw [hr]; exact hneq
      refine ⟨?_, hdoc hnj⟩
      simp [hnj]
    · intro hr
      have hnm : flags.route_mode ≠ MACSIO_CLARGS_TOMEM := by rw [hr]; exact hneq.symm
      exact hmem hnm

/-! ### C15: the keys of the document -/

theorem strncmpEq_take_eq (a b : Str) (n : Nat) (h : strncmpEq a b n = true)
    (hn : n ≤ b.length) : a.take n = b.take n := by
  have hp := strncmpEq_imp_take_isPrefix n a b h
  rw [List.prefix_iff_eq_take] at hp
  rw [List.length_take, Nat.min_eq_left hn] at hp
  exact hp.symm

/-- C15. In route mode TOJSON, let a token `tok` be matched by the registry search to a
descriptor `p` whose `argNameLength` lies within its specifier and within `argName[64]`.
The key `argName` copied from the token is the descriptor's match prefix, the matched
leading characters of the token and not the whole token. Every converted value is added
to the document under that key: the integer of a `d` parameter, the string of an `s`
parameter, the double of an `f` parameter, and `true` for a descriptor without
parameters. The exception is an `n` parameter: the current token index `i` is added
under the fixed key "argi". -/
theorem document_keys (flags : MACSIO_CLARGS_ArgvFlags_t) (argv : List Str)
    (p : MACSIO_KnownArgInfo_t) (tok : Str)
    (hroute : flags.route_mode = MACSIO_CLARGS_TOJSON)
    (hb : toUnsigned p.argNameLength ≤ p.fmtStr.length)
    (_hcap : toUnsigned p.argNameLength < 64)
    (hmatch : strncmpEq tok p.fmtStr (toUnsigned p.argNameLength) = true) :
    strncpy tok (toUnsigned p.argNameLength) = matchPrefixOf p ∧
    strncpy tok (toUnsigned p.argNameLength) = tok.take (matchPrefixOf p).length ∧
    (∀ (j i : Nat) (st : State) (v : Str),
      p.paramTypes.getD j NUL = Char.ofNat 100 → argv.get? (i + 1) = some v → v ≠ [] →
      convertParam flags argv (strncpy tok (toUnsigned p.argNameLength)) p j i st =
        .next (i + 1) { st with
          ret_json_obj := add_param_to_json_retobj st.ret_json_obj (matchPrefixOf p)
            (.int (wrapInt32 (wrapInt32 (strtol v 10) *
              GetSizeFromModifierChar (cstrAt v (v.length - 1))))) }) ∧
    (∀ (j i : Nat) (st : State) (v : Str),
      p.paramTypes.getD j NUL = Char.ofNat 115 → argv.get? (i + 1) = some v →
      convertParam flags argv (strncpy tok (toUnsigned p.argNameLength)) p j i st =
        .next (i + 1) { st with
          ret_json_obj := add_param_to_json_retobj st.ret_json_obj (matchPrefixOf p)
            (.string v) }) ∧
    (∀ (j i : Nat) (st : State) (v : Str),
      p.paramTypes.getD j NUL = Char.ofNat 102 → argv.get? (i + 1) = some v →
      convertParam flags argv (strncpy tok (toUnsigned p.argNameLength)) p j i st =
        .next (i + 1) { st with
          ret_json_obj := add_param_to_json_retobj st.ret_json_obj (matchPrefixOf p)
            (.double (atof v)) }) ∧
    (∀ (j i : Nat) (st : State),
      p.paramTypes.getD j NUL = Char.ofNat 110 →
      convertParam flags argv (strncpy tok (toUnsigned p.argNameLength)) p j i st =
        .next (i + 1) { st with
          ret_json_obj := add_param_to_json_retobj st.ret_json_obj argiKey (.int i) }) ∧
    (∀ (i : Nat) (st : State), p.paramCount = 0 →
      assignArg flags argv (strncpy tok (toUnsigned p.argNameLength)) p i st =
        .next i { st with
          ret_json_obj := add_param_to_json_retobj st.ret_json_obj (matchPrefixOf p)
            (.boolean true) }) := by
  have hkey : strncpy tok (toUnsigned p.argNameLength) = matchPrefixOf p :=
    strncmpEq_take_eq tok p.fmtStr _ hmatch hb
  have hnot : ¬ (MACSIO_CLARGS_TOJSON = MACSIO_CLARGS_TOMEM) := by decide
  have c1 : ¬ (Char.ofNat 115 = Char.ofNat 100) := by decide
  have c2 : ¬ (Char.ofNat 102 = Char.ofNat 100) := by decide
  have c3 : ¬ (Char.ofNat 102 = Char.ofNat 115) := by decide
  have c4 : ¬ (Char.ofNat 110 = Char.ofNat 100) := by decide
  have c5 : ¬ (Char.ofNat 110 = Char.ofNat 115) := by decide
  have c6 : ¬ (Char.ofNat 110 = Char.ofNat 102) := by decide
  have hkl : ¬ (argNameSize ≤ (matchPrefixOf p).length) := by
    unfold matchPrefixOf argNameSize
    rw [List.length_take]
    omega
  refine ⟨hkey, ?_, ?_, ?_, ?_, ?_, ?_⟩
  · unfold strncpy matchPrefixOf
    rw [List.length_take, Nat.min_eq_left hb]
  · intro j i st v ht hv hne
    have hlen : ¬ (v.length = 0) := by
      have := List.length_pos.mpr hne
      omega
    rw [hkey]
    unfold convertParam
    simp only [hkl, false_and, and_false, if_false, ht, if_true]
    unfold convertInt
    simp only [hv, hlen, if_false, wrapInt32_idem, ne_eq, not_true_eq_false, hroute, hnot,
      if_true, addToDoc]
  · intro j i st v ht hv
    rw [hkey]
    unfold convertParam
    simp only [hkl, false_and, and_false, ht, c1, if_false, if_true]
    unfold convertStr
    simp only [hroute, hnot, if_false, if_true, hv, addToDoc]
    split_ifs <;> rfl
  · intro j i st v ht hv
    rw [hkey]
    unfold convertParam
    simp only [hkl, false_and, and_false, ht, c2, c3, if_false, if_true]
    unfold convertDbl
    simp only [hroute, hnot, if_false, if_true, hv, addToDoc]
  · intro j i st ht
    unfold convertParam
    simp only [ht, c4, c5, c6, or_self, and_false, if_false, if_true]
    unfold convertArgi
    simp only [hroute, hnot, if_false, if_true, addToDoc, argiKey]
  · intro i st hc
    rw [hkey]
    unfold assignArg
    simp only [hc, ne_eq, not_true_eq_false, if_false, hroute, hnot, if_true, hkl, addToDoc]

/-- Witness for C15: the token `-dimsXL` is matched to `-dims %d %d`; the key is `-dims`,
and with the stream `prog -dimsXL 4 8` the value 4 is added under `-dims`. -/
theorem document_keys_witness :
    strncpy "-dimsXL".toList 5 = "-dims".toList ∧
    convertParam ⟨1, 1, 0⟩ ["prog".toList, "-dimsXL".toList, "4".toList, "8".toList]
        (strncpy "-dimsXL".toList 5)
        ⟨[], "-dims %d %d".toList, 5, 2, [Char.ofNat 100, Char.ofNat 100], [none, none]⟩ 0 1
        (initState (fun _ => .int 0))
      = .next 2 { initState (fun _ => .int 0) with
          ret_json_obj := [("-dims".toList, .int 4)] } :=
  have h := document_keys ⟨1, 1, 0⟩ ["prog".toList, "-dimsXL".toList, "4".toList, "8".toList]
    ⟨[], "-dims %d %d".toList, 5, 2, [Char.ofNat 100, Char.ofNat 100], [none, none]⟩
    "-dimsXL".toList (by decide) (by decide) (by decide) (by decide)
  ⟨h.1, h.2.2.1 0 1 (initState (fun _ => .int 0)) "4".toList (by decide) (by rfl) (by decide)⟩

/-! ### C16: the positional-index parameter -/

/-- C18 (amended). Declaring the presence-only `-multifile` (destination 0) and
`-dims %d %d` (destinations 1 and 2) in route mode TOMEM and processing the tokens
`prog -dims 4` from index 1 ends in the fatal missing-value abort, whatever caller memory
held: the only message logged is "too few arguments" of severity `Die`, `*retobj` is not
assigned, the boolean destination and the second integer destination keep their pre-call
values, and the first integer destination holds 4, the value token that was present
having been converted and stored before the check for the second parameter. -/
theorem missing_second_value_end_to_end (mem : Mem) :
    (MACSIO_CLARGS_ProcessCmdline none ⟨1, 0, 0⟩ 1
        ["prog".toList, "-dims".toList, "4".toList]
        [⟨"-multifile".toList, [], [0]⟩, ⟨"-dims %d %d".toList, [], [1, 2]⟩] mem).outcome
      = .die ∧
    (MACSIO_CLARGS_ProcessCmdline none ⟨1, 0, 0⟩ 1
        ["prog".toList, "-dims".toList, "4".toList]
        [⟨"-multifile".toList, [], [0]⟩, ⟨"-dims %d %d".toList, [], [1, 2]⟩] mem).st.log
      = [⟨.MACSIO_LOG_MsgDie, .tooFewArguments⟩] ∧
    (MACSIO_CLARGS_ProcessCmdline none ⟨1, 0, 0⟩ 1
        ["prog".toList, "-dims".toList, "4".toList]
        [⟨"-multifile".toList, [], [0]⟩, ⟨"-dims %d %d".toList, [], [1, 2]⟩] mem).retobj
      = none ∧
    (MACSIO_CLARGS_ProcessCmdline none ⟨1, 0, 0⟩ 1
        ["prog".toList, "-dims".toList, "4".toList]
        [⟨"-multifile".toList, [], [0]⟩, ⟨"-dims %d %d".toList, [], [1, 2]⟩] mem).st.mem
      = mem.store 1 (.int 4) ∧
    (MACSIO_CLARGS_ProcessCmdline none ⟨1, 0, 0⟩ 1
        ["prog".toList, "-dims".toList, "4".toList]
        [⟨"-multifile".toList, [], [0]⟩, ⟨"-dims %d %d".toList, [], [1, 2]⟩] mem).st.mem 0
      = mem 0 ∧
    (MACSIO_CLARGS_ProcessCmdline none ⟨1, 0, 0⟩ 1
        ["prog".toList, "-dims".toList, "4".toList]
        [⟨"-multifile".toList, [], [0]⟩, ⟨"-dims %d %d".toList, [], [1, 2]⟩] mem).st.mem 2
      = mem 2 ∧
    (MACSIO_CLARGS_ProcessCmdline none ⟨1, 0, 0⟩ 1
        ["prog".toList, "-dims".toList, "4".toList]
        [⟨"-multifile".toList, [], [0]⟩, ⟨"-dims %d %d".toList, [], [1, 2]⟩] mem).st.mem 1
      = .int 4 :=
  ⟨rfl, rfl, rfl, rfl, rfl, rfl, rfl⟩

/-- Counterexample to C18 as stated: with all destinations holding 0 before the call, the
call on `prog -dims 4` is aborted, but the first integer destination has been written: it
holds 4, not its pre-call value. -/
theorem missing_second_value_counterexample :
    (MACSIO_CLARGS_ProcessCmdline none ⟨1, 0, 0⟩ 1
        ["prog".toList, "-dims".toList, "4".toList]
        [⟨"-multifile".toList, [], [0]⟩, ⟨"-dims %d %d".toList, [], [1, 2]⟩]
        (fun _ => .int 0)).outcome = .die ∧
    (MACSIO_CLARGS_ProcessCmdline none ⟨1, 0, 0⟩ 1
        ["prog".toList, "-dims".toList, "4".toList]
        [⟨"-multifile".toList, [], [0]⟩, ⟨"-dims %d %d".toList, [], [1, 2]⟩]
        (fun _ => .int 0)).st.mem 1 = .int 4 ∧
    (MACSIO_CLARGS_ProcessCmdline none ⟨1, 0, 0⟩ 1
        ["prog".toList, "-dims".toList, "4".toList]
        [⟨"-multifile".toList, [], [0]⟩, ⟨"-dims %d %d".toList, [], [1, 2]⟩]
        (fun _ => .int 0)).st.mem 1 ≠ (fun _ => Cell.int 0) 1 := by
  decide

/-! ### C19: end to end, an unknown argument -/

/-- C19 (amended). For every declaration set, passed as a variadic list in which every
declaration has the destination pointers the declaration loop takes, none of whose
descriptors has a match prefix that is a prefix of `-bogus`, in every route mode and
error mode, processing the tokens `prog -bogus` from index 1 returns
`MACSIO_CLARGS_ERROR`. -/
theorem bogus_end_to_end (COLUMNS : Option Str) (flags : MACSIO_CLARGS_ArgvFlags_t)
    (decls : List ArgDecl) (mem : Mem)
    (hwf : declsAligned flags decls = true)
    (hunknown : ∀ p ∈ registry flags decls, ¬ (matchPrefixOf p <+: "-bogus".toList)) :
    (MACSIO_CLARGS_ProcessCmdline COLUMNS flags 1 ["prog".toList, "-bogus".toList] decls
        mem).outcome = .ret MACSIO_CLARGS_ERROR := by
  have hhelp : helpRequested ["prog".toList, "-bogus".toList] = false := by decide
  by_cases hvalid : invalidArgTypeFoundOf flags decls = 0
  · have hstep := matchStep_unknown flags ["prog".toList, "-bogus".toList]
      (registry flags decls) 1 (initState mem) (findArg_eq_none hunknown)
    rw [processCmdline_match COLUMNS flags 1 _ decls mem hhelp hvalid hwf]
    have hl := matchLoop_stop (by decide) hstep
    simp only [List.length_cons, List.length_nil] at hl ⊢
    rw [hl]
    exact (leaveLoop_outcome _ _ _ _).1
  · unfold MACSIO_CLARGS_ProcessCmdline
    simp only [hhelp, terminalWidthOf_nohelp, declareArgs_nohelp_eq flags 70 decls hwf, hvalid,
      ne_eq, not_false_eq_true, if_true, MACSIO_LOG_MSG, errSeverity_ne_die, if_false]

/-- Witness for C19: the declarations `-multifile` and `-dims %d %d`. -/
theorem bogus_end_to_end_witness :
    (MACSIO_CLARGS_ProcessCmdline none ⟨1, 0, 0⟩ 1 ["prog".toList, "-bogus".toList]
        [⟨"-multifile".toList, [], [0]⟩, ⟨"-dims %d %d".toList, [], [1, 2]⟩]
        (fun _ => .int 0)).outcome = .ret MACSIO_CLARGS_ERROR :=
  bogus_end_to_end none ⟨1, 0, 0⟩
    [⟨"-multifile".toList, [], [0]⟩, ⟨"-dims %d %d".toList, [], [1, 2]⟩] (fun _ => .int 0)
    (by decide) (by decide)

/-- Counterexample to C19 as stated: against the declaration set that declares the
presence-only `-bogus` (or only its prefix `-b`), the tokens `prog -bogus` from index 1
are matched and the call returns `MACSIO_CLARGS_OK`. -/
theorem bogus_counterexample :
    (MACSIO_CLARGS_ProcessCmdline none ⟨1, 0, 0⟩ 1 ["prog".toList, "-bogus".toList]
        [⟨"-bogus".toList, [], [0]⟩] (fun _ => .int 0)).outcome = .ret MACSIO_CLARGS_OK ∧
    (MACSIO_CLARGS_ProcessCmdline none ⟨1, 0, 0⟩ 1 ["prog".toList, "-bogus".toList]
        [⟨"-b".toList, [], [0]⟩] (fun _ => .int 0)).outcome = .ret MACSIO_CLARGS_OK ∧
    (MACSIO_CLARGS_ProcessCmdline none ⟨1, 0, 0⟩ 1 ["prog".toList, "-bogus".toList]
        [⟨"-bogus".toList, [], [0]⟩] (fun _ => .int 0)).outcome
      ≠ .ret MACSIO_CLARGS_ERROR := by
  decide

/-! ### C20: the lines of a wrapped help text -/

/-- The lines the help loop prints from position `i` on, for a positive wrap width. -/
theorem helpLoop_lines (helpStr : Str) (w : Nat) (hw : 1 ≤ w) (fuel : Nat) :
    ∀ (i : Nat) (out : List OutItem), helpStr.length ≤ i + fuel →
      ∃ lines : List OutItem,
        helpLoop helpStr (w : Int) fuel i out = some (.ok (out ++ lines)) ∧
        ∀ k : Nat, lines.get? k =
          if i + k * w < helpStr.length then
            some (.helpChunk ((helpStr.drop (i + k * w)).take w)
              (decide (i + (k + 1) * w < helpStr.length) &&
                cstrAt helpStr (i + (k + 1) * w) != Char.ofNat 32))
          else none := by
  induction fuel with
  | zero =>
    intro i out h
    refine ⟨[], by simp [helpLoop]; omega, ?_⟩
    intro k
    have : ¬ (i + k * w < helpStr.length) := by
      have := Nat.zero_le (k * w)
      omega
    simp [this]
  | succ f ih =>
    intro i out h
    by_cases hi : i < helpStr.length
    · obtain ⟨rest, hrest, hget⟩ := ih (i + w)
        (out ++ [.helpChunk ((helpStr.drop i).take w)
          (decide (i + w < helpStr.length) && cstrAt helpStr (i + w) != Char.ofNat 32)])
        (by omega)
      refine ⟨.helpChunk ((helpStr.drop i).take w)
          (decide (i + w < helpStr.length) && cstrAt helpStr (i + w) != Char.ofNat 32) :: rest,
        ?_, ?_⟩
      · unfold helpLoop
        have hneg : ¬ ((w : Int) < 0) := by omega
        simp only [hi, if_true, hneg, if_false, Int.toNat_ofNat]
        rw [hrest]
        simp
      · intro k
        cases k with
        | zero => simp [hi]
        | succ k =>
          rw [List.get?_cons_succ, hget k]
          have e1 : i + w + k * w = i + (k + 1) * w := by rw [Nat.add_mul]; omega
          have e2 : i + w + (k + 1) * w = i + (k + 1 + 1) * w := by
            rw [Nat.add_mul (k + 1) 1 w]; omega
          rw [e1, e2]
    · refine ⟨[], ?_, ?_⟩
      · unfold helpLoop
        simp [hi]
      · intro k
        have : ¬ (i + k * w < helpStr.length) := by
          have := Nat.zero_le (k * w)
          omega
        simp [this]

theorem printHelp_lines (fmtStr helpStr : Str) (w : Nat) (hw : 1 ≤ w) (out : List OutItem) :
    ∃ lines : List OutItem,
      printHelp fmtStr helpStr (w : Int) out = .ok (out ++ .fmtLine fmtStr :: lines) ∧
      ∀ k : Nat, lines.get? k =
        if k * w < helpStr.length then
          some (.helpChunk (lineText helpStr w k) (hyphenAfterLine helpStr w k))
        else none := by
  obtain ⟨lines, h1, h2⟩ := helpLoop_lines helpStr w hw helpStr.length 0
    (out ++ [.fmtLine fmtStr]) (by omega)
  refine ⟨lines, ?_, ?_⟩
  · unfold printHelp
    rw [h1]
    simp
  · intro k
    rw [h2 k]
    simp only [Nat.zero_add, lineText, hyphenAfterLine]

/-- C20 (amended). When a help text is wrapped at a width `w >= 1`, the renderer emits,
after the specifier line, one line for every `k` with `k*w` less than the text's length
and no other. Line `k` is marked with a trailing hyphen exactly when text remains after
it and the character after the break (the first character of line `k+1`) is not a space;
the character before the break is not examined. A line whose break is followed by a
space, and the final line, are not hyphen-marked. -/
theorem hyphen_rule (fmtStr helpStr : Str) (out : List OutItem) (w : Nat) (hw : 1 ≤ w) :
    ∃ lines : List OutItem,
      printHelp fmtStr helpStr (w : Int) out = .ok (out ++ .fmtLine fmtStr :: lines) ∧
      (∀ k : Nat, k * w < helpStr.length →
        ∃ hyphen : Bool,
          lines.get? k = some (.helpChunk (lineText helpStr w k) hyphen) ∧
          (hyphen = true ↔
            ((k + 1) * w < helpStr.length ∧ cstrAt helpStr ((k + 1) * w) ≠ Char.ofNat 32)) ∧
          (cstrAt helpStr ((k + 1) * w) = Char.ofNat 32 → hyphen = false) ∧
          (helpStr.length ≤ (k + 1) * w → hyphen = false)) ∧
      (∀ k : Nat, helpStr.length ≤ k * w → lines.get? k = none) := by
  obtain ⟨lines, h1, h2⟩ := printHelp_lines fmtStr helpStr w hw out
  refine ⟨lines, h1, ?_, ?_⟩
  · intro k hk
    refine ⟨hyphenAfterLine helpStr w k, ?_, ?_, ?_, ?_⟩
    · rw [h2 k]; simp [hk]
    · simp [hyphenAfterLine]
    · intro hsp; simp [hyphenAfterLine, hsp]
    · intro hlast
      have : ¬ ((k + 1) * w < helpStr.length) := by omega
      simp [hyphenAfterLine, this]
  · intro k hk
    have : ¬ (k * w < helpStr.length) := by omega
    rw [h2 k]; simp [this]

/-- Witness for C20: the help text `hello world` wrapped at width 5. -/
theorem hyphen_rule_witness :
    ∃ lines : List OutItem,
      printHelp "-x".toList "hello world".toList ((5 : Nat) : Int) []
        = .ok ([] ++ .fmtLine "-x".toList :: lines) ∧
      (∀ k : Nat, k * 5 < "hello world".toList.length →
        ∃ hyphen : Bool,
          lines.get? k = some (.helpChunk (lineText "hello world".toList 5 k) hyphen) ∧
          (hyphen = true ↔
            ((k + 1) * 5 < "hello world".toList.length ∧
              cstrAt "hello world".toList ((k + 1) * 5) ≠ Char.ofNat 32)) ∧
          (cstrAt "hello world".toList ((k + 1) * 5) = Char.ofNat 32 → hyphen = false) ∧
          ("hello world".toList.length ≤ (k + 1) * 5 → hyphen = false)) ∧
      (∀ k : Nat, "hello world".toList.length ≤ k * 5 → lines.get? k = none) :=
  hyphen_rule "-x".toList "hello world".toList [] 5 (by decide)

/-- Counterexample to C20 as stated: the help text `ab cd` wrapped at width 3 is emitted
as `ab ` and `cd`. The break after the first line does not split a word, the character
before it being a space, yet the line is hyphen-marked, because the character after the
break is not a space. -/
theorem hyphen_rule_counterexample :
    printHelp "-x".toList "ab cd".toList 3 []
      = .ok [.fmtLine "-x".toList, .helpChunk "ab ".toList true, .helpChunk "cd".toList false] ∧
    cstrAt "ab cd".toList 2 = Char.ofNat 32 ∧
    cstrAt "ab cd".toList 3 ≠ Char.ofNat 32 :=
  ⟨by rfl, by decide, by decide⟩

/-! ### C17: the flags `error_mode` and `defaults_mode` -/

theorem bindStep_route (flags flags1 : MACSIO_CLARGS_ArgvFlags_t)
    (hroute : flags.route_mode = flags1.route_mode) (fmtStr : Str) :
    bindStep flags1 fmtStr = bindStep flags fmtStr := by
  funext b i
  unfold bindStep
  rw [hroute]

theorem makeKnownArg_route (flags flags1 : MACSIO_CLARGS_ArgvFlags_t)
    (hroute : flags.route_mode = flags1.route_mode) (d : ArgDecl) (inv : Int) :
    makeKnownArg flags1 d inv = makeKnownArg flags d inv := by
  unfold makeKnownArg bindParams
  rw [bindStep_route flags flags1 hroute, hroute]

theorem declareArgs_route (flags flags1 : MACSIO_CLARGS_ArgvFlags_t)
    (hroute : flags.route_mode = flags1.route_mode) (help : Bool) (w : Int)
    (decls : List ArgDecl) :
    ∀ ds : DeclState, declareArgs flags1 help w decls ds = declareArgs flags help w decls ds := by
  induction decls with
  | nil => intro ds; rfl
  | cons d rest ih =>
    intro ds
    have hp : ptrsTaken flags1 d.fmtStr = ptrsTaken flags d.fmtStr := by
      unfold ptrsTaken
      rw [hroute]
    unfold declareArgs
    simp only [makeKnownArg_route flags flags1 hroute, ih, hp]

theorem logMsg_reframe_err (flags flags1 : MACSIO_CLARGS_ArgvFlags_t) (t : LogText) (i : Nat)
    (st : State) :
    MACSIO_LOG_MSG (errSeverity flags1) t i (st.reframe (errSeverity flags1))
      = (MACSIO_LOG_MSG (errSeverity flags) t i st).reframe (errSeverity flags1) := by
  simp [MACSIO_LOG_MSG, errSeverity_ne_die, Step.reframe, State.reframe, LogEntry.reframe]

theorem logMsg_reframe_die (sev : MACSIO_LOG_MsgSeverity_t) (t : LogText) (i : Nat)
    (st : State) :
    MACSIO_LOG_MSG .MACSIO_LOG_MsgDie t i (st.reframe sev)
      = (MACSIO_LOG_MSG .MACSIO_LOG_MsgDie t i st).reframe sev := by
  simp [MACSIO_LOG_MSG, Step.reframe, State.reframe, LogEntry.reframe]

theorem storeThrough_reframe (sev : MACSIO_LOG_MsgSeverity_t) (ptr : Option Nat) (c : Cell)
    (i : Nat) (st : State) :
    storeThrough ptr c i (st.reframe sev) = (storeThrough ptr c i st).reframe sev := by
  cases ptr <;> rfl

theorem addToDoc_reframe (sev : MACSIO_LOG_MsgSeverity_t) (key : Str) (v : json_object)
    (i : Nat) (st : State) :
    addToDoc key v i (st.reframe sev) = (addToDoc key v i st).reframe sev := rfl

theorem copyInto_reframe (sev : MACSIO_LOG_MsgSeverity_t) (ptr : Option Nat) (tok : Str)
    (i : Nat) (st : State) :
    copyInto ptr tok i (st.reframe sev) = (copyInto ptr tok i st).reframe sev := by
  unfold copyInto
  cases ptr with
  | none => rfl
  | some a =>
    simp only []
    have hm : (st.reframe sev).mem a = st.mem a := rfl
    rw [hm]
    cases st.mem a with
    | int v => rfl
    | double d => rfl
    | charp b => cases b <;> rfl

theorem convertParam_reframe (flags flags1 : MACSIO_CLARGS_ArgvFlags_t)
    (hroute : flags.route_mode = flags1.route_mode) (argv : List Str) (argName : Str)
    (p : MACSIO_KnownArgInfo_t) (j i : Nat) (st : State) :
    convertParam flags1 argv argName p j i (st.reframe (errSeverity flags1))
      = (convertParam flags argv argName p j i st).reframe (errSeverity flags1) := by
  unfold convertParam
  simp only []
  rw [← hroute]
  split_ifs
  · rfl
  · unfold convertInt
    rw [← hroute]
    cases argv.get? (i + 1) with
    | none => rfl
    | some tok =>
      simp only []
      split_ifs
      all_goals first
        | rfl
        | exact logMsg_reframe_err flags flags1 _ _ _
        | exact storeThrough_reframe _ _ _ _ _
  · unfold convertStr
    rw [← hroute]
    have hm : (st.reframe (errSeverity flags1)).mem = st.mem := rfl
    simp only [hm]
    split_ifs
    all_goals first
      | rfl
      | (cases argv.get? (i + 1) with
         | none => rfl
         | some tok =>
           first
             | rfl
             | exact copyInto_reframe _ _ _ _ _
             | (cases tok with
                | nil => rfl
                | cons c t => exact storeThrough_reframe _ _ _ _ _))
  · unfold convertDbl
    rw [← hroute]
    split_ifs
    all_goals first
      | rfl
      | (cases argv.get? (i + 1) with
         | none => rfl
         | some tok =>
           first
             | rfl
             | exact storeThrough_reframe _ _ _ _ _)
  · unfold convertArgi
    rw [← hroute]
    split_ifs
    all_goals first
      | rfl
      | exact storeThrough_reframe _ _ _ _ _
  · rfl

theorem paramLoop_reframe (flags flags1 : MACSIO_CLARGS_ArgvFlags_t)
    (hroute : flags.route_mode = flags1.route_mode) (argv : List Str) (argName : Str)
    (p : MACSIO_KnownArgInfo_t) (todo : Nat) :
    ∀ (j i : Nat) (st : State),
      paramLoop flags1 argv argName p todo j i (st.reframe (errSeverity flags1))
        = (paramLoop flags argv argName p todo j i st).reframe (errSeverity flags1) := by
  induction todo with
  | zero => intro j i st; rfl
  | succ n ih =>
    intro j i st
    unfold paramLoop
    by_cases hlast : i + 1 = argv.length
    · simp only [hlast, if_true, logMsg_reframe_die]
      simp only [MACSIO_LOG_MSG, if_true, Step.reframe]
    · simp only [hlast, if_false]
      rw [convertParam_reframe flags flags1 hroute]
      cases convertParam flags argv argName p j i st with
      | stop o st1 => rfl
      | next i1 st1 =>
        simp only [Step.reframe]
        exact ih (j + 1) i1 st1

theorem matchStep_reframe (flags flags1 : MACSIO_CLARGS_ArgvFlags_t)
    (hroute : flags.route_mode = flags1.route_mode) (argv : List Str)
    (knownArgs : List MACSIO_KnownArgInfo_t) (i : Nat) (st : State) :
    matchStep flags1 argv knownArgs i (st.reframe (errSeverity flags1))
      = (matchStep flags argv knownArgs i st).reframe (errSeverity flags1) := by
  unfold matchStep
  simp only []
  cases findArg (argv.getD i []) knownArgs with
  | none =>
    simp only [logMsg_reframe_err flags flags1]
    simp only [MACSIO_LOG_MSG, errSeverity_ne_die, if_false, Step.reframe]
  | some p =>
    simp only []
    have ha : assignArg flags1 argv (strncpy (argv.getD i []) (toUnsigned p.argNameLength)) p i
          (st.reframe (errSeverity flags1))
        = (assignArg flags argv (strncpy (argv.getD i []) (toUnsigned p.argNameLength)) p i
            st).reframe (errSeverity flags1) := by
      unfold assignArg
      rw [← hroute]
      split_ifs
      all_goals first
        | rfl
        | exact paramLoop_reframe flags flags1 hroute _ _ _ _ _ _ _
        | exact storeThrough_reframe _ _ _ _ _
    split_ifs
    · rfl
    rw [ha]
    cases assignArg flags argv (strncpy (argv.getD i []) (toUnsigned p.argNameLength)) p i st with
    | stop o st1 => rfl
    | next i1 st1 => rfl

theorem matchLoop_reframe (flags flags1 : MACSIO_CLARGS_ArgvFlags_t)
    (hroute : flags.route_mode = flags1.route_mode) (argv : List Str)
    (knownArgs : List MACSIO_KnownArgInfo_t) (fuel : Nat) :
    ∀ (i : Nat) (st : State),
      matchLoop flags1 argv knownArgs fuel i (st.reframe (errSeverity flags1))
        = (matchLoop flags argv knownArgs fuel i st).map
            (fun r => (r.1, r.2.reframe (errSeverity flags1))) := by
  induction fuel with
  | zero =>
    intro i st
    unfold matchLoop
    split_ifs <;> rfl
  | succ f ih =>
    intro i st
    unfold matchLoop
    split_ifs
    · rw [matchStep_reframe flags flags1 hroute]
      cases matchStep flags argv knownArgs i st with
      | stop o st1 => rfl
      | next i1 st1 =>
        simp only [Step.reframe]
        exact ih i1 st1
    · rfl

theorem leaveLoop_reframe (flags flags1 : MACSIO_CLARGS_ArgvFlags_t)
    (hroute : flags.route_mode = flags1.route_mode) (sev : MACSIO_LOG_MsgSeverity_t)
    (st : State) (r : Option (Outcome × State)) :
    leaveLoop flags1 (st.reframe sev) (r.map (fun r => (r.1, r.2.reframe sev)))
      = (leaveLoop flags st r).reframe sev := by
  cases r with
  | none => rfl
  | some r =>
    obtain ⟨o, st1⟩ := r
    cases o with
    | ret code =>
      simp only [Option.map_some', leaveLoop, ← hroute]
      split_ifs <;> rfl
    | die => rfl
    | undef => rfl
    | hang => rfl

/-- Two calls whose flags agree in `route_mode` give the same result up to the severity
of the messages logged. -/
theorem processCmdline_reframe (COLUMNS : Option Str) (flags flags1 : MACSIO_CLARGS_ArgvFlags_t)
    (hroute : flags.route_mode = flags1.route_mode) (argi : Nat) (argv : List Str)
    (decls : List ArgDecl) (mem : Mem) :
    MACSIO_CLARGS_ProcessCmdline COLUMNS flags1 argi argv decls mem
      = (MACSIO_CLARGS_ProcessCmdline COLUMNS flags argi argv decls mem).reframe
          (errSeverity flags1) := by
  unfold MACSIO_CLARGS_ProcessCmdline
  simp only [declareArgs_route flags flags1 hroute]
  cases declareArgs flags (helpRequested argv) (terminalWidthOf COLUMNS (helpRequested argv))
      decls ⟨[], 0, []⟩ with
  | error o => rfl
  | ok ds =>
    simp only []
    split_ifs
    · have h := logMsg_reframe_err flags flags1 (.invalidArgumentType ds.invalidArgTypeFound)
        argi ⟨mem, [], [], ds.out⟩
      have h0 : (State.reframe (errSeverity flags1) ⟨mem, [], [], ds.out⟩)
          = ⟨mem, [], [], ds.out⟩ := rfl
      rw [h0] at h
      rw [h]
      simp only [MACSIO_LOG_MSG, errSeverity_ne_die, if_false, Step.reframe]
      rfl
    · rfl
    · have h := matchLoop_reframe flags flags1 hroute argv ds.knownArgs (argv.length - argi)
        argi ⟨mem, [], [], ds.out⟩
      have h0 : (State.reframe (errSeverity flags1) ⟨mem, [], [], ds.out⟩)
          = ⟨mem, [], [], ds.out⟩ := rfl
      rw [h0] at h
      rw [h]
      have hl := leaveLoop_reframe flags flags1 hroute (errSeverity flags1)
        ⟨mem, [], [], ds.out⟩
        (matchLoop flags argv ds.knownArgs (argv.length - argi) argi ⟨mem, [], [], ds.out⟩)
      rw [h0] at hl
      exact hl

theorem LogEntry.reframe_text (sev : MACSIO_LOG_MsgSeverity_t) (e : LogEntry) :
    (e.reframe sev).text = e.text := by
  unfold LogEntry.reframe
  split_ifs <;> rfl

/-- C17. For every declaration set, start index, token stream, environment and caller
memory, two calls whose flags differ only in `error_mode` and `defaults_mode` (they agree
in `route_mode`) end with the same outcome (a return code, the fatal abort, ...), the
same caller memory and so the same destination writes, the same document and the same
assignment to `*retobj`, and print the same help. They log the same messages in the same
order; only the severity of the messages that are not `Die` differs, following
`error_mode`. -/
theorem flag_noninterference (COLUMNS : Option Str) (flags flags1 : MACSIO_CLARGS_ArgvFlags_t)
    (argi : Nat) (argv : List Str) (decls : List ArgDecl) (mem : Mem)
    (hroute : flags.route_mode = flags1.route_mode) :
    (MACSIO_CLARGS_ProcessCmdline COLUMNS flags1 argi argv decls mem).outcome
      = (MACSIO_CLARGS_ProcessCmdline COLUMNS flags argi argv decls mem).outcome ∧
    (MACSIO_CLARGS_ProcessCmdline COLUMNS flags1 argi argv decls mem).st.mem
      = (MACSIO_CLARGS_ProcessCmdline COLUMNS flags argi argv decls mem).st.mem ∧
    (MACSIO_CLARGS_ProcessCmdline COLUMNS flags1 argi argv decls mem).st.ret_json_obj
      = (MACSIO_CLARGS_ProcessCmdline COLUMNS flags argi argv decls mem).st.ret_json_obj ∧
    (MACSIO_CLARGS_ProcessCmdline COLUMNS flags1 argi argv decls mem).retobj
      = (MACSIO_CLARGS_ProcessCmdline COLUMNS flags argi argv decls mem).retobj ∧
    (MACSIO_CLARGS_ProcessCmdline COLUMNS flags1 argi argv decls mem).st.out
      = (MACSIO_CLARGS_ProcessCmdline COLUMNS flags argi argv decls mem).st.out ∧
    (MACSIO_CLARGS_ProcessCmdline COLUMNS flags1 argi argv decls mem).st.log.map
        (fun e => e.text)
      = (MACSIO_CLARGS_ProcessCmdline COLUMNS flags argi argv decls mem).st.log.map
        (fun e => e.text) ∧
    (MACSIO_CLARGS_ProcessCmdline COLUMNS flags1 argi argv decls mem).st.log
      = (MACSIO_CLARGS_ProcessCmdline COLUMNS flags argi argv decls mem).st.log.map
        (LogEntry.reframe (errSeverity flags1)) := by
  rw [processCmdline_reframe COLUMNS flags flags1 hroute argi argv decls mem]
  refine ⟨rfl, rfl, rfl, rfl, rfl, ?_, rfl⟩
  simp only [Result.reframe, State.reframe, List.map_map]
  apply List.map_congr_left
  intro e _
  exact LogEntry.reframe_text _ e

/-- Witness for C17: `prog -multifile -bogus` processed with `error_mode` warn and
`defaults_mode` 0, and with `error_mode` abort and `defaults_mode` 1. -/
theorem flag_noninterference_witness :
    (MACSIO_CLARGS_ProcessCmdline none ⟨1, 0, 1⟩ 1
        ["prog".toList, "-multifile".toList, "-bogus".toList]
        [⟨"-multifile".toList, [], [0]⟩] (fun _ => .int 0)).outcome
      = (MACSIO_CLARGS_ProcessCmdline none ⟨0, 0, 0⟩ 1
        ["prog".toList, "-multifile".toList, "-bogus".toList]
        [⟨"-multifile".toList, [], [0]⟩] (fun _ => .int 0)).outcome ∧
    (MACSIO_CLARGS_ProcessCmdline none ⟨1, 0, 1⟩ 1
        ["prog".toList, "-multifile".toList, "-bogus".toList]
        [⟨"-multifile".toList, [], [0]⟩] (fun _ => .int 0)).st.mem
      = (MACSIO_CLARGS_ProcessCmdline none ⟨0, 0, 0⟩ 1
        ["prog".toList, "-multifile".toList, "-bogus".toList]
        [⟨"-multifile".toList, [], [0]⟩] (fun _ => .int 0)).st.mem :=
  have h := flag_noninterference none ⟨0, 0, 0⟩ ⟨1, 0, 1⟩ 1
    ["prog".toList, "-multifile".toList, "-bogus".toList]
    [⟨"-multifile".toList, [], [0]⟩] (fun _ => .int 0) (by decide)
  ⟨h.1, h.2.1⟩

/-! ### C21: the wrap width taken from `COLUMNS` -/

/-- C21, the code at the failing input. With `COLUMNS=10` and a help request the wrap
width is `10 - 10 = 0`: `p` and `i` do not advance, the test `i < n` of the wrapping loop
stays true for every non-empty help text, and no number of iterations ends the loop, so
the call does not return. With `COLUMNS=5` the wrap width is `-5`, which is no field
width and moves `p` before the help text. With `COLUMNS` unset the width is 70 and the
same call returns `MACSIO_CLARGS_HELP`. -/
theorem zero_wrap_width_never_returns :
    terminalWidthOf (some "10".toList) true = 0 ∧
    (∀ (c : Char) (rest : Str) (fuel : Nat) (out : List OutItem),
      helpLoop (c :: rest) (terminalWidthOf (some "10".toList) true) fuel 0 out = none) ∧
    (MACSIO_CLARGS_ProcessCmdline (some "10".toList) ⟨1, 0, 0⟩ 1
        ["prog".toList, "--help".toList] [⟨"-x".toList, "h".toList, [0]⟩]
        (fun _ => .int 0)).outcome = .hang ∧
    terminalWidthOf (some "5".toList) true = -5 ∧
    (MACSIO_CLARGS_ProcessCmdline (some "5".toList) ⟨1, 0, 0⟩ 1
        ["prog".toList, "--help".toList] [⟨"-x".toList, "h".toList, [0]⟩]
        (fun _ => .int 0)).outcome = .undef ∧
    (MACSIO_CLARGS_ProcessCmdline none ⟨1, 0, 0⟩ 1
        ["prog".toList, "--help".toList] [⟨"-x".toList, "h".toList, [0]⟩]
        (fun _ => .int 0)).outcome = .ret MACSIO_CLARGS_HELP := by
  refine ⟨by decide, ?_, by decide, by decide, by decide, by decide⟩
  intro c rest fuel out
  have h0 : terminalWidthOf (some "10".toList) true = 0 := by decide
  rw [h0]
  exact helpLoop_zero_width (c :: rest) (List.cons_ne_nil c rest) fuel out

/-! ### C23: the help text is rendered without loss -/

/-- The lines the help loop prints from position `i` on carry, concatenated, the help
text from position `i` on, and their number is the remaining length divided by the wrap
width, rounded up. -/
theorem helpLoop_concat (helpStr : Str) (w : Nat) (hw : 1 ≤ w) (fuel : Nat) :
    ∀ (i : Nat) (out : List OutItem), helpStr.length ≤ i + fuel →
      ∃ lines : List OutItem,
        helpLoop helpStr (w : Int) fuel i out = some (.ok (out ++ lines)) ∧
        (lines.map chunkText).flatten = helpStr.drop i ∧
        lines.length = (helpStr.length - i + w - 1) / w := by
  induction fuel with
  | zero =>
    intro i out h
    refine ⟨[], by simp [helpLoop]; omega, ?_, ?_⟩
    · simp [List.drop_eq_nil_of_le (show helpStr.length ≤ i by omega)]
    · have h0 : helpStr.length - i + w - 1 = w - 1 := by omega
      rw [h0, List.length_nil]
      exact (Nat.div_eq_of_lt (by omega)).symm
  | succ f ih =>
    intro i out h
    by_cases hi : i < helpStr.length
    · obtain ⟨rest, hrest, hcat, hlen⟩ := ih (i + w)
        (out ++ [.helpChunk ((helpStr.drop i).take w)
          (decide (i + w < helpStr.length) && cstrAt helpStr (i + w) != Char.ofNat 32)])
        (by omega)
      refine ⟨.helpChunk ((helpStr.drop i).take w)
          (decide (i + w < helpStr.length) && cstrAt helpStr (i + w) != Char.ofNat 32) :: rest,
        ?_, ?_, ?_⟩
      · unfold helpLoop
        have hneg : ¬ ((w : Int) < 0) := by omega
        simp only [hi, if_true, hneg, if_false, Int.toNat_ofNat]
        rw [hrest]
        simp
      · rw [List.map_cons, List.flatten_cons, hcat]
        have e : helpStr.drop (i + w) = (helpStr.drop i).drop w := by
          rw [List.drop_drop, Nat.add_comm]
        rw [e]
        exact List.take_append_drop w (helpStr.drop i)
      · rw [List.length_cons, hlen]
        by_cases hge : w ≤ helpStr.length - i
        · have e1 : helpStr.length - i + w - 1 = (helpStr.length - (i + w) + w - 1) + w := by
            omega
          rw [e1, Nat.add_div_right _ (by omega : 0 < w)]
        · have e1 : helpStr.length - (i + w) + w - 1 = w - 1 := by omega
          rw [e1, Nat.div_eq_of_lt (by omega : w - 1 < w)]
          have e2 : helpStr.length - i + w - 1 = (helpStr.length - i - 1) + w := by omega
          rw [e2, Nat.add_div_right _ (by omega : 0 < w),
            Nat.div_eq_of_lt (by omega : helpStr.length - i - 1 < w)]
    · refine ⟨[], ?_, ?_, ?_⟩
      · unfold helpLoop
        simp [hi]
      · simp [List.drop_eq_nil_of_le (show helpStr.length ≤ i by omega)]
      · have h0 : helpStr.length - i + w - 1 = w - 1 := by omega
        rw [h0, List.length_nil]
        exact (Nat.div_eq_of_lt (by omega)).symm

/-- C23. For a help text of length `n` and a wrap width `w >= 1` the renderer prints,
after the specifier line, exactly `ceil(n/w)` lines (`(n + w - 1) / w`: the least number
of lines of `w` characters that hold `n` characters). Line `k` (from 0) carries the
characters of the text at the positions from `k*w` up to `min((k+1)*w, n)`, and the
chunks concatenated in order are the help text: no character is dropped or repeated. -/
theorem help_text_without_loss (fmtStr helpStr : Str) (out : List OutItem) (w : Nat)
    (hw : 1 ≤ w) :
    ∃ lines : List OutItem,
      printHelp fmtStr helpStr (w : Int) out = .ok (out ++ .fmtLine fmtStr :: lines) ∧
      lines.length = (helpStr.length + w - 1) / w ∧
      helpStr.length ≤ lines.length * w ∧
      (∀ k : Nat, k < lines.length →
        k * w < helpStr.length ∧
        ∃ hyphen : Bool,
          lines.get? k = some (.helpChunk (lineText helpStr w k) hyphen) ∧
          (lineText helpStr w k).length = min ((k + 1) * w) helpStr.length - k * w ∧
          ∀ j : Nat, j < (lineText helpStr w k).length →
            (lineText helpStr w k).get? j = helpStr.get? (k * w + j)) ∧
      (lines.map chunkText).flatten = helpStr := by
  obtain ⟨lines, h1, h2, h3⟩ := helpLoop_concat helpStr w hw helpStr.length 0
    (out ++ [.fmtLine fmtStr]) (by omega)
  obtain ⟨lines1, g1, g2⟩ := helpLoop_lines helpStr w hw helpStr.length 0
    (out ++ [.fmtLine fmtStr]) (by omega)
  have hsame : lines1 = lines := by
    rw [g1] at h1
    simpa using h1
  subst hsame
  have hsome : ∀ k : Nat, k < lines1.length → k * w < helpStr.length := by
    intro k hk
    by_contra hcon
    have hnone := g2 k
    simp only [Nat.zero_add, hcon, if_false] at hnone
    rw [List.get?_eq_none] at hnone
    omega
  refine ⟨lines1, ?_, ?_, ?_, ?_, ?_⟩
  · unfold printHelp
    rw [g1]
    simp
  · simpa using h3
  · by_contra hcon
    have hget := g2 lines1.length
    have hlt : 0 + lines1.length * w < helpStr.length := by omega
    simp only [hlt, if_true] at hget
    have hnone : lines1.get? lines1.length = none := List.get?_eq_none.mpr (le_refl _)
    rw [hnone] at hget
    exact Option.noConfusion hget
  · intro k hk
    have hkw := hsome k hk
    refine ⟨hkw, decide ((k + 1) * w < helpStr.length) &&
      cstrAt helpStr ((k + 1) * w) != Char.ofNat 32, ?_, ?_, ?_⟩
    · have hget := g2 k
      simp only [Nat.zero_add, hkw, if_true] at hget
      exact hget
    · simp only [lineText, List.length_take, List.length_drop]
      have e : (k + 1) * w = k * w + w := by rw [Nat.add_mul]; omega
      omega
    · intro j hj
      simp only [lineText, List.length_take, List.length_drop] at hj
      simp only [lineText, List.get?_eq_getElem?]
      rw [List.getElem?_take_of_lt (by omega), List.getElem?_drop]
  · simpa using h2

/-- Witness for C23: the help text `hello world` (11 characters) wrapped at width 5 is
printed in 3 lines that together carry the text. -/
theorem help_text_without_loss_witness :
    ∃ lines : List OutItem,
      printHelp "-x".toList "hello world".toList ((5 : Nat) : Int) []
        = .ok ([] ++ .fmtLine "-x".toList :: lines) ∧
      lines.length = ("hello world".toList.length + 5 - 1) / 5 ∧
      "hello world".toList.length ≤ lines.length * 5 ∧
      (∀ k : Nat, k < lines.length →
        k * 5 < "hello world".toList.length ∧
        ∃ hyphen : Bool,
          lines.get? k = some (.helpChunk (lineText "hello world".toList 5 k) hyphen) ∧
          (lineText "hello world".toList 5 k).length
            = min ((k + 1) * 5) "hello world".toList.length - k * 5 ∧
          ∀ j : Nat, j < (lineText "hello world".toList 5 k).length →
            (lineText "hello world".toList 5 k).get? j = "hello world".toList.get? (k * 5 + j)) ∧
      (lines.map chunkText).flatten = "hello world".toList :=
  help_text_without_loss "-x".toList "hello world".toList [] 5 (by decide)

/-! ### C24: the tokens before the start index -/

theorem convertParam_argv (flags : MACSIO_CLARGS_ArgvFlags_t) (argv argv1 : List Str)
    (argName : Str) (p : MACSIO_KnownArgInfo_t) (j i : Nat) (st : State)
    (h0 : argv.getD i [] = argv1.getD i []) (h1 : argv.get? (i + 1) = argv1.get? (i + 1)) :
    convertParam flags argv argName p j i st = convertParam flags argv1 argName p j i st := by
  unfold convertParam convertInt convertStr convertDbl
  simp only [h0, h1]

theorem getD_of_get? {argv argv1 : List Str} {i : Nat} (h : argv.get? i = argv1.get? i) :
    argv.getD i [] = argv1.getD i [] := by
  simp only [List.get?_eq_getElem?] at h
  simp only [List.getD_eq_getElem?_getD, h]

/-- The parameter loop reads the token stream at indices from `i` on only. -/
theorem paramLoop_argv (flags : MACSIO_CLARGS_ArgvFlags_t) (argv argv1 : List Str)
    (argName : Str) (p : MACSIO_KnownArgInfo_t) (argi : Nat)
    (hlen : argv.length = argv1.length)
    (hag : ∀ k : Nat, argi ≤ k → argv.get? k = argv1.get? k) (todo : Nat) :
    ∀ (j i : Nat) (st : State), argi ≤ i →
      paramLoop flags argv argName p todo j i st = paramLoop flags argv1 argName p todo j i st := by
  induction todo with
  | zero => intro j i st _; rfl
  | succ n ih =>
    intro j i st hi
    unfold paramLoop
    rw [hlen]
    by_cases hlast : i + 1 = argv1.length
    · simp only [hlast, if_true, MACSIO_LOG_MSG]
    · simp only [hlast, if_false]
      rw [convertParam_argv flags argv argv1 argName p j i st (getD_of_get? (hag i hi))
        (hag (i + 1) (by omega))]
      cases hc : convertParam flags argv1 argName p j i st with
      | next i1 st1 =>
        simp only []
        exact ih (j + 1) i1 st1 (by have := convertParam_next hc; omega)
      | stop o st1 => rfl

/-- One iteration of the matching loop at an index from `argi` on is the same for two
token streams that agree from `argi` on, but for the program name in the
unknown-argument message. -/
theorem matchStep_argv (flags : MACSIO_CLARGS_ArgvFlags_t) (argv argv1 : List Str)
    (knownArgs : List MACSIO_KnownArgInfo_t) (argi : Nat)
    (hlen : argv.length = argv1.length)
    (hag : ∀ k : Nat, argi ≤ k → argv.get? k = argv1.get? k)
    (i : Nat) (st : State) (hi : argi ≤ i) :
    matchStep flags argv knownArgs i st = matchStep flags argv1 knownArgs i st ∨
    ∃ arg : Str,
      matchStep flags argv knownArgs i st = .stop (.ret MACSIO_CLARGS_ERROR)
        { st with log := st.log ++
            [⟨errSeverity flags, .unknownArgument (progName (argv.getD 0 [])) arg⟩] } ∧
      matchStep flags argv1 knownArgs i st = .stop (.ret MACSIO_CLARGS_ERROR)
        { st with log := st.log ++
            [⟨errSeverity flags, .unknownArgument (progName (argv1.getD 0 [])) arg⟩] } := by
  have harg : argv.getD i [] = argv1.getD i [] := getD_of_get? (hag i hi)
  cases hf : findArg (argv1.getD i []) knownArgs with
  | none =>
    right
    refine ⟨argv1.getD i [], ?_, ?_⟩
    · unfold matchStep
      simp only [harg, hf, MACSIO_LOG_MSG, errSeverity_ne_die, if_false]
    · unfold matchStep
      simp only [hf, MACSIO_LOG_MSG, errSeverity_ne_die, if_false]
  | some p =>
    left
    unfold matchStep
    simp only [harg, hf, assignArg]
    rw [paramLoop_argv flags argv argv1 _ p argi hlen hag p.paramCount 0 i st hi]

/-- The matching loop entered at an index from `argi` on ends the same way for two token
streams that agree from `argi` on, but for the program name in a final unknown-argument
message. -/
theorem matchLoop_argv (flags : MACSIO_CLARGS_ArgvFlags_t) (argv argv1 : List Str)
    (knownArgs : List MACSIO_KnownArgInfo_t) (argi : Nat)
    (hlen : argv.length = argv1.length)
    (hag : ∀ k : Nat, argi ≤ k → argv.get? k = argv1.get? k) (fuel : Nat) :
    ∀ (i : Nat) (st : State), argi ≤ i →
      matchLoop flags argv knownArgs fuel i st = matchLoop flags argv1 knownArgs fuel i st ∨
      ∃ (st1 : State) (arg : Str),
        matchLoop flags argv knownArgs fuel i st = some (.ret MACSIO_CLARGS_ERROR,
          { st1 with log := st1.log ++
              [⟨errSeverity flags, .unknownArgument (progName (argv.getD 0 [])) arg⟩] }) ∧
        matchLoop flags argv1 knownArgs fuel i st = some (.ret MACSIO_CLARGS_ERROR,
          { st1 with log := st1.log ++
              [⟨errSeverity flags, .unknownArgument (progName (argv1.getD 0 [])) arg⟩] }) := by
  induction fuel with
  | zero =>
    intro i st _
    left
    simp only [matchLoop, hlen]
  | succ n ih =>
    intro i st hi
    unfold matchLoop
    rw [hlen]
    by_cases hlt : i < argv1.length
    · simp only [hlt, if_true]
      rcases matchStep_argv flags argv argv1 knownArgs argi hlen hag i st hi with h | ⟨arg, h, h1⟩
      · rw [h]
        cases hs : matchStep flags argv1 knownArgs i st with
        | next i1 st1 =>
          simp only []
          exact ih i1 st1 (by have := matchStep_next hs; omega)
        | stop o st1 => left; rfl
      · right
        rw [h, h1]
        exact ⟨st, arg, rfl, rfl⟩
    · left
      simp only [hlt, if_false]

/-- C24. Tokens before the start index are never classified or routed. For two token
streams of equal length that agree at every index from `argi` on and contain no token
with the substring "help", the calls with the same declarations, flags, environment and
caller memory end with the same outcome, the same caller memory, the same document, the
same `*retobj` and the same printed output. The logged messages are the same too, except
that an unknown-argument message, which ends the call with `MACSIO_CLARGS_ERROR` in both
runs and names the same token, quotes each stream's own program name `argv[0]`. -/
theorem tokens_before_start_are_ignored (COLUMNS : Option Str)
    (flags : MACSIO_CLARGS_ArgvFlags_t) (argi : Nat) (argv argv1 : List Str)
    (decls : List ArgDecl) (mem : Mem)
    (hlen : argv.length = argv1.length)
    (hag : ∀ k : Nat, argi ≤ k → argv.get? k = argv1.get? k)
    (hhelp : helpRequested argv = false) (hhelp1 : helpRequested argv1 = false) :
    (MACSIO_CLARGS_ProcessCmdline COLUMNS flags argi argv decls mem).outcome =
      (MACSIO_CLARGS_ProcessCmdline COLUMNS flags argi argv1 decls mem).outcome ∧
    (MACSIO_CLARGS_ProcessCmdline COLUMNS flags argi argv decls mem).st.mem =
      (MACSIO_CLARGS_ProcessCmdline COLUMNS flags argi argv1 decls mem).st.mem ∧
    (MACSIO_CLARGS_ProcessCmdline COLUMNS flags argi argv decls mem).st.ret_json_obj =
      (MACSIO_CLARGS_ProcessCmdline COLUMNS flags argi argv1 decls mem).st.ret_json_obj ∧
    (MACSIO_CLARGS_ProcessCmdline COLUMNS flags argi argv decls mem).retobj =
      (MACSIO_CLARGS_ProcessCmdline COLUMNS flags argi argv1 decls mem).retobj ∧
    (MACSIO_CLARGS_ProcessCmdline COLUMNS flags argi argv decls mem).st.out =
      (MACSIO_CLARGS_ProcessCmdline COLUMNS flags argi argv1 decls mem).st.out ∧
    ((MACSIO_CLARGS_ProcessCmdline COLUMNS flags argi argv decls mem).st.log =
        (MACSIO_CLARGS_ProcessCmdline COLUMNS flags argi argv1 decls mem).st.log ∨
      ∃ (pre : List LogEntry) (arg : Str),
        (MACSIO_CLARGS_ProcessCmdline COLUMNS flags argi argv decls mem).outcome
          = .ret MACSIO_CLARGS_ERROR ∧
        (MACSIO_CLARGS_ProcessCmdline COLUMNS flags argi argv decls mem).st.log = pre ++
          [⟨errSeverity flags, .unknownArgument (progName (argv.getD 0 [])) arg⟩] ∧
        (MACSIO_CLARGS_ProcessCmdline COLUMNS flags argi argv1 decls mem).st.log = pre ++
          [⟨errSeverity flags, .unknownArgument (progName (argv1.getD 0 [])) arg⟩]) := by
  cases hwf : declsAligned flags decls with
  | false =>
    rw [processCmdline_misaligned COLUMNS flags argi argv decls mem hhelp hwf,
      processCmdline_misaligned COLUMNS flags argi argv1 decls mem hhelp1 hwf]
    exact ⟨rfl, rfl, rfl, rfl, rfl, Or.inl rfl⟩
  | true =>
    by_cases hinv : invalidArgTypeFoundOf flags decls = 0
    · rw [processCmdline_match COLUMNS flags argi argv decls mem hhelp hinv hwf,
        processCmdline_match COLUMNS flags argi argv1 decls mem hhelp1 hinv hwf, hlen]
      rcases matchLoop_argv flags argv argv1 (registry flags decls) argi hlen hag
          (argv1.length - argi) argi (initState mem) (le_refl _) with h | ⟨st1, arg, h, h1⟩
      · rw [h]
        exact ⟨rfl, rfl, rfl, rfl, rfl, Or.inl rfl⟩
      · rw [h, h1]
        exact ⟨rfl, rfl, rfl, rfl, rfl, Or.inr ⟨st1.log, arg, rfl, rfl, rfl⟩⟩
    · have e : ∀ a : List Str, helpRequested a = false →
          MACSIO_CLARGS_ProcessCmdline COLUMNS flags argi a decls mem =
            ⟨.ret MACSIO_CLARGS_ERROR,
              ⟨mem, [], [⟨errSeverity flags,
                .invalidArgumentType (invalidArgTypeFoundOf flags decls)⟩], []⟩, none⟩ := by
        intro a ha
        unfold MACSIO_CLARGS_ProcessCmdline
        simp only [ha, terminalWidthOf_nohelp, declareArgs_nohelp_eq flags 70 decls hwf,
          hinv, ne_eq, not_false_eq_true, if_true, MACSIO_LOG_MSG, errSeverity_ne_die,
          if_false, List.nil_append]
      rw [e argv hhelp, e argv1 hhelp1]
      exact ⟨rfl, rfl, rfl, rfl, rfl, Or.inl rfl⟩

/-- Witness for C24: with `-x` declared and the start index 1, the streams `prog -x` and
`-nonsense -x` differ at index 0 only, where the second holds a token that no descriptor
matches; both calls return `MACSIO_CLARGS_OK` and write 1 to the destination of `-x`. -/
theorem tokens_before_start_are_ignored_witness :
    (MACSIO_CLARGS_ProcessCmdline none ⟨1, 0, 0⟩ 1 ["prog".toList, "-x".toList]
        [⟨"-x".toList, [], [0]⟩] (fun _ => .int 0)).outcome
      = (MACSIO_CLARGS_ProcessCmdline none ⟨1, 0, 0⟩ 1 ["-nonsense".toList, "-x".toList]
        [⟨"-x".toList, [], [0]⟩] (fun _ => .int 0)).outcome ∧
    (MACSIO_CLARGS_ProcessCmdline none ⟨1, 0, 0⟩ 1 ["prog".toList, "-x".toList]
        [⟨"-x".toList, [], [0]⟩] (fun _ => .int 0)).st.mem
      = (MACSIO_CLARGS_ProcessCmdline none ⟨1, 0, 0⟩ 1 ["-nonsense".toList, "-x".toList]
        [⟨"-x".toList, [], [0]⟩] (fun _ => .int 0)).st.mem ∧
    (MACSIO_CLARGS_ProcessCmdline none ⟨1, 0, 0⟩ 1 ["-nonsense".toList, "-x".toList]
        [⟨"-x".toList, [], [0]⟩] (fun _ => .int 0)).outcome = .ret MACSIO_CLARGS_OK ∧
    (MACSIO_CLARGS_ProcessCmdline none ⟨1, 0, 0⟩ 1 ["-nonsense".toList, "-x".toList]
        [⟨"-x".toList, [], [0]⟩] (fun _ => .int 0)).st.mem 0 = .int 1 :=
  have h := tokens_before_start_are_ignored none ⟨1, 0, 0⟩ 1 ["prog".toList, "-x".toList]
    ["-nonsense".toList, "-x".toList] [⟨"-x".toList, [], [0]⟩] (fun _ => .int 0) (by rfl)
    (fun k hk => match k, hk with
      | k + 1, _ => rfl)
    (by decide) (by decide)
  ⟨h.1, h.2.1, by decide, by decide⟩

/-! ### C25: the storage allocated for a string parameter -/

/-- C25, the code at the failing input. With `-name %s` bound in route mode TOMEM to a
`char *` that is NULL, the stream `prog -name abc` makes the `case 's'` allocate
`strlen(argv[++i]+1)` bytes, the length of the token after its first character: 2 bytes
for the 3 characters and the terminator that `strcpy` then writes. For the token `a` the
allocation has 0 bytes. -/
theorem string_allocation_is_short :
    (MACSIO_CLARGS_ProcessCmdline none ⟨1, 0, 0⟩ 1
        ["prog".toList, "-name".toList, "abc".toList] [⟨"-name %s".toList, [], [0]⟩]
        (fun _ => .charp none)).outcome = .ret MACSIO_CLARGS_OK ∧
    (MACSIO_CLARGS_ProcessCmdline none ⟨1, 0, 0⟩ 1
        ["prog".toList, "-name".toList, "abc".toList] [⟨"-name %s".toList, [], [0]⟩]
        (fun _ => .charp none)).st.mem 0 = .charp (some ⟨2, "abc".toList⟩) ∧
    2 < "abc".toList.length + 1 ∧
    (MACSIO_CLARGS_ProcessCmdline none ⟨1, 0, 0⟩ 1
        ["prog".toList, "-name".toList, "a".toList] [⟨"-name %s".toList, [], [0]⟩]
        (fun _ => .charp none)).st.mem 0 = .charp (some ⟨0, "a".toList⟩) := by
  decide

/-! ### C26: the integer conversion writes the wrapped product -/

theorem strtol_ten_clamp (tok : Str) : strtol tok 10 = clampLong (leadingInteger tok) := by
  rw [strtol_ten]
  unfold clampLong LONG_MIN LONG_MAX
  split_ifs <;> omega

/-- Narrowing to `int` before the `int` product does not change the wrapped product. -/
theorem wrapInt32_mul_size (x : Int) (c : Char) :
    wrapInt32 (wrapInt32 x * GetSizeFromModifierChar c) =
      wrapInt32 (x * GetSizeFromModifierChar c) := by
  rcases GetSizeFromModifierChar_cases c with h | h | h | h <;> rw [h] <;> unfold wrapInt32 <;>
    omega

/-- The `case 'd'` never logs: the test `(int)tmpDbl != tmpDbl` compares a value that is
an `int` already with itself. -/
theorem convertInt_log (flags : MACSIO_CLARGS_ArgvFlags_t) (argv : List Str) (argName : Str)
    (ptr : Option Nat) (i : Nat) (st : State) :
    (convertInt flags argv argName ptr i st).state.log = st.log := by
  unfold convertInt
  split
  · rfl
  · simp only [wrapInt32_idem, ne_eq, not_true_eq_false, if_false]
    split_ifs
    · rfl
    · cases ptr <;> rfl
    · rfl
    · rfl

/-- C26 (amended). The integer conversion never takes the overflow branch: for every
token, destination and route mode it logs nothing. For every non-empty token it writes
(to the bound destination in route mode TOMEM, to the document in route mode TOJSON) the
product of the value `strtol` returns, which is the token's leading integer clamped to
the range of `long`, and the multiplier of the token's final character, reduced modulo
2^32 into the signed 32-bit range. When the leading integer lies in the range of `long`
this is (leading integer * multiplier) reduced modulo 2^32. -/
theorem integer_conversion_wraps (flags : MACSIO_CLARGS_ArgvFlags_t) (argv : List Str)
    (argName : Str) (ptr : Option Nat) (i : Nat) (st : State) :
    (convertInt flags argv argName ptr i st).state.log = st.log ∧
    ∀ (tok : Str) (hne : tok ≠ []), argv.get? (i + 1) = some tok →
      (∀ a : Nat, ptr = some a → flags.route_mode = MACSIO_CLARGS_TOMEM →
        convertInt flags argv argName ptr i st =
          .next (i + 1) { st with
            mem := st.mem.store a (.int (wrapInt32
              (clampLong (leadingInteger tok) * GetSizeFromModifierChar (tok.getLast hne)))) }) ∧
      (flags.route_mode = MACSIO_CLARGS_TOJSON →
        convertInt flags argv argName ptr i st =
          .next (i + 1) { st with
            ret_json_obj := add_param_to_json_retobj st.ret_json_obj argName (.int (wrapInt32
              (clampLong (leadingInteger tok) * GetSizeFromModifierChar (tok.getLast hne)))) }) ∧
      (LONG_MIN ≤ leadingInteger tok → leadingInteger tok ≤ LONG_MAX →
        wrapInt32 (clampLong (leadingInteger tok) * GetSizeFromModifierChar (tok.getLast hne))
          = wrapInt32 (leadingInteger tok * GetSizeFromModifierChar (tok.getLast hne))) := by
  refine ⟨convertInt_log flags argv argName ptr i st, ?_⟩
  intro tok hne htok
  have hlen : ¬ (tok.length = 0) := by
    have := List.length_pos.mpr hne
    omega
  have hv : wrapInt32 (wrapInt32 (strtol tok 10) *
        GetSizeFromModifierChar (cstrAt tok (tok.length - 1)))
      = wrapInt32 (clampLong (leadingInteger tok) * GetSizeFromModifierChar (tok.getLast hne)) := by
    rw [wrapInt32_mul_size, strtol_ten_clamp, cstrAt_last tok hne]
  refine ⟨?_, ?_, ?_⟩
  · intro a hptr hroute
    subst hptr
    unfold convertInt
    simp only [htok, hlen, if_false, wrapInt32_idem, ne_eq, not_true_eq_false, hroute, if_true,
      storeThrough, hv]
  · intro hroute
    have hnot : ¬ (MACSIO_CLARGS_TOJSON = MACSIO_CLARGS_TOMEM) := by decide
    unfold convertInt
    simp only [htok, hlen, if_false, wrapInt32_idem, ne_eq, not_true_eq_false, hroute, hnot,
      if_true, addToDoc, hv]
  · intro hlo hhi
    have hc : clampLong (leadingInteger tok) = leadingInteger tok := by
      unfold clampLong
      omega
    rw [hc]

/-- Witness for C26: bound to destination 0 in route mode TOMEM, the token `4g` writes 0
and the token `2g` writes -2147483648. -/
theorem integer_conversion_wraps_witness :
    convertInt ⟨1, 0, 0⟩ ["prog".toList, "-n".toList, "4g".toList] "-n".toList (some 0) 1
        (initState (fun _ => .int 7))
      = .next 2 { initState (fun _ => .int 7) with
                  mem := Mem.store (fun _ => .int 7) 0 (.int 0) } ∧
    convertInt ⟨1, 0, 0⟩ ["prog".toList, "-n".toList, "2g".toList] "-n".toList (some 0) 1
        (initState (fun _ => .int 7))
      = .next 2 { initState (fun _ => .int 7) with
                  mem := Mem.store (fun _ => .int 7) 0 (.int (-2147483648)) } :=
  ⟨((integer_conversion_wraps ⟨1, 0, 0⟩ ["prog".toList, "-n".toList, "4g".toList] "-n".toList
      (some 0) 1 (initState (fun _ => .int 7))).2 "4g".toList (by decide) (by rfl)).1 0 rfl
      (by decide),
   ((integer_conversion_wraps ⟨1, 0, 0⟩ ["prog".toList, "-n".toList, "2g".toList] "-n".toList
      (some 0) 1 (initState (fun _ => .int 7))).2 "2g".toList (by decide) (by rfl)).1 0 rfl
      (by decide)⟩

/-- Counterexample to C26 as stated: the token `9223372036854775808` has the leading
integer 2^63, which reduced modulo 2^32 is 0. `strtol` returns `LONG_MAX` for it, the
conversion to `int` gives -1, and -1 is written. -/
theorem integer_conversion_counterexample :
    leadingInteger "9223372036854775808".toList = 9223372036854775808 ∧
    wrapInt32 (leadingInteger "9223372036854775808".toList *
      GetSizeFromModifierChar (Char.ofNat 56)) = 0 ∧
    strtol "9223372036854775808".toList 10 = LONG_MAX ∧
    (MACSIO_CLARGS_ProcessCmdline none ⟨1, 0, 0⟩ 1
        ["prog".toList, "-n".toList, "9223372036854775808".toList]
        [⟨"-n %d".toList, [], [0]⟩] (fun _ => .int 7)).outcome = .ret MACSIO_CLARGS_OK ∧
    (MACSIO_CLARGS_ProcessCmdline none ⟨1, 0, 0⟩ 1
        ["prog".toList, "-n".toList, "9223372036854775808".toList]
        [⟨"-n %d".toList, [], [0]⟩] (fun _ => .int 7)).st.mem 0 = .int (-1) := by
  decide

/-! ### C27: descriptors with several parameters in route mode TOJSON -/

theorem get?_of_lt_getD (argv : List Str) (i : Nat) (h : i < argv.length) :
    argv.get? i = some (argv.getD i []) := by
  simp only [List.get?_eq_getElem?, List.getD_eq_getElem?_getD, List.getElem?_eq_getElem h,
    Option.getD_some]

/-- In route mode TOJSON a conversion of type `d`, `s` or `f` adds the converted value of
the next token under the key `argName`. -/
theorem convertParam_tojson (flags : MACSIO_CLARGS_ArgvFlags_t) (argv : List Str)
    (argName : Str) (p : MACSIO_KnownArgInfo_t) (j i : Nat) (st : State)
    (hroute : flags.route_mode = MACSIO_CLARGS_TOJSON)
    (hkl : argName.length < argNameSize)
    (htype : valueType (p.paramTypes.getD j NUL) = true)
    (hi : i + 1 < argv.length)
    (hne : p.paramTypes.getD j NUL = Char.ofNat 100 → argv.getD (i + 1) [] ≠ []) :
    convertParam flags argv argName p j i st =
      .next (i + 1) { st with
        ret_json_obj := add_param_to_json_retobj st.ret_json_obj argName
          (convertedValue (p.paramTypes.getD j NUL) (argv.getD (i + 1) [])) } := by
  have hkl1 : ¬ (argNameSize ≤ argName.length) := by omega
  have hnot : ¬ (MACSIO_CLARGS_TOJSON = MACSIO_CLARGS_TOMEM) := by decide
  have c1 : ¬ (Char.ofNat 115 = Char.ofNat 100) := by decide
  have c2 : ¬ (Char.ofNat 102 = Char.ofNat 100) := by decide
  have c3 : ¬ (Char.ofNat 102 = Char.ofNat 115) := by decide
  have hv := get?_of_lt_getD argv (i + 1) hi
  simp only [valueType, Bool.or_eq_true, beq_iff_eq] at htype
  rcases htype with (ht | ht) | ht
  · have hlen : ¬ ((argv.getD (i + 1) []).length = 0) := by
      have := List.length_pos.mpr (hne ht)
      omega
    unfold convertParam convertedValue
    simp only [hkl1, false_and, and_false, ht, if_false, if_true]
    unfold convertInt
    simp only [hv, hlen, if_false, wrapInt32_idem, ne_eq, not_true_eq_false, hroute, hnot,
      if_true, addToDoc]
  · unfold convertParam convertedValue
    simp only [hkl1, false_and, and_false, ht, c1, if_false, if_true]
    unfold convertStr
    simp only [hroute, hnot, if_false, if_true, hv, addToDoc]
    split_ifs <;> rfl
  · unfold convertParam convertedValue
    simp only [hkl1, false_and, and_false, ht, c2, c3, if_false, if_true]
    unfold convertDbl
    simp only [hroute, hnot, if_false, if_true, hv, addToDoc]

theorem convertedValues_succ (argv : List Str) (p : MACSIO_KnownArgInfo_t) (j i n : Nat) :
    convertedValues argv p j i (n + 1) =
      convertedValue (p.paramTypes.getD j NUL) (argv.getD (i + 1) []) ::
        convertedValues argv p (j + 1) (i + 1) n := by
  unfold convertedValues
  rw [List.range_succ_eq_map, List.map_cons, List.map_map]
  congr 1
  apply List.map_congr_left
  intro t _
  simp only [Function.comp, Nat.add_zero]
  have e1 : j + (t + 1) = j + 1 + t := by omega
  have e2 : i + 1 + (t + 1) = i + 1 + 1 + t := by omega
  rw [e1, e2]

/-- In route mode TOJSON the parameter loop of a descriptor with value parameters adds
the converted values of the following tokens under the key `argName`, in token order. -/
theorem paramLoop_tojson (flags : MACSIO_CLARGS_ArgvFlags_t) (argv : List Str)
    (argName : Str) (p : MACSIO_KnownArgInfo_t)
    (hroute : flags.route_mode = MACSIO_CLARGS_TOJSON)
    (hkl : argName.length < argNameSize) (todo : Nat) :
    ∀ (j i : Nat) (st : State),
      (∀ t, t < todo → valueType (p.paramTypes.getD (j + t) NUL) = true) →
      (∀ t, t < todo → p.paramTypes.getD (j + t) NUL = Char.ofNat 100 →
        argv.getD (i + 1 + t) [] ≠ []) →
      i + todo < argv.length →
      paramLoop flags argv argName p todo j i st =
        .next (i + todo) { st with
          ret_json_obj := (convertedValues argv p j i todo).foldl
            (fun d v => add_param_to_json_retobj d argName v) st.ret_json_obj } := by
  induction todo with
  | zero => intro j i st _ _ _; rfl
  | succ n ih =>
    intro j i st htype hne hi
    unfold paramLoop
    have hlast : ¬ (i + 1 = argv.length) := by omega
    simp only [hlast, if_false]
    rw [convertParam_tojson flags argv argName p j i st hroute hkl (htype 0 (by omega))
      (by omega) (hne 0 (by omega))]
    simp only []
    rw [ih (j + 1) (i + 1) _
      (fun t ht => by have := htype (t + 1) (by omega); rwa [show j + 1 + t = j + (t + 1) by omega])
      (fun t ht hd => by
        have := hne (t + 1) (by omega) (by rwa [show j + (t + 1) = j + 1 + t by omega])
        rwa [show i + 1 + 1 + t = i + 1 + (t + 1) by omega])
      (by omega)]
    rw [convertedValues_succ, List.foldl_cons]
    congr 1
    omega

theorem findArg_some_match {arg : Str} {knownArgs : List MACSIO_KnownArgInfo_t}
    {p : MACSIO_KnownArgInfo_t} (h : findArg arg knownArgs = some p) :
    strncmpEq arg p.fmtStr (toUnsigned p.argNameLength) = true := by
  induction knownArgs with
  | nil => simp [findArg] at h
  | cons q rest ih =>
    unfold findArg at h
    split_ifs at h with hq
    · simp only [Option.some.injEq] at h
      subst h
      exact hq
    · exact ih h

theorem convertedValue_scalar (c : Char) (tok : Str) :
    json_object_is_array (convertedValue c tok) = false := by
  unfold convertedValue
  split_ifs <;> rfl

/-- The entry of `key` after the values `vals` were added under it, by what it held
before: nothing, a list, or a scalar. -/
theorem get_foldl_add_param (key : Str) (doc : JDoc) (v : json_object)
    (vals : List json_object) (hv : json_object_is_array v = false) :
    (json_object_object_get_ex doc key = none →
      json_object_object_get_ex
          ((v :: vals).foldl (fun d x => add_param_to_json_retobj d key x) doc) key
        = some (if vals.isEmpty then v else .array (v :: vals))) ∧
    (∀ elems : List json_object, json_object_object_get_ex doc key = some (.array elems) →
      json_object_object_get_ex
          ((v :: vals).foldl (fun d x => add_param_to_json_retobj d key x) doc) key
        = some (.array (elems ++ v :: vals))) ∧
    (∀ old : json_object, json_object_object_get_ex doc key = some old →
      json_object_is_array old = false →
      json_object_object_get_ex
          ((v :: vals).foldl (fun d x => add_param_to_json_retobj d key x) doc) key
        = some (.array (old :: v :: vals))) := by
  refine ⟨?_, ?_, ?_⟩
  · intro hfresh
    have h1 := get_add_param_fresh doc key v hfresh
    cases vals with
    | nil => simpa using h1
    | cons v2 more =>
      rw [List.foldl_cons, List.foldl_cons]
      have h2 := get_add_param_scalar _ key v2 v h1 hv
      rw [get_foldl_add_param_array key more _ _ h2]
      simp
  · intro elems h
    exact get_foldl_add_param_array key (v :: vals) doc elems h
  · intro old h hold
    rw [List.foldl_cons]
    have h2 := get_add_param_scalar doc key v old h hold
    rw [get_foldl_add_param_array key vals _ _ h2]
    simp

/-- C27. In route mode TOJSON, let the token at index `i` be matched to a descriptor `p`
with `N = p.paramCount >= 1` value parameters (types `d`, `s`, `f`), `N` tokens following
index `i` (the token of a `d` parameter not empty), and `argNameLength` within the
specifier and within `argName[64]`. The iteration converts the `N` tokens in order, moves
on to index `i + N + 1` and leaves caller memory and the log as they were. If the
document had no entry for the match prefix, it now maps the match prefix to the single
converted value when `N = 1` and to the ordered list of the `N` converted values when
`N >= 2`. If the match prefix was mapped to a list, as after an earlier match of a
descriptor with two or more parameters, the `N` values are appended to that list; if it
was mapped to a scalar, as after an earlier match with `N = 1`, it is mapped to the list
of that scalar followed by the `N` values. -/
theorem multi_parameter_document (flags : MACSIO_CLARGS_ArgvFlags_t) (argv : List Str)
    (knownArgs : List MACSIO_KnownArgInfo_t) (i : Nat) (st : State)
    (p : MACSIO_KnownArgInfo_t)
    (hroute : flags.route_mode = MACSIO_CLARGS_TOJSON)
    (hfind : findArg (argv.getD i []) knownArgs = some p)
    (hb : toUnsigned p.argNameLength ≤ p.fmtStr.length)
    (_hcap : toUnsigned p.argNameLength < 64)
    (hN : 1 ≤ p.paramCount)
    (htype : ∀ j, j < p.paramCount → valueType (p.paramTypes.getD j NUL) = true)
    (hne : ∀ j, j < p.paramCount → p.paramTypes.getD j NUL = Char.ofNat 100 →
      argv.getD (i + 1 + j) [] ≠ [])
    (htok : i + p.paramCount < argv.length) :
    ∃ st1 : State,
      matchStep flags argv knownArgs i st = .next (i + p.paramCount + 1) st1 ∧
      st1.mem = st.mem ∧ st1.log = st.log ∧
      (json_object_object_get_ex st.ret_json_obj (matchPrefixOf p) = none →
        (p.paramCount = 1 →
          json_object_object_get_ex st1.ret_json_obj (matchPrefixOf p)
            = some (convertedValue (p.paramTypes.getD 0 NUL) (argv.getD (i + 1) []))) ∧
        (2 ≤ p.paramCount →
          json_object_object_get_ex st1.ret_json_obj (matchPrefixOf p)
            = some (.array (convertedValues argv p 0 i p.paramCount)))) ∧
      (∀ elems : List json_object,
        json_object_object_get_ex st.ret_json_obj (matchPrefixOf p) = some (.array elems) →
        json_object_object_get_ex st1.ret_json_obj (matchPrefixOf p)
          = some (.array (elems ++ convertedValues argv p 0 i p.paramCount))) ∧
      (∀ old : json_object,
        json_object_object_get_ex st.ret_json_obj (matchPrefixOf p) = some old →
        json_object_is_array old = false →
        json_object_object_get_ex st1.ret_json_obj (matchPrefixOf p)
          = some (.array (old :: convertedValues argv p 0 i p.paramCount))) := by
  have hkey : strncpy (argv.getD i []) (toUnsigned p.argNameLength) = matchPrefixOf p :=
    strncmpEq_take_eq _ p.fmtStr _ (findArg_some_match hfind) hb
  have hkl : (matchPrefixOf p).length < argNameSize := by
    have := List.length_take_le (toUnsigned p.argNameLength) p.fmtStr
    unfold matchPrefixOf argNameSize
    omega
  have hstep := matchStep_found flags argv knownArgs i st p hfind (by omega)
    (by unfold argNameSize; omega)
  rw [hkey, paramLoop_tojson flags argv (matchPrefixOf p) p hroute hkl p.paramCount 0 i st
    (fun t ht => by rw [Nat.zero_add]; exact htype t ht)
    (fun t ht hd => hne t ht (by rwa [Nat.zero_add] at hd)) htok] at hstep
  simp only [] at hstep
  obtain ⟨n, hn⟩ : ∃ n, p.paramCount = n + 1 := ⟨p.paramCount - 1, by omega⟩
  have hvals := convertedValues_succ argv p 0 i n
  rw [← hn, Nat.zero_add] at hvals
  obtain ⟨g1, g2, g3⟩ := get_foldl_add_param (matchPrefixOf p) st.ret_json_obj
    (convertedValue (p.paramTypes.getD 0 NUL) (argv.getD (i + 1) []))
    (convertedValues argv p 1 (i + 1) n) (convertedValue_scalar _ _)
  rw [← hvals] at g1 g2 g3
  refine ⟨_, hstep, rfl, rfl, ?_, g2, g3⟩
  intro hfresh
  have g := g1 hfresh
  constructor
  · intro h1
    have hn0 : n = 0 := by omega
    subst hn0
    rw [g]
    simp [convertedValues]
  · intro h2
    have hne0 : (convertedValues argv p 1 (i + 1) n).isEmpty = false := by
      obtain ⟨m, hm⟩ : ∃ m, n = m + 1 := ⟨n - 1, by omega⟩
      rw [hm, convertedValues_succ]
      rfl
    rw [g, hne0, hvals]
    simp

/-- Witness for C27: `-dims %d %d` declared in route mode TOJSON and the stream
`prog -dims 1 2 -dims 3 4`. The first match, on the empty document, maps `-dims` to the
list `[1, 2]`; the second match, on that document, appends 3 and 4; the call returns the
document that maps `-dims` to `[1, 2, 3, 4]`. -/
theorem multi_parameter_document_witness :
    (∃ st1 : State,
      matchStep ⟨1, 1, 0⟩
          ["prog".toList, "-dims".toList, "1".toList, "2".toList, "-dims".toList, "3".toList,
            "4".toList]
          (registry ⟨1, 1, 0⟩ [⟨"-dims %d %d".toList, [], []⟩]) 1
          (initState (fun _ => .int 0)) = .next 4 st1 ∧
      json_object_object_get_ex st1.ret_json_obj "-dims".toList
        = some (.array [.int 1, .int 2])) ∧
    (∃ st1 : State,
      matchStep ⟨1, 1, 0⟩
          ["prog".toList, "-dims".toList, "1".toList, "2".toList, "-dims".toList, "3".toList,
            "4".toList]
          (registry ⟨1, 1, 0⟩ [⟨"-dims %d %d".toList, [], []⟩]) 4
          ⟨fun _ => .int 0, [("-dims".toList, .array [.int 1, .int 2])], [], []⟩
        = .next 7 st1 ∧
      json_object_object_get_ex st1.ret_json_obj "-dims".toList
        = some (.array [.int 1, .int 2, .int 3, .int 4])) ∧
    (MACSIO_CLARGS_ProcessCmdline none ⟨1, 1, 0⟩ 1
        ["prog".toList, "-dims".toList, "1".toList, "2".toList, "-dims".toList, "3".toList,
          "4".toList]
        [⟨"-dims %d %d".toList, [], []⟩] (fun _ => .int 0)).retobj
      = some [("-dims".toList, .array [.int 1, .int 2, .int 3, .int 4])] := by
  refine ⟨?_, ?_, by rfl⟩
  · obtain ⟨st1, h1, _, _, hfresh, _, _⟩ := multi_parameter_document ⟨1, 1, 0⟩
      ["prog".toList, "-dims".toList, "1".toList, "2".toList, "-dims".toList, "3".toList,
        "4".toList]
      (registry ⟨1, 1, 0⟩ [⟨"-dims %d %d".toList, [], []⟩]) 1 (initState (fun _ => .int 0))
      ⟨[], "-dims %d %d".toList, 5, 2, [Char.ofNat 100, Char.ofNat 100], [none, none]⟩
      (by decide) (by decide) (by decide) (by decide) (by decide) (by decide) (by decide)
      (by decide)
    exact ⟨st1, h1, (hfresh (by rfl)).2 (by decide)⟩
  · obtain ⟨st1, h1, _, _, _, harr, _⟩ := multi_parameter_document ⟨1, 1, 0⟩
      ["prog".toList, "-dims".toList, "1".toList, "2".toList, "-dims".toList, "3".toList,
        "4".toList]
      (registry ⟨1, 1, 0⟩ [⟨"-dims %d %d".toList, [], []⟩]) 4
      ⟨fun _ => .int 0, [("-dims".toList, .array [.int 1, .int 2])], [], []⟩
      ⟨[], "-dims %d %d".toList, 5, 2, [Char.ofNat 100, Char.ofNat 100], [none, none]⟩
      (by decide) (by decide) (by decide) (by decide) (by decide) (by decide) (by decide)
      (by decide)
    exact ⟨st1, h1, harr [.int 1, .int 2] (by rfl)⟩

/-! ### C28: token indices stay in bounds -/

/-- The parameter loop goes on from a head it reaches as it does from its start. -/
theorem ParamReaches.paramLoop_eq {flags : MACSIO_CLARGS_ArgvFlags_t} {argv : List Str}
    {argName : Str} {p : MACSIO_KnownArgInfo_t} {i0 j i : Nat} {st0 st : State}
    (h : ParamReaches flags argv argName p i0 st0 j i st) :
    j ≤ p.paramCount ∧
    paramLoop flags argv argName p p.paramCount 0 i0 st0 =
      paramLoop flags argv argName p (p.paramCount - j) j i st := by
  induction h with
  | start => exact ⟨Nat.zero_le _, rfl⟩
  | @step j i i1 st st1 _ hj hlast hconv ih =>
    refine ⟨hj, ?_⟩
    rw [ih.2]
    obtain ⟨m, hm⟩ : ∃ m, p.paramCount - j = m + 1 := ⟨p.paramCount - j - 1, by omega⟩
    have hm1 : p.paramCount - (j + 1) = m := by omega
    rw [hm, hm1]
    conv_lhs => unfold paramLoop
    simp only [hlast, if_false, hconv]

/-- The token index at a head of the parameter loop lies between the index at which the
loop was entered and `argc - 1`. -/
theorem ParamReaches.bounds {flags : MACSIO_CLARGS_ArgvFlags_t} {argv : List Str}
    {argName : Str} {p : MACSIO_KnownArgInfo_t} {i0 j i : Nat} {st0 st : State}
    (h : ParamReaches flags argv argName p i0 st0 j i st) (h0 : i0 < argv.length) :
    i0 ≤ i ∧ i < argv.length := by
  induction h with
  | start => exact ⟨Nat.le_refl _, h0⟩
  | step _ _ hlast hconv ih =>
    have := convertParam_next hconv
    omega

/-- The parameter loop, entered below `argc`, leaves the token index below `argc`. -/
theorem paramLoop_lt_length {flags : MACSIO_CLARGS_ArgvFlags_t} {argv : List Str}
    {argName : Str} {p : MACSIO_KnownArgInfo_t} (todo : Nat) :
    ∀ {j i i1 : Nat} {st st1 : State}, i < argv.length →
      paramLoop flags argv argName p todo j i st = .next i1 st1 → i1 < argv.length := by
  induction todo with
  | zero =>
    intro j i i1 st st1 hi h
    simp only [paramLoop, Step.next.injEq] at h
    omega
  | succ n ih =>
    intro j i i1 st st1 hi h
    unfold paramLoop at h
    by_cases hlast : i + 1 = argv.length
    · simp [hlast, MACSIO_LOG_MSG] at h
    · simp only [hlast, if_false] at h
      cases hc : convertParam flags argv argName p j i st with
      | next i2 st2 =>
        rw [hc] at h
        have := convertParam_next hc
        exact ih (by omega) h
      | stop o st2 =>
        rw [hc] at h
        exact Step.noConfusion h

/-- An iteration of the matching loop entered below `argc` leaves the token index at most
`argc`. -/
theorem matchStep_le_length {flags : MACSIO_CLARGS_ArgvFlags_t} {argv : List Str}
    {knownArgs : List MACSIO_KnownArgInfo_t} {i i1 : Nat} {st st1 : State}
    (hi : i < argv.length) (h : matchStep flags argv knownArgs i st = .next i1 st1) :
    i1 ≤ argv.length := by
  unfold matchStep at h
  simp only [] at h
  split at h
  · rename_i p hp
    by_cases hover : argNameSize < toUnsigned p.argNameLength
    · rw [if_pos hover] at h
      exact Step.noConfusion h
    · rw [if_neg hover] at h
      split at h
      · rename_i i2 st2 h2
        simp only [Step.next.injEq] at h
        unfold assignArg at h2
        split_ifs at h2
        · have := paramLoop_lt_length _ hi h2
          omega
        · have := storeThrough_next h2; omega
        · have := addToDoc_next h2; omega
        · simp only [Step.next.injEq] at h2; omega
      · exact Step.noConfusion h
  · split at h <;> exact Step.noConfusion h

theorem Reaches.le_length {flags : MACSIO_CLARGS_ArgvFlags_t} {argv : List Str}
    {knownArgs : List MACSIO_KnownArgInfo_t} {i0 i : Nat} {st0 st : State}
    (h : Reaches flags argv knownArgs i0 st0 i st) (h0 : i0 ≤ argv.length) :
    i ≤ argv.length := by
  induction h with
  | start => exact h0
  | step _ hi hstep _ => exact matchStep_le_length hi hstep

/-- C28. Let the matching loop, entered with the start index `argi`, be at its head with
token index `i`. Then `argi <= i`, and `i <= argc` when `argi <= argc`: the token index
never exceeds `argc`. When the iteration at `i` runs (`i < argc`), the classified token
`argv[i]` has its index in `[argi, argc - 1]`. At every head of the parameter loop of a
descriptor in that iteration the token index `i1` lies in `[argi, argc - 1]`, and when
the check `i1 == argc - 1` is passed, the value token `argv[i1 + 1]` that a conversion
reaches by pre-increment has its index in `[argi, argc - 1]` as well: the token exists.
The registry is arbitrary, so this holds for every declaration set. -/
theorem token_index_in_bounds (flags : MACSIO_CLARGS_ArgvFlags_t) (argv : List Str)
    (knownArgs : List MACSIO_KnownArgInfo_t) (argi : Nat) (st0 : State) (i : Nat) (st : State)
    (hreach : Reaches flags argv knownArgs argi st0 i st) :
    argi ≤ i ∧ (argi ≤ argv.length → i ≤ argv.length) ∧
    (i < argv.length →
      i ≤ argv.length - 1 ∧ (∃ tok : Str, argv.get? i = some tok) ∧
      ∀ (p : MACSIO_KnownArgInfo_t) (j i1 : Nat) (st1 : State),
        ParamReaches flags argv (strncpy (argv.getD i []) (toUnsigned p.argNameLength)) p
          i st j i1 st1 →
        argi ≤ i1 ∧ i1 ≤ argv.length - 1 ∧
        (j < p.paramCount → i1 + 1 ≠ argv.length →
          argi ≤ i1 + 1 ∧ i1 + 1 ≤ argv.length - 1 ∧
          ∃ tok : Str, argv.get? (i1 + 1) = some tok)) := by
  have hge := hreach.le
  refine ⟨hge, fun h0 => hreach.le_length h0, ?_⟩
  intro hi
  refine ⟨by omega, ⟨_, get?_of_lt_getD argv i hi⟩, ?_⟩
  intro p j i1 st1 hp
  have hb := hp.bounds hi
  refine ⟨by omega, by omega, ?_⟩
  intro _ hlast
  have hlt : i1 + 1 < argv.length := by omega
  exact ⟨by omega, by omega, _, get?_of_lt_getD argv (i1 + 1) hlt⟩

/-- Witness for C28: with `-n %d` declared and the stream `prog -n 4` entered at index 1,
the classified token has index 1 and the value token, reached by pre-increment at the
start of the parameter loop, has index 2; both lie in `[1, 2]`. -/
theorem token_index_in_bounds_witness :
    Reaches ⟨1, 0, 0⟩ ["prog".toList, "-n".toList, "4".toList]
      (registry ⟨1, 0, 0⟩ [⟨"-n %d".toList, [], [0]⟩]) 1 (initState (fun _ => .int 0))
      1 (initState (fun _ => .int 0)) ∧
    (1 ≤ 1 + 1 ∧ 1 + 1 ≤ ["prog".toList, "-n".toList, "4".toList].length - 1 ∧
      ∃ tok : Str, ["prog".toList, "-n".toList, "4".toList].get? (1 + 1) = some tok) :=
  ⟨Reaches.start,
   (((token_index_in_bounds ⟨1, 0, 0⟩ ["prog".toList, "-n".toList, "4".toList]
      (registry ⟨1, 0, 0⟩ [⟨"-n %d".toList, [], [0]⟩]) 1 (initState (fun _ => .int 0))
      1 (initState (fun _ => .int 0)) Reaches.start).2.2 (by decide)).2.2
      ⟨[], "-n %d".toList, 2, 1, [Char.ofNat 100], [some 0]⟩ 0 1
      (initState (fun _ => .int 0)) ParamReaches.start).2.2 (by decide) (by decide)⟩

/-! ### C29: the index of the size-suffix character -/

/-- C29, the code at the failing input. With `-n %d` declared, the stream `prog -n ""`
supplies the empty string as the value token: `strlen(argv[++i])-1` is -1 and the lookup
`argv[i][n]` reads the byte before the token, which the C language leaves undefined. The
destination is not written. For the token `7` the index is 0, within the token, and the
call returns `MACSIO_CLARGS_OK`. -/
theorem empty_token_suffix_index :
    ("".toList.length : Int) - 1 = -1 ∧
    (MACSIO_CLARGS_ProcessCmdline none ⟨1, 0, 0⟩ 1
        ["prog".toList, "-n".toList, "".toList] [⟨"-n %d".toList, [], [0]⟩]
        (fun _ => .int 7)).outcome = .undef ∧
    (MACSIO_CLARGS_ProcessCmdline none ⟨1, 0, 0⟩ 1
        ["prog".toList, "-n".toList, "".toList] [⟨"-n %d".toList, [], [0]⟩]
        (fun _ => .int 7)).st.mem 0 = .int 7 ∧
    (MACSIO_CLARGS_ProcessCmdline none ⟨1, 1, 0⟩ 1
        ["prog".toList, "-n".toList, "".toList] [⟨"-n %d".toList, [], []⟩]
        (fun _ => .int 7)).outcome = .undef ∧
    (MACSIO_CLARGS_ProcessCmdline none ⟨1, 0, 0⟩ 1
        ["prog".toList, "-n".toList, "7".toList] [⟨"-n %d".toList, [], [0]⟩]
        (fun _ => .int 7)).outcome = .ret MACSIO_CLARGS_OK := by
  decide

end MACSio
